import Mathlib

/-!
# Bandwidth scheduler of the MediaTek xHCI host controller

A shallow embedding of `drivers/usb/host/xhci-mtk-sch.c`, followed by theorems
about it.

Conventions of the embedding.

* `u32` values are natural numbers; every addition, subtraction and
  multiplication of the C code on bandwidth values or endpoint attributes is
  followed by a reduction modulo `2 ^ 32` (`u32`, `u32_sub`).  Loop counters and
  slot indices (`offset`, `i`, `j`, `base + j`) are plain natural numbers: in
  every call the program makes they are below `XHCI_MTK_MAX_ESIT`.
* `XHCI_MTK_MAX_ESIT` is defined in `xhci-mtk.h`, which is not among the
  sources: it is the parameter `MAX_ESIT` of every function that uses it.
* The decoding macros of `xhci.h` (`CTX_TO_EP_TYPE`, `MAX_PACKET_DECODED`, ...)
  are not among the sources either: the structure `xhci_ep_ctx` holds the decoded
  fields.
* C arrays are lists.  An access outside the array is undefined in C; the
  embedding reads `0` there and drops the write (`List.getD`, `List.set`),
  except for the array of bandwidth domains, where the access fails (`none`).
* A list node `struct list_head` is the position of the entry in a Lean list;
  `list_add_tail` appends, `list_del` erases.
-/

namespace XhciMtkSch

set_option maxRecDepth 100000

/-! ## Machine arithmetic -/

/-- Reduction of a natural number to an unsigned 32-bit value. -/
def u32 (x : Nat) : Nat := x % 4294967296

/-- Unsigned 32-bit subtraction `a - b`, wrapping around below zero. -/
def u32_sub (a b : Nat) : Nat := (a + (4294967296 - b % 4294967296)) % 4294967296

/-- The kernel macro `DIV_ROUND_UP(n, d)`, that is `(n + d - 1) / d`, on `u32`
operands.  Division by zero traps in C; here it gives `0`. -/
def DIV_ROUND_UP (n d : Nat) : Nat := u32_sub (u32 (n + d)) 1 / d

/-- Search of the least power of two that is at least `n`, starting from the
power of two `p` and doubling at most `fuel` times. -/
def roundup_loop : Nat → Nat → Nat → Nat
  | 0, p, _ => p
  | fuel + 1, p, n => if n ≤ p then p else roundup_loop fuel (2 * p) n

/-- Modelled from the spec: the kernel helper `roundup_pow_of_two` of
`linux/log2.h` is not among the sources; the spec calls it
`round_up_to_power_of_two`.  It is the least power of two that is at least `n`
(an `unsigned long`, so no 32-bit reduction applies to it). -/
def roundup_pow_of_two (n : Nat) : Nat := roundup_loop n 1 n

/-! ## Constants -/

/-- The bandwidth boundary of a Super-speed domain. -/
def SS_BW_BOUNDARY : Nat := 51000

/-- The bandwidth boundary of a High-speed domain (table 5-5 of the USB 2.0
specification). -/
def HS_BW_BOUNDARY : Nat := 6144

/-- At most 188 Full-speed bytes per microframe. -/
def FS_PAYLOAD_MAX : Nat := 188

/-- The largest number of microframes of a split transfer. -/
def TT_MICROFRAMES_MAX : Nat := 9

/-- The error number `ERANGE` of the kernel headers; the theorems only use that
it is not `0`. -/
def ERANGE : Int := 34

/-- The error number `ENOSPC` of the kernel headers. -/
def ENOSPC : Int := 28

/-- The error number `ENOMEM` of the kernel headers. -/
def ENOMEM : Int := 12

/-- The macro `EP_BPKTS(p)`. -/
def EP_BPKTS (p : Nat) : Nat := p &&& 0x3f

/-- The macro `EP_BCSCOUNT(p)`. -/
def EP_BCSCOUNT (p : Nat) : Nat := u32 ((p &&& 0x7) <<< 8)

/-- The macro `EP_BBM(p)`. -/
def EP_BBM (p : Nat) : Nat := u32 (p <<< 11)

/-- The macro `EP_BOFFSET(p)`. -/
def EP_BOFFSET (p : Nat) : Nat := p &&& 0x3fff

/-- The macro `EP_BREPEAT(p)`. -/
def EP_BREPEAT (p : Nat) : Nat := u32 ((p &&& 0x7fff) <<< 16)

/-! ## Data model -/

/-- The speeds of `enum usb_device_speed` (`linux/usb/ch9.h`). -/
inductive usb_device_speed where
  | USB_SPEED_UNKNOWN
  | USB_SPEED_LOW
  | USB_SPEED_FULL
  | USB_SPEED_HIGH
  | USB_SPEED_WIRELESS
  | USB_SPEED_SUPER
  | USB_SPEED_SUPER_PLUS
  deriving DecidableEq, Repr

/-- The transfer type of an endpoint descriptor, as tested by
`usb_endpoint_xfer_control`, `usb_endpoint_xfer_isoc`, `usb_endpoint_xfer_bulk`
and `usb_endpoint_xfer_int`. -/
inductive usb_xfer_type where
  | XFER_CONTROL
  | XFER_ISOC
  | XFER_BULK
  | XFER_INT
  deriving DecidableEq, Repr

/-- The endpoint type field of an xHCI endpoint context (`CTX_TO_EP_TYPE`).
Only the names of `xhci.h` are kept: the code compares the field with them and
never uses the numbers. -/
inductive xhci_ep_type where
  | EP_NOT_VALID
  | ISOC_OUT_EP
  | BULK_OUT_EP
  | INT_OUT_EP
  | CTRL_EP
  | ISOC_IN_EP
  | BULK_IN_EP
  | INT_IN_EP
  deriving DecidableEq, Repr

/-- What the scheduler reads of a `struct usb_host_endpoint`: its identity (the
address the code compares in `sch_ep->ep == ep`) and, from its descriptor, the
transfer type and the direction. -/
structure usb_host_endpoint where
  id : Nat
  xfer_type : usb_xfer_type
  dir_out : Bool
  deriving DecidableEq, Repr

/-- What the scheduler reads of a device: `udev->speed`, the `real_port` of its
`xhci_virt_device`, and `slot_ctx->tt_info & TT_SLOT` of its slot context. -/
structure usb_device where
  speed : usb_device_speed
  real_port : Nat
  tt_slot : Nat
  deriving DecidableEq, Repr

/-- The endpoint context: the decoded input fields and the two words
`reserved[0]`, `reserved[1]` that the scheduler writes. -/
structure xhci_ep_ctx where
  ep_type : xhci_ep_type
  maxpkt : Nat
  max_burst : Nat
  mult : Nat
  max_esit_payload : Nat
  interval : Nat
  reserved0 : Nat
  reserved1 : Nat
  deriving DecidableEq, Repr

/-- The schedule entry `struct mu3h_sch_ep_info`; `ep` is the identity of the
endpoint it was created for. -/
structure mu3h_sch_ep_info where
  esit : Nat
  num_budget_microframes : Nat
  bw_cost_per_microframe : Nat
  ep : Nat
  offset : Nat
  repeat_ : Nat
  pkts : Nat
  cs_count : Nat
  burst_mode : Nat
  bw_budget_table : List Nat
  deriving DecidableEq, Repr

/-- The bandwidth domain `struct mu3h_sch_bw_info`: the slot counters `bus_bw`
(an array of `XHCI_MTK_MAX_ESIT` words) and the list of admitted entries. -/
structure mu3h_sch_bw_info where
  bus_bw : List Nat
  bw_ep_list : List mu3h_sch_ep_info
  deriving DecidableEq, Repr

/-! ## The functions of `xhci-mtk-sch.c` -/

open usb_device_speed usb_xfer_type xhci_ep_type

/-- `is_fs_or_ls`. -/
def is_fs_or_ls (speed : usb_device_speed) : Bool :=
  speed = USB_SPEED_FULL || speed = USB_SPEED_LOW

/-- `get_bw_index`: the index in the array of bandwidth domains.  The result is
a C `int`. -/
def get_bw_index (num_usb3_ports : Nat) (udev : usb_device) (ep : usb_host_endpoint) : Int :=
  if udev.speed = USB_SPEED_SUPER then
    if ep.dir_out then ((udev.real_port : Int) - 1) * 2
    else ((udev.real_port : Int) - 1) * 2 + 1
  else (udev.real_port : Int) + (num_usb3_ports : Int) - 1

/-- `get_esit`.  A shift by 32 or more is undefined in C; the embedding keeps the
low 32 bits of `2 ^ interval`, which is `0` there. -/
def get_esit (MAX_ESIT : Nat) (ep_ctx : xhci_ep_ctx) : Nat :=
  let esit := u32 (1 <<< ep_ctx.interval)
  if esit > MAX_ESIT then MAX_ESIT else esit

/-- `create_sch_ep`: a zeroed entry with a budget table of the length the code
allocates; `kzalloc_ok = false` is the failure of `kzalloc`. -/
def create_sch_ep (MAX_ESIT : Nat) ( kzalloc_ok : Bool) (udev : usb_device)
    (ep : usb_host_endpoint) (ep_ctx : xhci_ep_ctx) : Option mu3h_sch_ep_info :=
  let len_bw_budget_table :=
    if is_fs_or_ls udev.speed then TT_MICROFRAMES_MAX
    else if udev.speed = USB_SPEED_SUPER ∧ ep.xfer_type = XFER_ISOC then get_esit MAX_ESIT ep_ctx
    else 1
  if kzalloc_ok then
    some { esit := 0, num_budget_microframes := 0, bw_cost_per_microframe := 0, ep := ep.id,
           offset := 0, repeat_ := 0, pkts := 0, cs_count := 0, burst_mode := 0,
           bw_budget_table := List.replicate len_bw_budget_table 0 }
  else none

/-- The loop `for (i = start; i < stop; i++) table[i] = v`. -/
def fill_table (table : List Nat) (start stop v : Nat) : List Nat :=
  (List.range (stop - start)).foldl (fun t k => t.set (start + k) v) table

/-- `setup_sch_info`. -/
def setup_sch_info (MAX_ESIT : Nat) (udev : usb_device) (ep_ctx : xhci_ep_ctx)
    (sch_ep : mu3h_sch_ep_info) : mu3h_sch_ep_info :=
  let ep_type := ep_ctx.ep_type
  let maxpkt := ep_ctx.maxpkt
  let max_burst := ep_ctx.max_burst
  let mult := ep_ctx.mult
  let max_esit_payload := ep_ctx.max_esit_payload
  let bwb_table := sch_ep.bw_budget_table
  let sch_ep := { sch_ep with esit := get_esit MAX_ESIT ep_ctx, offset := 0, burst_mode := 0,
                              repeat_ := 0 }
  if udev.speed = USB_SPEED_HIGH then
    let pkts := u32 (max_burst + 1)
    let cost := u32 (maxpkt * pkts)
    { sch_ep with cs_count := 0, num_budget_microframes := 1, pkts := pkts,
                  bw_cost_per_microframe := cost, bw_budget_table := bwb_table.set 0 cost }
  else if udev.speed = USB_SPEED_SUPER then
    let sch_ep := { sch_ep with cs_count := 0, burst_mode := 1 }
    let esit_pkts := DIV_ROUND_UP max_esit_payload maxpkt
    let esit_pkts := if esit_pkts = 0 then u32 (u32 (mult + 1) * u32 (max_burst + 1)) else esit_pkts
    let sch_ep :=
      if ep_type = INT_IN_EP ∨ ep_type = INT_OUT_EP then
        { sch_ep with pkts := esit_pkts, num_budget_microframes := 1,
                      bw_budget_table := bwb_table.set 0 (u32 (maxpkt * esit_pkts)) }
      else sch_ep
    if ep_type = ISOC_IN_EP ∨ ep_type = ISOC_OUT_EP then
      let pkts :=
        if sch_ep.esit = 1 then esit_pkts
        else if esit_pkts ≤ sch_ep.esit then 1
        else u32 (roundup_pow_of_two esit_pkts / sch_ep.esit)
      let num_budget_microframes := DIV_ROUND_UP esit_pkts pkts
      let repeat_ := if num_budget_microframes > 1 then 1 else 0
      let bw_cost_per_microframe := u32 (maxpkt * pkts)
      let remainder := bw_cost_per_microframe
      let remainder := u32 (remainder * num_budget_microframes)
      let remainder := u32_sub remainder (u32 (maxpkt * esit_pkts))
      let i := u32_sub num_budget_microframes 1
      let bwb_table := fill_table sch_ep.bw_budget_table 0 i bw_cost_per_microframe
      { sch_ep with pkts := pkts, num_budget_microframes := num_budget_microframes,
                    repeat_ := repeat_, bw_cost_per_microframe := bw_cost_per_microframe,
                    bw_budget_table := bwb_table.set i remainder }
    else sch_ep
  else if is_fs_or_ls udev.speed then
    let cs_count := DIV_ROUND_UP maxpkt FS_PAYLOAD_MAX
    let num_budget_microframes := u32 (cs_count + 2)
    let bw_cost_per_microframe := if maxpkt < FS_PAYLOAD_MAX then maxpkt else FS_PAYLOAD_MAX
    let sch_ep := { sch_ep with pkts := 1, cs_count := cs_count,
                                num_budget_microframes := num_budget_microframes,
                                bw_cost_per_microframe := bw_cost_per_microframe }
    if ep_type = ISOC_OUT_EP then
      { sch_ep with bw_budget_table :=
          (fill_table bwb_table 0 num_budget_microframes bw_cost_per_microframe) }
    else if ep_type = INT_OUT_EP then
      { sch_ep with bw_budget_table := bwb_table.set 0 bw_cost_per_microframe }
    else
      { sch_ep with bw_budget_table :=
          (fill_table ((bwb_table.set 0 0).set 1 0) 2 num_budget_microframes
            bw_cost_per_microframe) }
  else sch_ep

/-- `get_max_bw`: the largest `bus_bw[base + j] + bw_budget_table[j]` over the
repetitions `i` of the pattern and its slots `j`, when the entry is scheduled at
`offset`.  (Where `esit` is `0` the C division traps; here `num_esit` is `0`.) -/
def get_max_bw (MAX_ESIT : Nat) (sch_bw : mu3h_sch_bw_info) (sch_ep : mu3h_sch_ep_info)
    (offset : Nat) : Nat :=
  let num_esit := MAX_ESIT / sch_ep.esit
  (List.range num_esit).foldl
    (fun max_bw i =>
      let base := offset + i * sch_ep.esit
      (List.range sch_ep.num_budget_microframes).foldl
        (fun max_bw j =>
          let bw := u32 (sch_bw.bus_bw.getD (base + j) 0 + sch_ep.bw_budget_table.getD j 0)
          if bw > max_bw then bw else max_bw)
        max_bw)
    0

/-- `update_bus_bw`: add (`used`) or subtract the budget table of the entry at
its offset, in every repetition of its pattern. -/
def update_bus_bw (MAX_ESIT : Nat) (sch_bw : mu3h_sch_bw_info) (sch_ep : mu3h_sch_ep_info)
    (used : Bool) : mu3h_sch_bw_info :=
  let num_esit := MAX_ESIT / sch_ep.esit
  { sch_bw with bus_bw :=
      ((List.range num_esit).foldl
        (fun bus_bw i =>
          let base := sch_ep.offset + i * sch_ep.esit
          (List.range sch_ep.num_budget_microframes).foldl
            (fun bus_bw j =>
              if used then
                bus_bw.set (base + j)
                  (u32 (bus_bw.getD (base + j) 0 + sch_ep.bw_budget_table.getD j 0))
              else
                bus_bw.set (base + j)
                  (u32_sub (bus_bw.getD (base + j) 0) (sch_ep.bw_budget_table.getD j 0)))
            bus_bw)
        sch_bw.bus_bw) }

/-- `sch_offset_used`: some entry of the domain has this offset. -/
def sch_offset_used (sch_bw : mu3h_sch_bw_info) (offset : Nat) : Bool :=
  sch_bw.bw_ep_list.any (fun sch_ep => sch_ep.offset = offset)

/-- The search loop of `check_sch_bw`, from `offset` on, with the current
`(min_bw, min_index)`; `fuel` is the number of iterations the loop header
`offset < esit` still allows, `esit - offset`. -/
def check_sch_bw_loop (MAX_ESIT : Nat) (udev : usb_device) (sch_bw : mu3h_sch_bw_info)
    (sch_ep : mu3h_sch_ep_info) : Nat → Nat → Nat × Nat → Nat × Nat
  | 0, _, st => st
  | fuel + 1, offset, (min_bw, min_index) =>
    if offset + sch_ep.num_budget_microframes > sch_ep.esit then (min_bw, min_index)
    else if is_fs_or_ls udev.speed && offset % 8 = 6 then
      check_sch_bw_loop MAX_ESIT udev sch_bw sch_ep fuel (offset + 1) (min_bw, min_index)
    else
      let worst_bw := get_max_bw MAX_ESIT sch_bw sch_ep offset
      let st : Nat × Nat :=
        if min_bw > worst_bw then (worst_bw, offset)
        else if min_bw = worst_bw then
          if sch_offset_used sch_bw min_index && !sch_offset_used sch_bw offset then
            (min_bw, offset)
          else (min_bw, min_index)
        else (min_bw, min_index)
      if st.1 = 0 then st
      else check_sch_bw_loop MAX_ESIT udev sch_bw sch_ep fuel (offset + 1) st

/-- The pair `(min_bw, min_index)` with which the search loop of `check_sch_bw`
ends: it starts at offset `0` with `min_bw = ~0` and `min_index = 0`. -/
def check_sch_bw_search (MAX_ESIT : Nat) (udev : usb_device) (sch_bw : mu3h_sch_bw_info)
    (sch_ep : mu3h_sch_ep_info) : Nat × Nat :=
  check_sch_bw_loop MAX_ESIT udev sch_bw sch_ep sch_ep.esit 0 (4294967295, 0)

/-- `check_sch_bw`: the return value, the domain and the entry after the call. -/
def check_sch_bw (MAX_ESIT : Nat) (udev : usb_device) (sch_bw : mu3h_sch_bw_info)
    (sch_ep : mu3h_sch_ep_info) : Int × mu3h_sch_bw_info × mu3h_sch_ep_info :=
  let st := check_sch_bw_search MAX_ESIT udev sch_bw sch_ep
  let min_bw := st.1
  let min_index := st.2
  let sch_ep := { sch_ep with offset := min_index }
  let bw_boundary := if udev.speed = USB_SPEED_SUPER then SS_BW_BOUNDARY else HS_BW_BOUNDARY
  if min_bw > bw_boundary then (-ERANGE, sch_bw, sch_ep)
  else (0, update_bus_bw MAX_ESIT sch_bw sch_ep true, sch_ep)

/-- `need_bw_sch`. -/
def need_bw_sch (ep : usb_host_endpoint) (speed : usb_device_speed) (has_tt : Nat) : Bool :=
  if ep.xfer_type = XFER_CONTROL ∨ ep.xfer_type = XFER_BULK then false
  else if is_fs_or_ls speed && has_tt = 0 then false
  else true

/-- The element `sch_array[bw_index]` of the array of bandwidth domains; `none`
when the index is outside the array. -/
def sch_array_at (sch_array : List mu3h_sch_bw_info) (bw_index : Int) :
    Option mu3h_sch_bw_info :=
  if bw_index < 0 then none else sch_array[bw_index.toNat]?

/-- `xhci_mtk_sch_init`: the return value and, on success, the zeroed array of
`num_u3_ports * 2 + num_u2_ports` bandwidth domains, each with an empty list;
`kcalloc_ok = false` is the failure of `kcalloc`. -/
def xhci_mtk_sch_init (MAX_ESIT num_u3_ports num_u2_ports : Nat) ( kcalloc_ok : Bool) :
    Int × Option (List mu3h_sch_bw_info) :=
  let num_usb_bus := num_u3_ports * 2 + num_u2_ports
  if kcalloc_ok then
    (0, some (List.replicate num_usb_bus
      { bus_bw := List.replicate MAX_ESIT 0, bw_ep_list := [] }))
  else (-ENOMEM, none)

/-- `xhci_mtk_add_ep_quirk`: the return value, the array of bandwidth domains
and the endpoint context after the call; `none` when the domain index is
outside the array. -/
def xhci_mtk_add_ep_quirk (MAX_ESIT num_usb3_ports : Nat) (sch_array : List mu3h_sch_bw_info)
    ( kzalloc_ok : Bool) (udev : usb_device) (ep : usb_host_endpoint) (ep_ctx : xhci_ep_ctx) :
    Option (Int × List mu3h_sch_bw_info × xhci_ep_ctx) :=
  if !need_bw_sch ep udev.speed udev.tt_slot then
    if ep.xfer_type = XFER_INT ∨ ep.xfer_type = XFER_ISOC then
      some (0, sch_array, { ep_ctx with reserved0 := ep_ctx.reserved0 ||| EP_BPKTS 1 })
    else some (0, sch_array, ep_ctx)
  else
    let bw_index := get_bw_index num_usb3_ports udev ep
    match create_sch_ep MAX_ESIT kzalloc_ok udev ep ep_ctx with
    | none => some (-ENOMEM, sch_array, ep_ctx)
    | some sch_ep =>
      let sch_ep := setup_sch_info MAX_ESIT udev ep_ctx sch_ep
      match sch_array_at sch_array bw_index with
      | none => none
      | some sch_bw =>
        let res := check_sch_bw MAX_ESIT udev sch_bw sch_ep
        if res.1 ≠ 0 then some (-ENOSPC, sch_array, ep_ctx)
        else
          let sch_bw := res.2.1
          let sch_ep := res.2.2
          let sch_bw := { sch_bw with bw_ep_list := sch_bw.bw_ep_list ++ [sch_ep] }
          some (0, sch_array.set bw_index.toNat sch_bw,
            { ep_ctx with
                reserved0 := ep_ctx.reserved0 |||
                  (EP_BPKTS sch_ep.pkts ||| EP_BCSCOUNT sch_ep.cs_count |||
                    EP_BBM sch_ep.burst_mode),
                reserved1 := ep_ctx.reserved1 |||
                  (EP_BOFFSET sch_ep.offset ||| EP_BREPEAT sch_ep.repeat_) })

/-- `xhci_mtk_drop_ep_quirk`: the array of bandwidth domains and the endpoint
context after the call; `none` when the domain index is outside the array. -/
def xhci_mtk_drop_ep_quirk (MAX_ESIT num_usb3_ports : Nat) (sch_array : List mu3h_sch_bw_info)
    (udev : usb_device) (ep : usb_host_endpoint) (ep_ctx : xhci_ep_ctx) :
    Option (List mu3h_sch_bw_info × xhci_ep_ctx) :=
  if !need_bw_sch ep udev.speed udev.tt_slot then some (sch_array, ep_ctx)
  else
    let bw_index := get_bw_index num_usb3_ports udev ep
    match sch_array_at sch_array bw_index with
    | none => none
    | some sch_bw =>
      let sch_bw :=
        match sch_bw.bw_ep_list.find? (fun sch_ep => sch_ep.ep = ep.id) with
        | some sch_ep =>
          { update_bus_bw MAX_ESIT sch_bw sch_ep false with
              bw_ep_list := sch_bw.bw_ep_list.eraseP (fun sch_ep => sch_ep.ep = ep.id) }
        | none => sch_bw
      some (sch_array.set bw_index.toNat sch_bw, { ep_ctx with reserved0 := 0, reserved1 := 0 })

/-! ## Notions used by the statements -/

/-- The offsets the search loop of `check_sch_bw` evaluates: `offset` in
`[0, esit)` with `offset + num_budget_microframes <= esit`, and not in
microframe Y6 (`offset % 8 == 6`) for a Low/Full-speed device. -/
def candidate (udev : usb_device) (sch_ep : mu3h_sch_ep_info) (offset : Nat) : Prop :=
  offset < sch_ep.esit ∧ offset + sch_ep.num_budget_microframes ≤ sch_ep.esit ∧
    ¬ (is_fs_or_ls udev.speed = true ∧ offset % 8 = 6)

instance (udev : usb_device) (sch_ep : mu3h_sch_ep_info) (offset : Nat) :
    Decidable (candidate udev sch_ep offset) := by
  unfold candidate; infer_instance

/-- The bandwidth boundary `check_sch_bw` compares with. -/
def bw_boundary (udev : usb_device) : Nat :=
  if udev.speed = USB_SPEED_SUPER then SS_BW_BOUNDARY else HS_BW_BOUNDARY

/-- The statement `bus_bw[k] += b` (`used`) or `bus_bw[k] -= b` of `update_bus_bw`
on the value of the slot. -/
def bw_step (used : Bool) (x b : Nat) : Nat := if used then u32 (x + b) else u32_sub x b

/-- The root ports a device of a given speed can be on, with `N3` Super-speed
root ports numbered `1..N3` and `N2` slower-speed root ports numbered
`N3+1..N3+N2`. -/
def port_valid (N3 N2 : Nat) (udev : usb_device) : Prop :=
  if udev.speed = USB_SPEED_SUPER then 1 ≤ udev.real_port ∧ udev.real_port ≤ N3
  else N3 + 1 ≤ udev.real_port ∧ udev.real_port ≤ N3 + N2

instance (N3 N2 : Nat) (udev : usb_device) : Decidable (port_valid N3 N2 udev) := by
  unfold port_valid; infer_instance

/-- The widths of the decoded fields of an endpoint context: 16 bits for the max
packet size, 8 for the max burst, 2 for mult, 24 for the max ESIT payload. -/
def ctx_wf (ep_ctx : xhci_ep_ctx) : Prop :=
  ep_ctx.maxpkt < 65536 ∧ ep_ctx.max_burst < 256 ∧ ep_ctx.mult < 4 ∧
    ep_ctx.max_esit_payload < 16777216

instance (ep_ctx : xhci_ep_ctx) : Decidable (ctx_wf ep_ctx) := by
  unfold ctx_wf; infer_instance

/-- The bandwidth the member `m` of a domain adds to the slot `s`: the sum of
`bw_budget_table[j]` over the pairs `(i, j)` with `i < XHCI_MTK_MAX_ESIT / esit`,
`j < num_budget_microframes` and `offset + i * esit + j = s`. -/
def slot_contrib (MAX_ESIT : Nat) (m : mu3h_sch_ep_info) (s : Nat) : Nat :=
  ∑ i ∈ Finset.range (MAX_ESIT / m.esit), ∑ j ∈ Finset.range m.num_budget_microframes,
    if m.offset + i * m.esit + j = s then m.bw_budget_table.getD j 0 else 0

/-- The sum of the contributions of all members to the slot `s`. -/
def slot_sum (MAX_ESIT : Nat) (members : List mu3h_sch_ep_info) (s : Nat) : Nat :=
  (members.map (fun m => slot_contrib MAX_ESIT m s)).sum

/-- The arrays of bandwidth domains reachable from `init` by calls of
`xhci_mtk_add_ep_quirk` (with endpoint contexts whose fields have their widths)
and of `xhci_mtk_drop_ep_quirk`. -/
inductive Reachable (MAX_ESIT num_usb3_ports : Nat) (init : List mu3h_sch_bw_info) :
    List mu3h_sch_bw_info → Prop where
  | start : Reachable MAX_ESIT num_usb3_ports init init
  | add (sch_array : List mu3h_sch_bw_info) ( kzalloc_ok : Bool) (udev : usb_device)
      (ep : usb_host_endpoint) (ep_ctx : xhci_ep_ctx) (ret : Int)
      (sch_array2 : List mu3h_sch_bw_info) (ep_ctx2 : xhci_ep_ctx) :
      Reachable MAX_ESIT num_usb3_ports init sch_array → ctx_wf ep_ctx →
      xhci_mtk_add_ep_quirk MAX_ESIT num_usb3_ports sch_array kzalloc_ok udev ep ep_ctx
        = some (ret, sch_array2, ep_ctx2) →
      Reachable MAX_ESIT num_usb3_ports init sch_array2
  | drop (sch_array : List mu3h_sch_bw_info) (udev : usb_device) (ep : usb_host_endpoint)
      (ep_ctx : xhci_ep_ctx) (sch_array2 : List mu3h_sch_bw_info) (ep_ctx2 : xhci_ep_ctx) :
      Reachable MAX_ESIT num_usb3_ports init sch_array →
      xhci_mtk_drop_ep_quirk MAX_ESIT num_usb3_ports sch_array udev ep ep_ctx
        = some (sch_array2, ep_ctx2) →
      Reachable MAX_ESIT num_usb3_ports init sch_array2

/-- The invariant of a bandwidth domain: `bus_bw` has `XHCI_MTK_MAX_ESIT` slots,
each slot is the sum of the contributions of the members and at most 51000,
and the pattern of every member fits in its interval. -/
def dom_inv (MAX_ESIT : Nat) (d : mu3h_sch_bw_info) : Prop :=
  d.bus_bw.length = MAX_ESIT ∧
  (∀ s, s < MAX_ESIT → d.bus_bw.getD s 0 = slot_sum MAX_ESIT d.bw_ep_list s) ∧
  (∀ s, s < MAX_ESIT → d.bus_bw.getD s 0 ≤ 51000) ∧
  (∀ m ∈ d.bw_ep_list, m.offset + m.num_budget_microframes ≤ m.esit)

/-! ## Concrete inputs

The value `64` is the one `XHCI_MTK_MAX_ESIT` has in the Linux sources. -/

/-- A zeroed schedule entry with a budget table of `len` words, as `kzalloc`
returns it. -/
def ex_zeroed (ep len : Nat) : mu3h_sch_ep_info :=
  { esit := 0, num_budget_microframes := 0, bw_cost_per_microframe := 0, ep := ep, offset := 0,
    repeat_ := 0, pkts := 0, cs_count := 0, burst_mode := 0,
    bw_budget_table := List.replicate len 0 }

/-- A High-speed device on root port 2 (the first port after one Super-speed
port), not behind a transaction translator. -/
def ex_hs_udev : usb_device := { speed := USB_SPEED_HIGH, real_port := 2, tt_slot := 0 }

/-- A High-speed interrupt IN endpoint. -/
def ex_hs_ep : usb_host_endpoint := { id := 1, xfer_type := XFER_INT, dir_out := false }

/-- Its context: max packet size 64, no burst, interval exponent 0. -/
def ex_hs_ctx : xhci_ep_ctx :=
  { ep_type := INT_IN_EP, maxpkt := 64, max_burst := 0, mult := 0, max_esit_payload := 64,
    interval := 0, reserved0 := 0, reserved1 := 0 }

/-- The entry `setup_sch_info` builds for it. -/
def ex_hs_entry : mu3h_sch_ep_info := setup_sch_info 64 ex_hs_udev ex_hs_ctx (ex_zeroed 1 1)

/-- A domain of 64 slots that all hold `v`, without members. -/
def ex_flat_bw (v : Nat) : mu3h_sch_bw_info := { bus_bw := List.replicate 64 v, bw_ep_list := [] }

/-- The context of a High-speed endpoint of 64 bytes with interval exponent 2
(`esit = 4`). -/
def ex_hs_ctx4 : xhci_ep_ctx := { ex_hs_ctx with interval := 2 }

/-- The entry `setup_sch_info` builds for it. -/
def ex_hs_entry4 : mu3h_sch_ep_info := setup_sch_info 64 ex_hs_udev ex_hs_ctx4 (ex_zeroed 1 1)

/-- A domain of 64 slots with the loads 300, 100, 200, 100 repeated, and one
member at offset 1. -/
def ex_wave_bw : mu3h_sch_bw_info :=
  { bus_bw := (List.replicate 16 [300, 100, 200, 100]).flatten,
    bw_ep_list := [{ ex_hs_entry4 with ep := 9, offset := 1 }] }

/-- A Full-speed device behind a transaction translator. -/
def ex_fs_udev : usb_device := { speed := USB_SPEED_FULL, real_port := 2, tt_slot := 1 }

/-- The context of a Full-speed interrupt IN endpoint of 8 bytes with interval
exponent 4 (`esit = 16`). -/
def ex_fs_ctx : xhci_ep_ctx :=
  { ep_type := INT_IN_EP, maxpkt := 8, max_burst := 0, mult := 0, max_esit_payload := 8,
    interval := 4, reserved0 := 0, reserved1 := 0 }

/-- The entry `setup_sch_info` builds for it. -/
def ex_fs_entry : mu3h_sch_ep_info :=
  setup_sch_info 64 ex_fs_udev ex_fs_ctx (ex_zeroed 1 TT_MICROFRAMES_MAX)

/-- A domain of 64 slots loaded with 100 everywhere except in the slots 6, 7
and 8 of every 16, which are free. -/
def ex_y6_bw : mu3h_sch_bw_info :=
  { bus_bw := (List.range 64).map
      (fun s => if s % 16 = 6 ∨ s % 16 = 7 ∨ s % 16 = 8 then 0 else 100),
    bw_ep_list := [] }

/-- A High-speed isochronous IN endpoint. -/
def ex_isoc_ep (id : Nat) : usb_host_endpoint := { id := id, xfer_type := XFER_ISOC, dir_out := false }

/-- The context of a High-speed isochronous endpoint with max packet size 0
(a zero-bandwidth endpoint) and interval exponent 1 (`esit = 2`). -/
def ex_zero_ctx : xhci_ep_ctx :=
  { ep_type := ISOC_IN_EP, maxpkt := 0, max_burst := 0, mult := 0, max_esit_payload := 0,
    interval := 1, reserved0 := 0, reserved1 := 0 }

/-- The entry `setup_sch_info` builds for the endpoint `ep` with that context. -/
def ex_zero_entry (ep : Nat) : mu3h_sch_ep_info :=
  setup_sch_info 64 ex_hs_udev ex_zero_ctx (ex_zeroed ep 1)

/-- The domain of 64 free slots whose only member is the zero-bandwidth
endpoint 1, at offset 0. -/
def ex_zero_bw : mu3h_sch_bw_info :=
  { bus_bw := List.replicate 64 0, bw_ep_list := [ex_zero_entry 1] }

/-- The domain after the endpoint 1 with context `ex_hs_ctx4` was added to a free
domain: cost 64 at offset 0 of every 4 slots. -/
def ex_once_bw : mu3h_sch_bw_info :=
  { bus_bw := (List.replicate 16 [64, 0, 0, 0]).flatten, bw_ep_list := [ex_hs_entry4] }

/-- The domain after the same endpoint was added a second time: the second
entry is at offset 1. -/
def ex_twice_bw : mu3h_sch_bw_info :=
  { bus_bw := (List.replicate 16 [64, 64, 0, 0]).flatten,
    bw_ep_list := [ex_hs_entry4, { ex_hs_entry4 with offset := 1 }] }

/-- The domain after the endpoint was then dropped once: the first entry, at
offset 0, is the one removed. -/
def ex_after_bw : mu3h_sch_bw_info :=
  { bus_bw := (List.replicate 16 [0, 64, 0, 0]).flatten,
    bw_ep_list := [{ ex_hs_entry4 with offset := 1 }] }

/-- A Super-speed device on root port 1. -/
def ex_ss_udev : usb_device := { speed := USB_SPEED_SUPER, real_port := 1, tt_slot := 0 }

/-- The context of a Super-speed isochronous IN endpoint with max packet size
1024. -/
def ex_ss_ctx (max_esit_payload interval : Nat) : xhci_ep_ctx :=
  { ep_type := ISOC_IN_EP, maxpkt := 1024, max_burst := 0, mult := 0,
    max_esit_payload := max_esit_payload, interval := interval, reserved0 := 0, reserved1 := 0 }

/-- A Full-speed device on a root port, not behind a transaction translator. -/
def ex_fs_root_udev : usb_device := { speed := USB_SPEED_FULL, real_port := 2, tt_slot := 0 }

/-- The local `esit_pkts` of the Super-speed branch of `setup_sch_info`:
`DIV_ROUND_UP(max_esit_payload, maxpkt)`, or `(mult + 1) * (max_burst + 1)` when
that is 0. -/
def ss_esit_pkts (ep_ctx : xhci_ep_ctx) : Nat :=
  if DIV_ROUND_UP ep_ctx.max_esit_payload ep_ctx.maxpkt = 0 then
    u32 (u32 (ep_ctx.mult + 1) * u32 (ep_ctx.max_burst + 1))
  else DIV_ROUND_UP ep_ctx.max_esit_payload ep_ctx.maxpkt

/-- The stores `table[i] = v` of the loop `for (i = start; i < stop; i++)`, in
program order, each as the pair of its index and its value. -/
def fill_table_stores (start stop v : Nat) : List (Nat × Nat) :=
  (List.range (stop - start)).map (fun k => (start + k, v))

/-- Execution of a sequence of stores on a table; a store past the end of the
table is dropped. -/
def run_stores (table : List Nat) (stores : List (Nat × Nat)) : List Nat :=
  stores.foldl (fun t s => t.set s.1 s.2) table

/-- The stores of `setup_sch_info` into `bwb_table`, in program order, each as the
pair of its index and its value. -/
def setup_sch_info_stores (MAX_ESIT : Nat) (udev : usb_device) (ep_ctx : xhci_ep_ctx) :
    List (Nat × Nat) :=
  let ep_type := ep_ctx.ep_type
  let maxpkt := ep_ctx.maxpkt
  let max_burst := ep_ctx.max_burst
  let mult := ep_ctx.mult
  let max_esit_payload := ep_ctx.max_esit_payload
  let esit := get_esit MAX_ESIT ep_ctx
  if udev.speed = USB_SPEED_HIGH then
    let pkts := u32 (max_burst + 1)
    let cost := u32 (maxpkt * pkts)
    [(0, cost)]
  else if udev.speed = USB_SPEED_SUPER then
    let esit_pkts := DIV_ROUND_UP max_esit_payload maxpkt
    let esit_pkts := if esit_pkts = 0 then u32 (u32 (mult + 1) * u32 (max_burst + 1)) else esit_pkts
    (if ep_type = INT_IN_EP ∨ ep_type = INT_OUT_EP then [(0, u32 (maxpkt * esit_pkts))] else []) ++
    (if ep_type = ISOC_IN_EP ∨ ep_type = ISOC_OUT_EP then
      let pkts :=
        if esit = 1 then esit_pkts
        else if esit_pkts ≤ esit then 1
        else u32 (roundup_pow_of_two esit_pkts / esit)
      let num_budget_microframes := DIV_ROUND_UP esit_pkts pkts
      let bw_cost_per_microframe := u32 (maxpkt * pkts)
      let remainder := bw_cost_per_microframe
      let remainder := u32 (remainder * num_budget_microframes)
      let remainder := u32_sub remainder (u32 (maxpkt * esit_pkts))
      let i := u32_sub num_budget_microframes 1
      fill_table_stores 0 i bw_cost_per_microframe ++ [(i, remainder)]
    else [])
  else if is_fs_or_ls udev.speed then
    let cs_count := DIV_ROUND_UP maxpkt FS_PAYLOAD_MAX
    let num_budget_microframes := u32 (cs_count + 2)
    let bw_cost_per_microframe := if maxpkt < FS_PAYLOAD_MAX then maxpkt else FS_PAYLOAD_MAX
    if ep_type = ISOC_OUT_EP then
      fill_table_stores 0 num_budget_microframes bw_cost_per_microframe
    else if ep_type = INT_OUT_EP then
      [(0, bw_cost_per_microframe)]
    else
      [(0, 0), (1, 0)] ++ fill_table_stores 2 num_budget_microframes bw_cost_per_microframe
  else []

/-- The indices of `bus_bw` that `get_max_bw` reads when it is called with
`offset`, in program order: `base + j` for every repetition `i` of the pattern
and every slot `j`. -/
def get_max_bw_reads (MAX_ESIT : Nat) (sch_ep : mu3h_sch_ep_info) (offset : Nat) : List Nat :=
  let num_esit := MAX_ESIT / sch_ep.esit
  (List.range num_esit).foldl
    (fun reads i =>
      let base := offset + i * sch_ep.esit
      (List.range sch_ep.num_budget_microframes).foldl
        (fun reads j => reads ++ [base + j])
        reads)
    []

/-- The indices of `bus_bw` that `update_bus_bw` writes, in program order:
`base + j` for every repetition `i` of the pattern and every slot `j`, from the
offset of the entry. -/
def update_bus_bw_writes (MAX_ESIT : Nat) (sch_ep : mu3h_sch_ep_info) : List Nat :=
  let num_esit := MAX_ESIT / sch_ep.esit
  (List.range num_esit).foldl
    (fun writes i =>
      let base := sch_ep.offset + i * sch_ep.esit
      (List.range sch_ep.num_budget_microframes).foldl
        (fun writes j => writes ++ [base + j])
        writes)
    []

/-- The search loop of `check_sch_bw` as in `check_sch_bw_loop`, which also
records in `calls` the offsets it passes to `get_max_bw`, in program order. -/
def check_sch_bw_loop_traced (MAX_ESIT : Nat) (udev : usb_device) (sch_bw : mu3h_sch_bw_info)
    (sch_ep : mu3h_sch_ep_info) : Nat → Nat → Nat × Nat → List Nat → (Nat × Nat) × List Nat
  | 0, _, st, calls => (st, calls)
  | fuel + 1, offset, (min_bw, min_index), calls =>
    if offset + sch_ep.num_budget_microframes > sch_ep.esit then ((min_bw, min_index), calls)
    else if is_fs_or_ls udev.speed && offset % 8 = 6 then
      check_sch_bw_loop_traced MAX_ESIT udev sch_bw sch_ep fuel (offset + 1) (min_bw, min_index)
        calls
    else
      let worst_bw := get_max_bw MAX_ESIT sch_bw sch_ep offset
      let calls := calls ++ [offset]
      let st : Nat × Nat :=
        if min_bw > worst_bw then (worst_bw, offset)
        else if min_bw = worst_bw then
          if sch_offset_used sch_bw min_index && !sch_offset_used sch_bw offset then
            (min_bw, offset)
          else (min_bw, min_index)
        else (min_bw, min_index)
      if st.1 = 0 then (st, calls)
      else check_sch_bw_loop_traced MAX_ESIT udev sch_bw sch_ep fuel (offset + 1) st calls

/-- The offsets with which `check_sch_bw` calls `get_max_bw`, in program order. -/
def check_sch_bw_calls (MAX_ESIT : Nat) (udev : usb_device) (sch_bw : mu3h_sch_bw_info)
    (sch_ep : mu3h_sch_ep_info) : List Nat :=
  (check_sch_bw_loop_traced MAX_ESIT udev sch_bw sch_ep sch_ep.esit 0 (4294967295, 0) []).2

/-! ## Lemmas on the loops -/


theorem getD_set (l : List Nat) (i j a : Nat) :
    (l.set i a).getD j 0 = if i = j ∧ i < l.length then a else l.getD j 0 := by
  simp only [List.getD_eq_getElem?_getD, List.getElem?_set]
  by_cases h : i = j
  · subst h
    by_cases h2 : i < l.length
    · simp [h2]
    · simp [h2]
      rw [List.getElem?_eq_none (by omega)]; rfl
  · simp [h]

theorem foldl_range_succ {α : Type} (f : α → Nat → α) (a : α) (n : Nat) :
    (List.range (n + 1)).foldl f a = f ((List.range n).foldl f a) n := by
  rw [List.range_succ, List.foldl_append]; rfl

theorem inner_length (g : Nat → Nat → Nat) (t : Nat → Nat) (base k : Nat) (bw : List Nat) :
    ((List.range k).foldl (fun b j => b.set (base + j) (g (b.getD (base + j) 0) (t j))) bw).length
      = bw.length := by
  induction k with
  | zero => simp
  | succ k ih => rw [foldl_range_succ, List.length_set, ih]

theorem inner_getD (g : Nat → Nat → Nat) (t : Nat → Nat) (base k : Nat) (bw : List Nat) (s : Nat) :
    ((List.range k).foldl (fun b j => b.set (base + j) (g (b.getD (base + j) 0) (t j))) bw).getD s 0
      = if base ≤ s ∧ s < base + k ∧ s < bw.length then g (bw.getD s 0) (t (s - base))
        else bw.getD s 0 := by
  induction k generalizing s with
  | zero =>
    have h : ¬ (base ≤ s ∧ s < base + 0 ∧ s < bw.length) := by omega
    rw [if_neg h]; rfl
  | succ k ih =>
    rw [foldl_range_succ, getD_set, inner_length, ih, ih]
    by_cases h1 : base + k = s
    · subst h1
      by_cases h2 : base + k < bw.length
      · have e : base + k - base = k := by omega
        simp [h2, e]
      · simp [h2]
    · by_cases h3 : base ≤ s ∧ s < base + k ∧ s < bw.length
      · have h4 : base ≤ s ∧ s < base + (k + 1) ∧ s < bw.length := by omega
        simp [h1, h3, h4]
      · have h4 : ¬ (base ≤ s ∧ s < base + (k + 1) ∧ s < bw.length) := by omega
        simp [h1, h3, h4]

theorem outer_length (g : Nat → Nat → Nat) (t : Nat → Nat) (off esit num n : Nat)
    (bw : List Nat) :
    ((List.range n).foldl (fun b i => (List.range num).foldl
        (fun b j => b.set (off + i * esit + j) (g (b.getD (off + i * esit + j) 0) (t j))) b)
      bw).length = bw.length := by
  induction n with
  | zero => simp
  | succ n ih => rw [foldl_range_succ, inner_length, ih]

theorem mul_add_lt_mul (esit : Nat) {i n j : Nat} (hi : i < n) (hj : j < esit) :
    i * esit + j < n * esit := by
  have h : (i + 1) * esit ≤ n * esit := Nat.mul_le_mul_right esit hi
  have h2 : (i + 1) * esit = i * esit + esit := by ring
  omega

theorem outer_getD_untouched (g : Nat → Nat → Nat) (t : Nat → Nat) (off esit num n : Nat)
    (bw : List Nat) (s : Nat) (hs : ∀ i, i < n → ∀ j, j < num → s ≠ off + i * esit + j) :
    ((List.range n).foldl (fun b i => (List.range num).foldl
        (fun b j => b.set (off + i * esit + j) (g (b.getD (off + i * esit + j) 0) (t j))) b)
      bw).getD s 0 = bw.getD s 0 := by
  induction n with
  | zero => simp
  | succ n ih =>
    rw [foldl_range_succ, inner_getD, ih (fun i hi j hj => hs i (by omega) j hj)]
    have h : ¬ (off + n * esit ≤ s ∧ s < off + n * esit + num) := by
      intro ⟨h1, h2⟩
      exact hs n (by omega) (s - (off + n * esit)) (by omega) (by omega)
    rw [if_neg (fun hh => h ⟨hh.1, hh.2.1⟩)]

theorem outer_getD_touched (g : Nat → Nat → Nat) (t : Nat → Nat) (off esit num n : Nat)
    (bw : List Nat) (hnum : num ≤ esit) (i j : Nat) (hi : i < n) (hj : j < num)
    (hlen : off + i * esit + j < bw.length) :
    ((List.range n).foldl (fun b i => (List.range num).foldl
        (fun b j => b.set (off + i * esit + j) (g (b.getD (off + i * esit + j) 0) (t j))) b)
      bw).getD (off + i * esit + j) 0 = g (bw.getD (off + i * esit + j) 0) (t j) := by
  induction n with
  | zero => omega
  | succ n ih =>
    rw [foldl_range_succ, inner_getD, outer_length]
    by_cases hin : i = n
    · subst hin
      have e : off + i * esit + j - (off + i * esit) = j := by omega
      rw [if_pos ⟨by omega, by omega, hlen⟩, e]
      rw [outer_getD_untouched]
      intro i2 hi2 j2 hj2
      have := mul_add_lt_mul esit hi2 (show j2 < esit by omega)
      omega
    · have hi2 : i < n := by omega
      have := mul_add_lt_mul esit hi2 (show j < esit by omega)
      rw [if_neg (by omega)]
      exact ih hi2



theorem inner_max_spec (v : Nat → Nat) (k m0 : Nat) :
    m0 ≤ (List.range k).foldl (fun m j => if v j > m then v j else m) m0 ∧
    (∀ j, j < k → v j ≤ (List.range k).foldl (fun m j => if v j > m then v j else m) m0) ∧
    (∀ B, m0 ≤ B → (∀ j, j < k → v j ≤ B) →
      (List.range k).foldl (fun m j => if v j > m then v j else m) m0 ≤ B) := by
  induction k with
  | zero => simp
  | succ k ih =>
    rw [foldl_range_succ]
    obtain ⟨h1, h2, h3⟩ := ih
    refine ⟨?_, ?_, ?_⟩
    · split_ifs <;> omega
    · intro j hj
      by_cases hjk : j = k
      · subst hjk; split_ifs <;> omega
      · have := h2 j (by omega)
        split_ifs <;> omega
    · intro B hB hv
      have := h3 B hB (fun j hj => hv j (by omega))
      have := hv k (by omega)
      split_ifs <;> omega

theorem outer_max_spec (v : Nat → Nat → Nat) (num n : Nat) :
    (∀ i, i < n → ∀ j, j < num → v i j ≤ (List.range n).foldl
      (fun m i => (List.range num).foldl (fun m j => if v i j > m then v i j else m) m) 0) ∧
    (∀ B, (∀ i, i < n → ∀ j, j < num → v i j ≤ B) → (List.range n).foldl
      (fun m i => (List.range num).foldl (fun m j => if v i j > m then v i j else m) m) 0 ≤ B) := by
  induction n with
  | zero => simp
  | succ n ih =>
    rw [foldl_range_succ]
    obtain ⟨h1, h2⟩ := ih
    obtain ⟨g1, g2, g3⟩ := inner_max_spec (v n) num ((List.range n).foldl
      (fun m i => (List.range num).foldl (fun m j => if v i j > m then v i j else m) m) 0)
    refine ⟨?_, ?_⟩
    · intro i hi j hj
      by_cases hin : i = n
      · subst hin; exact g2 j hj
      · exact le_trans (h1 i (by omega) j hj) g1
    · intro B hv
      exact g3 B (h2 B (fun i hi j hj => hv i (by omega) j hj)) (fun j hj => hv n (by omega) j hj)

theorem search_step_inv (gmb : Nat → Nat) (used : Nat → Bool) (cand : Nat → Prop)
    (offset min_bw min_index : Nat) (hcand : cand offset) (hle : gmb offset ≤ 4294967295)
    (ha : (offset = 0 ∧ min_bw = 4294967295 ∧ min_index = 0) ∨
      (cand min_index ∧ gmb min_index = min_bw))
    (hb : ∀ o, o < offset → cand o → min_bw ≤ gmb o)
    (hc : ∀ o, o < offset → cand o → gmb o = min_bw → used o = false → used min_index = false)
    (st : Nat × Nat)
    (hst : st = if min_bw > gmb offset then (gmb offset, offset)
        else if min_bw = gmb offset then
          if used min_index && !used offset then (min_bw, offset) else (min_bw, min_index)
        else (min_bw, min_index)) :
    (cand st.2 ∧ gmb st.2 = st.1) ∧
    (∀ o, o < offset + 1 → cand o → st.1 ≤ gmb o) ∧
    (∀ o, o < offset + 1 → cand o → gmb o = st.1 → used o = false → used st.2 = false) := by
  have hlt : ∀ o, o < offset + 1 → o < offset ∨ o = offset := fun o h => by omega
  by_cases h1 : min_bw > gmb offset
  · rw [if_pos h1] at hst
    subst hst
    refine ⟨⟨hcand, rfl⟩, ?_, ?_⟩
    · intro o ho hco
      rcases hlt o ho with h | h
      · have := hb o h hco; simp only; omega
      · subst h; exact le_refl _
    · intro o ho hco hg hu
      rcases hlt o ho with h | h
      · have := hb o h hco; simp only at hg; omega
      · subst h; exact hu
  · rw [if_neg h1] at hst
    by_cases h2 : min_bw = gmb offset
    · rw [if_pos h2] at hst
      by_cases h3 : (used min_index && !used offset) = true
      · rw [if_pos h3] at hst
        subst hst
        simp only [Bool.and_eq_true, Bool.not_eq_true', Bool.not_eq_eq_eq_not] at h3
        refine ⟨⟨hcand, h2.symm⟩, ?_, ?_⟩
        · intro o ho hco
          rcases hlt o ho with h | h
          · exact hb o h hco
          · subst h; simp only; omega
        · intro o ho hco hg hu
          exact h3.2
      · rw [if_neg h3] at hst
        subst hst
        simp only [Bool.and_eq_true, Bool.not_eq_true', Bool.not_eq_eq_eq_not, not_and,
          Bool.not_eq_false] at h3
        refine ⟨?_, ?_, ?_⟩
        · rcases ha with ⟨h0, _, hm⟩ | h
          · subst h0; subst hm; exact ⟨hcand, h2.symm⟩
          · exact h
        · intro o ho hco
          rcases hlt o ho with h | h
          · exact hb o h hco
          · subst h; simp only; omega
        · intro o ho hco hg hu
          rcases hlt o ho with h | h
          · exact hc o h hco hg hu
          · subst h
            simp only
            by_cases h4 : used min_index = true
            · have := h3 h4; rw [hu] at this; exact absurd this (by simp)
            · simpa using h4
    · rw [if_neg h2] at hst
      subst hst
      rcases ha with ⟨h0, hm, _⟩ | h
      · omega
      · refine ⟨h, ?_, ?_⟩
        · intro o ho hco
          rcases hlt o ho with h | h
          · exact hb o h hco
          · subst h; simp only; omega
        · intro o ho hco hg hu
          rcases hlt o ho with h | h
          · exact hc o h hco hg hu
          · subst h; simp only at hg; omega

/-! ## Lemmas on `get_max_bw`, `update_bus_bw` and the search loop -/

theorem get_max_bw_ge (M : Nat) (sch_bw : mu3h_sch_bw_info) (sch_ep : mu3h_sch_ep_info)
    (offset i j : Nat) (hi : i < M / sch_ep.esit) (hj : j < sch_ep.num_budget_microframes) :
    u32 (sch_bw.bus_bw.getD (offset + i * sch_ep.esit + j) 0 + sch_ep.bw_budget_table.getD j 0)
      ≤ get_max_bw M sch_bw sch_ep offset :=
  (outer_max_spec (fun i j => u32 (sch_bw.bus_bw.getD (offset + i * sch_ep.esit + j) 0 +
    sch_ep.bw_budget_table.getD j 0)) sch_ep.num_budget_microframes (M / sch_ep.esit)).1 i hi j hj

theorem get_max_bw_le (M : Nat) (sch_bw : mu3h_sch_bw_info) (sch_ep : mu3h_sch_ep_info)
    (offset : Nat) : get_max_bw M sch_bw sch_ep offset ≤ 4294967295 :=
  (outer_max_spec (fun i j => u32 (sch_bw.bus_bw.getD (offset + i * sch_ep.esit + j) 0 +
    sch_ep.bw_budget_table.getD j 0)) sch_ep.num_budget_microframes (M / sch_ep.esit)).2 _
    (fun i _ j _ => by simp only [u32]; omega)

theorem update_bus_bw_bus_bw (M : Nat) (sch_bw : mu3h_sch_bw_info) (sch_ep : mu3h_sch_ep_info)
    (used : Bool) :
    (update_bus_bw M sch_bw sch_ep used).bus_bw =
      (List.range (M / sch_ep.esit)).foldl (fun b i =>
        (List.range sch_ep.num_budget_microframes).foldl
          (fun b j => b.set (sch_ep.offset + i * sch_ep.esit + j)
            (bw_step used (b.getD (sch_ep.offset + i * sch_ep.esit + j) 0)
              (sch_ep.bw_budget_table.getD j 0))) b) sch_bw.bus_bw := by
  cases used <;> rfl

theorem update_bus_bw_bw_ep_list (M : Nat) (sch_bw : mu3h_sch_bw_info)
    (sch_ep : mu3h_sch_ep_info) (used : Bool) :
    (update_bus_bw M sch_bw sch_ep used).bw_ep_list = sch_bw.bw_ep_list := rfl

theorem check_sch_bw_loop_spec (M : Nat) (udev : usb_device) (sch_bw : mu3h_sch_bw_info)
    (sch_ep : mu3h_sch_ep_info) (fuel : Nat) :
    ∀ (offset min_bw min_index : Nat), offset + fuel = sch_ep.esit → min_bw ≠ 0 →
      ((offset = 0 ∧ min_bw = 4294967295 ∧ min_index = 0) ∨
        (candidate udev sch_ep min_index ∧ get_max_bw M sch_bw sch_ep min_index = min_bw)) →
      (∀ o, o < offset → candidate udev sch_ep o → min_bw ≤ get_max_bw M sch_bw sch_ep o) →
      (∀ o, o < offset → candidate udev sch_ep o → get_max_bw M sch_bw sch_ep o = min_bw →
        sch_offset_used sch_bw o = false → sch_offset_used sch_bw min_index = false) →
      (((check_sch_bw_loop M udev sch_bw sch_ep fuel offset (min_bw, min_index)
            = (4294967295, 0)) ∧ ∀ o, ¬ candidate udev sch_ep o) ∨
        (candidate udev sch_ep
            (check_sch_bw_loop M udev sch_bw sch_ep fuel offset (min_bw, min_index)).2 ∧
          get_max_bw M sch_bw sch_ep
            (check_sch_bw_loop M udev sch_bw sch_ep fuel offset (min_bw, min_index)).2
            = (check_sch_bw_loop M udev sch_bw sch_ep fuel offset (min_bw, min_index)).1)) ∧
      (∀ o, candidate udev sch_ep o →
        (check_sch_bw_loop M udev sch_bw sch_ep fuel offset (min_bw, min_index)).1
          ≤ get_max_bw M sch_bw sch_ep o) ∧
      ((check_sch_bw_loop M udev sch_bw sch_ep fuel offset (min_bw, min_index)).1 ≠ 0 →
        ∀ o, candidate udev sch_ep o → get_max_bw M sch_bw sch_ep o
            = (check_sch_bw_loop M udev sch_bw sch_ep fuel offset (min_bw, min_index)).1 →
          sch_offset_used sch_bw o = false →
          sch_offset_used sch_bw
            (check_sch_bw_loop M udev sch_bw sch_ep fuel offset (min_bw, min_index)).2
            = false) := by
  induction fuel with
  | zero =>
    intro offset min_bw min_index hf hnz ha hb hc
    simp only [check_sch_bw_loop]
    have hall : ∀ o, candidate udev sch_ep o → o < offset := fun o ho => by
      have := ho.1; omega
    refine ⟨?_, fun o ho => hb o (hall o ho) ho, fun _ o ho => hc o (hall o ho) ho⟩
    rcases ha with ⟨h0, hm, hi⟩ | h
    · left
      subst hm; subst hi
      exact ⟨rfl, fun o ho => by have := hall o ho; omega⟩
    · right; exact h
  | succ fuel ih =>
    intro offset min_bw min_index hf hnz ha hb hc
    rw [check_sch_bw_loop]
    by_cases hbrk : offset + sch_ep.num_budget_microframes > sch_ep.esit
    · rw [if_pos hbrk]
      have hall : ∀ o, candidate udev sch_ep o → o < offset := fun o ho => by
        have := ho.2.1; omega
      refine ⟨?_, fun o ho => hb o (hall o ho) ho, fun _ o ho => hc o (hall o ho) ho⟩
      rcases ha with ⟨h0, hm, hi⟩ | h
      · left
        subst hm; subst hi
        exact ⟨rfl, fun o ho => by have := hall o ho; omega⟩
      · right; exact h
    · rw [if_neg hbrk]
      by_cases hy6 : (is_fs_or_ls udev.speed && decide (offset % 8 = 6)) = true
      · rw [if_pos hy6]
        simp only [Bool.and_eq_true, decide_eq_true_eq] at hy6
        have hnc : ¬ candidate udev sch_ep offset := fun h => h.2.2 hy6
        have hlt : ∀ o, o < offset + 1 → o < offset ∨ o = offset := fun o h => by omega
        refine ih (offset + 1) min_bw min_index (by omega) hnz ?_ ?_ ?_
        · rcases ha with ⟨h0, _, _⟩ | h
          · omega
          · exact Or.inr h
        · intro o ho hco
          rcases hlt o ho with h | h
          · exact hb o h hco
          · subst h; exact absurd hco hnc
        · intro o ho hco
          rcases hlt o ho with h | h
          · exact hc o h hco
          · subst h; exact absurd hco hnc
      · rw [if_neg hy6]
        simp only [Bool.and_eq_true, decide_eq_true_eq] at hy6
        have hcand : candidate udev sch_ep offset := ⟨by omega, by omega, hy6⟩
        dsimp only
        generalize hst : (if min_bw > get_max_bw M sch_bw sch_ep offset then
            (get_max_bw M sch_bw sch_ep offset, offset)
          else if min_bw = get_max_bw M sch_bw sch_ep offset then
            if (sch_offset_used sch_bw min_index && !sch_offset_used sch_bw offset) = true then
              (min_bw, offset)
            else (min_bw, min_index)
          else (min_bw, min_index) : Nat × Nat) = st
        obtain ⟨s1, s2, s3⟩ := search_step_inv (get_max_bw M sch_bw sch_ep)
          (sch_offset_used sch_bw) (candidate udev sch_ep) offset min_bw min_index hcand
          (get_max_bw_le M sch_bw sch_ep offset) ha hb hc st hst.symm
        by_cases hz : st.1 = 0
        · rw [if_pos hz]
          exact ⟨Or.inr s1, fun o _ => by rw [hz]; omega, fun h => absurd hz h⟩
        · rw [if_neg hz]
          exact ih (offset + 1) st.1 st.2 (by omega) hz (Or.inr s1) s2 s3

theorem check_sch_bw_search_spec (M : Nat) (udev : usb_device) (sch_bw : mu3h_sch_bw_info)
    (sch_ep : mu3h_sch_ep_info) :
    (((check_sch_bw_search M udev sch_bw sch_ep = (4294967295, 0)) ∧
          ∀ o, ¬ candidate udev sch_ep o) ∨
        (candidate udev sch_ep (check_sch_bw_search M udev sch_bw sch_ep).2 ∧
          get_max_bw M sch_bw sch_ep (check_sch_bw_search M udev sch_bw sch_ep).2
            = (check_sch_bw_search M udev sch_bw sch_ep).1)) ∧
      (∀ o, candidate udev sch_ep o →
        (check_sch_bw_search M udev sch_bw sch_ep).1 ≤ get_max_bw M sch_bw sch_ep o) ∧
      ((check_sch_bw_search M udev sch_bw sch_ep).1 ≠ 0 →
        ∀ o, candidate udev sch_ep o → get_max_bw M sch_bw sch_ep o
            = (check_sch_bw_search M udev sch_bw sch_ep).1 →
          sch_offset_used sch_bw o = false →
          sch_offset_used sch_bw (check_sch_bw_search M udev sch_bw sch_ep).2 = false) :=
  check_sch_bw_loop_spec M udev sch_bw sch_ep sch_ep.esit 0 4294967295 0 (by omega) (by decide)
    (Or.inl ⟨rfl, rfl, rfl⟩) (fun o h => absurd h (by omega)) (fun o h => absurd h (by omega))

theorem bw_boundary_le (udev : usb_device) : bw_boundary udev ≤ 51000 := by
  unfold bw_boundary SS_BW_BOUNDARY HS_BW_BOUNDARY
  split_ifs <;> omega

theorem check_sch_bw_ok (M : Nat) (udev : usb_device) (sch_bw : mu3h_sch_bw_info)
    (sch_ep : mu3h_sch_ep_info)
    (h : (check_sch_bw_search M udev sch_bw sch_ep).1 ≤ bw_boundary udev) :
    check_sch_bw M udev sch_bw sch_ep =
      (0, update_bus_bw M sch_bw
          { sch_ep with offset := (check_sch_bw_search M udev sch_bw sch_ep).2 } true,
        { sch_ep with offset := (check_sch_bw_search M udev sch_bw sch_ep).2 }) := by
  unfold check_sch_bw
  unfold bw_boundary at h
  simp only
  rw [if_neg (by omega)]

theorem check_sch_bw_fail (M : Nat) (udev : usb_device) (sch_bw : mu3h_sch_bw_info)
    (sch_ep : mu3h_sch_ep_info)
    (h : ¬ (check_sch_bw_search M udev sch_bw sch_ep).1 ≤ bw_boundary udev) :
    check_sch_bw M udev sch_bw sch_ep =
      (-ERANGE, sch_bw,
        { sch_ep with offset := (check_sch_bw_search M udev sch_bw sch_ep).2 }) := by
  unfold check_sch_bw
  unfold bw_boundary at h
  simp only
  rw [if_pos (by omega)]

theorem check_sch_bw_ret (M : Nat) (udev : usb_device) (sch_bw : mu3h_sch_bw_info)
    (sch_ep : mu3h_sch_ep_info) :
    ((check_sch_bw M udev sch_bw sch_ep).1 = 0 ↔
        (check_sch_bw_search M udev sch_bw sch_ep).1 ≤ bw_boundary udev) ∧
      ((check_sch_bw M udev sch_bw sch_ep).1 = -ERANGE ↔
        ¬ (check_sch_bw_search M udev sch_bw sch_ep).1 ≤ bw_boundary udev) := by
  by_cases h : (check_sch_bw_search M udev sch_bw sch_ep).1 ≤ bw_boundary udev
  · rw [check_sch_bw_ok M udev sch_bw sch_ep h]
    simp [h, ERANGE]
  · rw [check_sch_bw_fail M udev sch_bw sch_ep h]
    simp [h, ERANGE]

theorem check_sch_bw_offset (M : Nat) (udev : usb_device) (sch_bw : mu3h_sch_bw_info)
    (sch_ep : mu3h_sch_ep_info) :
    (check_sch_bw M udev sch_bw sch_ep).2.2 =
      { sch_ep with offset := (check_sch_bw_search M udev sch_bw sch_ep).2 } := by
  by_cases h : (check_sch_bw_search M udev sch_bw sch_ep).1 ≤ bw_boundary udev
  · rw [check_sch_bw_ok M udev sch_bw sch_ep h]
  · rw [check_sch_bw_fail M udev sch_bw sch_ep h]

theorem search_le_candidate (M : Nat) (udev : usb_device) (sch_bw : mu3h_sch_bw_info)
    (sch_ep : mu3h_sch_ep_info)
    (h : (check_sch_bw_search M udev sch_bw sch_ep).1 ≤ bw_boundary udev) :
    candidate udev sch_ep (check_sch_bw_search M udev sch_bw sch_ep).2 ∧
      get_max_bw M sch_bw sch_ep (check_sch_bw_search M udev sch_bw sch_ep).2
        = (check_sch_bw_search M udev sch_bw sch_ep).1 := by
  rcases (check_sch_bw_search_spec M udev sch_bw sch_ep).1 with ⟨h1, _⟩ | h1
  · have := bw_boundary_le udev
    rw [h1] at h
    simp only at h
    omega
  · exact h1

theorem get_max_bw_num_zero (M : Nat) (sch_bw : mu3h_sch_bw_info) (sch_ep : mu3h_sch_ep_info)
    (o : Nat) (h : sch_ep.num_budget_microframes = 0) : get_max_bw M sch_bw sch_ep o = 0 := by
  have := (outer_max_spec (fun i j => u32 (sch_bw.bus_bw.getD (o + i * sch_ep.esit + j) 0 +
    sch_ep.bw_budget_table.getD j 0)) sch_ep.num_budget_microframes (M / sch_ep.esit)).2 0
    (fun i _ j hj => by omega)
  exact Nat.le_zero.mp this

theorem slot_index_lt {M esit num off i j : Nat} (hoff : off + num ≤ esit) (hi : i < M / esit)
    (hj : j < num) : off + i * esit + j < M := by
  have h1 : (i + 1) * esit ≤ M / esit * esit := Nat.mul_le_mul_right esit hi
  have h2 : M / esit * esit ≤ M := Nat.div_mul_le_self M esit
  have h3 : (i + 1) * esit = i * esit + esit := by ring
  omega

/-! ## Lemmas on commit, decommit and the two entry points -/

theorem u32_sub_add_cancel (x b : Nat) (hx : x < 4294967296) : u32_sub (u32 (x + b)) b = x := by
  unfold u32 u32_sub; omega

theorem list_eq_of_getD (l1 l2 : List Nat) (hlen : l1.length = l2.length)
    (h : ∀ s, s < l1.length → l1.getD s 0 = l2.getD s 0) : l1 = l2 := by
  apply List.ext_getElem hlen
  intro n h1 h2
  have := h n h1
  rwa [List.getD_eq_getElem _ _ h1, List.getD_eq_getElem _ _ h2] at this

theorem bw_info_ext (a b : mu3h_sch_bw_info) (h1 : a.bus_bw = b.bus_bw)
    (h2 : a.bw_ep_list = b.bw_ep_list) : a = b := by
  cases a; cases b; simp_all

theorem update_bus_bw_inverse (M : Nat) (sch_bw : mu3h_sch_bw_info) (sch_ep : mu3h_sch_ep_info)
    (hu32 : ∀ s, s < sch_bw.bus_bw.length → sch_bw.bus_bw.getD s 0 < 4294967296)
    (hnum : sch_ep.num_budget_microframes ≤ sch_ep.esit) :
    update_bus_bw M (update_bus_bw M sch_bw sch_ep true) sch_ep false = sch_bw := by
  refine bw_info_ext _ _ ?_ rfl
  rw [update_bus_bw_bus_bw, update_bus_bw_bus_bw]
  apply list_eq_of_getD
  · rw [outer_length, outer_length]
  · intro s hs
    rw [outer_length, outer_length] at hs
    by_cases ht : ∃ i, i < M / sch_ep.esit ∧ ∃ j, j < sch_ep.num_budget_microframes ∧
        s = sch_ep.offset + i * sch_ep.esit + j
    · obtain ⟨i, hi, j, hj, rfl⟩ := ht
      rw [outer_getD_touched _ _ _ _ _ _ _ hnum i j hi hj (by rw [outer_length]; exact hs),
        outer_getD_touched _ _ _ _ _ _ _ hnum i j hi hj hs]
      exact u32_sub_add_cancel _ _ (hu32 _ hs)
    · have hun : ∀ i, i < M / sch_ep.esit → ∀ j, j < sch_ep.num_budget_microframes →
          s ≠ sch_ep.offset + i * sch_ep.esit + j := fun i hi j hj hs2 => ht ⟨i, hi, j, hj, hs2⟩
      rw [outer_getD_untouched _ _ _ _ _ _ _ _ hun, outer_getD_untouched _ _ _ _ _ _ _ _ hun]

theorem sch_array_at_some {arr : List mu3h_sch_bw_info} {i : Int} {d : mu3h_sch_bw_info}
    (h : sch_array_at arr i = some d) :
    0 ≤ i ∧ i.toNat < arr.length ∧ arr[i.toNat]? = some d := by
  unfold sch_array_at at h
  split_ifs at h with hneg
  obtain ⟨hlt, _⟩ := List.getElem?_eq_some.1 h
  exact ⟨by omega, hlt, h⟩

theorem sch_array_at_set {arr : List mu3h_sch_bw_info} {i : Int} (d : mu3h_sch_bw_info)
    (h0 : 0 ≤ i) (hlt : i.toNat < arr.length) :
    sch_array_at (arr.set i.toNat d) i = some d := by
  unfold sch_array_at
  rw [if_neg (by omega), List.getElem?_set_self hlt]

theorem set_self_of_getElem? {α : Type} (l : List α) (k : Nat) (a : α) (h : l[k]? = some a) :
    l.set k a = l := by
  apply List.ext_getElem?
  intro n
  rw [List.getElem?_set]
  split_ifs with h1 h2
  · subst h1; exact h.symm
  · subst h1
    obtain ⟨hlt, _⟩ := List.getElem?_eq_some.1 h
    exact absurd hlt h2
  · rfl

theorem setup_sch_info_ep (M : Nat) (udev : usb_device) (ep_ctx : xhci_ep_ctx)
    (sch_ep : mu3h_sch_ep_info) : (setup_sch_info M udev ep_ctx sch_ep).ep = sch_ep.ep := by
  unfold setup_sch_info
  simp only
  split_ifs <;> rfl

theorem create_sch_ep_some {M : Nat} { kzalloc_ok : Bool} {udev : usb_device}
    {ep : usb_host_endpoint} {ep_ctx : xhci_ep_ctx} {e0 : mu3h_sch_ep_info}
    (h : create_sch_ep M kzalloc_ok udev ep ep_ctx = some e0) :
    e0.ep = ep.id ∧ ∀ j, e0.bw_budget_table.getD j 0 = 0 := by
  unfold create_sch_ep at h
  simp only at h
  split_ifs at h
  all_goals
    simp only [Option.some.injEq] at h
    subst h
    refine ⟨rfl, fun j => ?_⟩
    simp only [List.getD_eq_getElem?_getD, List.getElem?_replicate]
    split_ifs <;> rfl

theorem add_ep_quirk_success (M N3 : Nat) (sch_array : List mu3h_sch_bw_info)
    ( kzalloc_ok : Bool) (udev : usb_device) (ep : usb_host_endpoint) (ep_ctx : xhci_ep_ctx)
    (arr1 : List mu3h_sch_bw_info) (ctx1 : xhci_ep_ctx) (sch_bw : mu3h_sch_bw_info)
    (hneed : need_bw_sch ep udev.speed udev.tt_slot = true)
    (hdom : sch_array_at sch_array (get_bw_index N3 udev ep) = some sch_bw)
    (hadd : xhci_mtk_add_ep_quirk M N3 sch_array kzalloc_ok udev ep ep_ctx
      = some (0, arr1, ctx1)) :
    ∃ e0, create_sch_ep M kzalloc_ok udev ep ep_ctx = some e0 ∧
      (check_sch_bw M udev sch_bw (setup_sch_info M udev ep_ctx e0)).1 = 0 ∧
      arr1 = sch_array.set (get_bw_index N3 udev ep).toNat
        { bus_bw := (check_sch_bw M udev sch_bw (setup_sch_info M udev ep_ctx e0)).2.1.bus_bw,
          bw_ep_list :=
            (check_sch_bw M udev sch_bw (setup_sch_info M udev ep_ctx e0)).2.1.bw_ep_list ++
              [(check_sch_bw M udev sch_bw (setup_sch_info M udev ep_ctx e0)).2.2] } := by
  unfold xhci_mtk_add_ep_quirk at hadd
  simp only [hneed, Bool.not_true, Bool.false_eq_true, if_false] at hadd
  cases hcreate : create_sch_ep M kzalloc_ok udev ep ep_ctx with
  | none =>
    rw [hcreate] at hadd
    simp [ENOMEM] at hadd
  | some e0 =>
    rw [hcreate] at hadd
    simp only [hdom] at hadd
    by_cases hret : (check_sch_bw M udev sch_bw (setup_sch_info M udev ep_ctx e0)).1 = 0
    · rw [if_neg (by simpa using hret)] at hadd
      simp only [Option.some.injEq, Prod.mk.injEq, true_and] at hadd
      exact ⟨e0, rfl, hret, hadd.1.symm⟩
    · rw [if_pos hret] at hadd
      simp [ENOSPC] at hadd

theorem drop_ep_quirk_eq (M N3 : Nat) (arr : List mu3h_sch_bw_info) (udev : usb_device)
    (ep : usb_host_endpoint) (ep_ctx : xhci_ep_ctx) (d : mu3h_sch_bw_info)
    (hneed : need_bw_sch ep udev.speed udev.tt_slot = true)
    (hdom : sch_array_at arr (get_bw_index N3 udev ep) = some d) :
    xhci_mtk_drop_ep_quirk M N3 arr udev ep ep_ctx =
      some (arr.set (get_bw_index N3 udev ep).toNat
        (match d.bw_ep_list.find? (fun sch_ep => sch_ep.ep = ep.id) with
          | some sch_ep =>
            { update_bus_bw M d sch_ep false with
                bw_ep_list := d.bw_ep_list.eraseP (fun sch_ep => sch_ep.ep = ep.id) }
          | none => d),
        { ep_ctx with reserved0 := 0, reserved1 := 0 }) := by
  unfold xhci_mtk_drop_ep_quirk
  simp only [hneed, Bool.not_true, Bool.false_eq_true, if_false, hdom]

/-! ## Lemmas on the arithmetic of `setup_sch_info` -/

theorem u32_of_lt {x : Nat} (h : x < 4294967296) : u32 x = x := by
  unfold u32; omega

theorem u32_sub_of_le {a b : Nat} (h1 : b ≤ a) (h2 : a < 4294967296) : u32_sub a b = a - b := by
  unfold u32_sub; omega

theorem DIV_ROUND_UP_eq (n d : Nat) (hd : 0 < d) (h : n + d < 4294967296) :
    DIV_ROUND_UP n d = (n + d - 1) / d := by
  unfold DIV_ROUND_UP
  rw [u32_of_lt h, u32_sub_of_le (by omega) h]

theorem DIV_ROUND_UP_zero (n : Nat) : DIV_ROUND_UP n 0 = 0 := by
  unfold DIV_ROUND_UP; exact Nat.div_zero _

theorem ceil_mul_le (n d : Nat) : d * ((n + d - 1) / d) ≤ n + d - 1 :=
  Nat.mul_div_le (n + d - 1) d

theorem le_ceil_mul (n d : Nat) (hd : 0 < d) : n ≤ d * ((n + d - 1) / d) := by
  have h1 := Nat.div_add_mod (n + d - 1) d
  have h2 := Nat.mod_lt (n + d - 1) hd
  omega

theorem roundup_loop_spec (fuel : Nat) :
    ∀ p n : Nat, p < 2 * n → n ≤ p * 2 ^ fuel →
      n ≤ roundup_loop fuel p n ∧ roundup_loop fuel p n < 2 * n := by
  induction fuel with
  | zero =>
    intro p n h1 h2
    simp only [roundup_loop]
    simp only [pow_zero, mul_one] at h2
    exact ⟨h2, h1⟩
  | succ fuel ih =>
    intro p n h1 h2
    rw [roundup_loop]
    by_cases h : n ≤ p
    · rw [if_pos h]; exact ⟨h, h1⟩
    · rw [if_neg h]
      apply ih
      · omega
      · have e : p * 2 ^ (fuel + 1) = 2 * p * 2 ^ fuel := by ring
        omega

theorem roundup_pow_of_two_spec (n : Nat) (hn : 1 ≤ n) :
    n ≤ roundup_pow_of_two n ∧ roundup_pow_of_two n < 2 * n := by
  unfold roundup_pow_of_two
  apply roundup_loop_spec
  · omega
  · have := Nat.lt_two_pow n
    omega

theorem esit_pkts_bounds (ep_ctx : xhci_ep_ctx) (hwf : ctx_wf ep_ctx) :
    1 ≤ (if DIV_ROUND_UP ep_ctx.max_esit_payload ep_ctx.maxpkt = 0 then
          u32 (u32 (ep_ctx.mult + 1) * u32 (ep_ctx.max_burst + 1))
        else DIV_ROUND_UP ep_ctx.max_esit_payload ep_ctx.maxpkt) ∧
    (if DIV_ROUND_UP ep_ctx.max_esit_payload ep_ctx.maxpkt = 0 then
          u32 (u32 (ep_ctx.mult + 1) * u32 (ep_ctx.max_burst + 1))
        else DIV_ROUND_UP ep_ctx.max_esit_payload ep_ctx.maxpkt) < 33554432 ∧
    ep_ctx.maxpkt * (if DIV_ROUND_UP ep_ctx.max_esit_payload ep_ctx.maxpkt = 0 then
          u32 (u32 (ep_ctx.mult + 1) * u32 (ep_ctx.max_burst + 1))
        else DIV_ROUND_UP ep_ctx.max_esit_payload ep_ctx.maxpkt) < 67108864 := by
  obtain ⟨h1, h2, h3, h4⟩ := hwf
  have hf1 : 1 ≤ (ep_ctx.mult + 1) * (ep_ctx.max_burst + 1) := Nat.mul_pos (by omega) (by omega)
  have hf2 : (ep_ctx.mult + 1) * (ep_ctx.max_burst + 1) ≤ 4 * 256 :=
    Nat.mul_le_mul (by omega) (by omega)
  have hf : u32 (u32 (ep_ctx.mult + 1) * u32 (ep_ctx.max_burst + 1))
      = (ep_ctx.mult + 1) * (ep_ctx.max_burst + 1) := by
    rw [u32_of_lt (show ep_ctx.mult + 1 < 4294967296 by omega),
      u32_of_lt (show ep_ctx.max_burst + 1 < 4294967296 by omega), u32_of_lt (by omega)]
  have hf3 : ep_ctx.maxpkt * ((ep_ctx.mult + 1) * (ep_ctx.max_burst + 1)) ≤ 65535 * (4 * 256) :=
    Nat.mul_le_mul (by omega) hf2
  by_cases hz : DIV_ROUND_UP ep_ctx.max_esit_payload ep_ctx.maxpkt = 0
  · rw [if_pos hz, hf]
    exact ⟨hf1, by omega, by omega⟩
  · rw [if_neg hz]
    have hm : 0 < ep_ctx.maxpkt := by
      rcases Nat.eq_zero_or_pos ep_ctx.maxpkt with h | h
      · rw [h, DIV_ROUND_UP_zero] at hz; exact absurd rfl hz
      · exact h
    rw [DIV_ROUND_UP_eq _ _ hm (by omega)] at hz ⊢
    have hc := ceil_mul_le ep_ctx.max_esit_payload ep_ctx.maxpkt
    have hd : (ep_ctx.max_esit_payload + ep_ctx.maxpkt - 1) / ep_ctx.maxpkt
        ≤ ep_ctx.max_esit_payload + ep_ctx.maxpkt - 1 := Nat.div_le_self _ _
    generalize (ep_ctx.max_esit_payload + ep_ctx.maxpkt - 1) / ep_ctx.maxpkt = q at hz hc hd ⊢
    exact ⟨Nat.pos_of_ne_zero hz, by omega, by omega⟩

theorem isoc_pkts_bounds (P esit : Nat) (hP1 : 1 ≤ P) (hP : P < 33554432) (he : 1 ≤ esit) :
    1 ≤ (if esit = 1 then P else if P ≤ esit then 1
          else u32 (roundup_pow_of_two P / esit)) ∧
    (if esit = 1 then P else if P ≤ esit then 1
          else u32 (roundup_pow_of_two P / esit)) ≤ P := by
  by_cases h1 : esit = 1
  · rw [if_pos h1]; exact ⟨hP1, le_refl _⟩
  · rw [if_neg h1]
    by_cases h2 : P ≤ esit
    · rw [if_pos h2]; exact ⟨le_refl _, hP1⟩
    · rw [if_neg h2]
      obtain ⟨r1, r2⟩ := roundup_pow_of_two_spec P hP1
      have hle : roundup_pow_of_two P / esit ≤ roundup_pow_of_two P / 2 :=
        Nat.div_le_div_left (by omega) (by omega)
      have hpos : 0 < roundup_pow_of_two P / esit := Nat.div_pos (by omega) (by omega)
      have hhalf : roundup_pow_of_two P / 2 < P := by omega
      rw [u32_of_lt (by omega)]
      exact ⟨hpos, by omega⟩

theorem isoc_values_lt (maxpkt P pkts : Nat) (hpk1 : 1 ≤ pkts) (hpk : pkts ≤ P)
    (hP : P < 33554432) (hmP : maxpkt * P < 67108864) :
    u32 (maxpkt * pkts) = maxpkt * pkts ∧
    maxpkt * pkts < 134217728 ∧
    maxpkt * P ≤ maxpkt * pkts * DIV_ROUND_UP P pkts ∧
    maxpkt * pkts * DIV_ROUND_UP P pkts < 134217728 ∧
    u32_sub (u32 (u32 (maxpkt * pkts) * DIV_ROUND_UP P pkts)) (u32 (maxpkt * P))
      = maxpkt * pkts * DIV_ROUND_UP P pkts - maxpkt * P := by
  have hc : maxpkt * pkts ≤ maxpkt * P := Nat.mul_le_mul_left _ hpk
  rw [DIV_ROUND_UP_eq P pkts hpk1 (by omega)]
  have h1 : P ≤ pkts * ((P + pkts - 1) / pkts) := le_ceil_mul P pkts hpk1
  have h2 : pkts * ((P + pkts - 1) / pkts) ≤ P + pkts - 1 := ceil_mul_le P pkts
  have h3 : maxpkt * P ≤ maxpkt * (pkts * ((P + pkts - 1) / pkts)) := Nat.mul_le_mul_left _ h1
  have h4 : maxpkt * (pkts * ((P + pkts - 1) / pkts)) ≤ maxpkt * (P + pkts - 1) :=
    Nat.mul_le_mul_left _ h2
  have h5 : maxpkt * (P + pkts - 1) ≤ maxpkt * (2 * P) := Nat.mul_le_mul_left _ (by omega)
  have h6 : maxpkt * (2 * P) = 2 * (maxpkt * P) := by ring
  have h7 : maxpkt * pkts * ((P + pkts - 1) / pkts)
      = maxpkt * (pkts * ((P + pkts - 1) / pkts)) := by ring
  rw [u32_of_lt (show maxpkt * pkts < 4294967296 by omega),
    u32_of_lt (show maxpkt * pkts * ((P + pkts - 1) / pkts) < 4294967296 by omega),
    u32_of_lt (show maxpkt * P < 4294967296 by omega),
    u32_sub_of_le (by omega) (by omega)]
  exact ⟨rfl, by omega, by omega, by omega, rfl⟩

theorem getD_set_lt (t : List Nat) (i v B : Nat) (ht : ∀ j, t.getD j 0 < B) (hv : v < B) :
    ∀ j, (t.set i v).getD j 0 < B := by
  intro j
  rw [getD_set]
  split_ifs
  · exact hv
  · exact ht j

theorem fill_table_lt (t : List Nat) (start stop v B : Nat) (ht : ∀ j, t.getD j 0 < B)
    (hv : v < B) : ∀ j, (fill_table t start stop v).getD j 0 < B := by
  unfold fill_table
  induction (stop - start) with
  | zero => simpa using ht
  | succ n ih =>
    rw [foldl_range_succ]
    exact getD_set_lt _ _ _ _ ih hv

theorem setup_sch_info_esit (M : Nat) (udev : usb_device) (ep_ctx : xhci_ep_ctx)
    (sch_ep : mu3h_sch_ep_info) :
    (setup_sch_info M udev ep_ctx sch_ep).esit = get_esit M ep_ctx := by
  unfold setup_sch_info
  simp only
  split_ifs <;> rfl

theorem setup_sch_info_table_lt (M : Nat) (udev : usb_device) (ep_ctx : xhci_ep_ctx)
    (e0 : mu3h_sch_ep_info) (hwf : ctx_wf ep_ctx)
    (h0 : ∀ j, e0.bw_budget_table.getD j 0 = 0)
    (he : 1 ≤ (setup_sch_info M udev ep_ctx e0).esit) :
    ∀ j, (setup_sch_info M udev ep_ctx e0).bw_budget_table.getD j 0 < 134217728 := by
  have hz : ∀ j, e0.bw_budget_table.getD j 0 < 134217728 := fun j => by rw [h0]; omega
  rw [setup_sch_info_esit] at he
  obtain ⟨hP1, hP, hmP⟩ := esit_pkts_bounds ep_ctx hwf
  unfold setup_sch_info
  simp only
  by_cases hH : udev.speed = USB_SPEED_HIGH
  · rw [if_pos hH]
    simp only
    apply getD_set_lt _ _ _ _ hz
    obtain ⟨h1, h2, _, _⟩ := hwf
    have hb : ep_ctx.maxpkt * (ep_ctx.max_burst + 1) ≤ 65535 * 256 :=
      Nat.mul_le_mul (by omega) (by omega)
    rw [u32_of_lt (show ep_ctx.max_burst + 1 < 4294967296 by omega), u32_of_lt (by omega)]
    omega
  · rw [if_neg hH]
    by_cases hS : udev.speed = USB_SPEED_SUPER
    · rw [if_pos hS]
      generalize (if DIV_ROUND_UP ep_ctx.max_esit_payload ep_ctx.maxpkt = 0 then
          u32 (u32 (ep_ctx.mult + 1) * u32 (ep_ctx.max_burst + 1))
        else DIV_ROUND_UP ep_ctx.max_esit_payload ep_ctx.maxpkt) = P at hP1 hP hmP ⊢
      have hint : ∀ j, (if ep_ctx.ep_type = INT_IN_EP ∨ ep_ctx.ep_type = INT_OUT_EP then
            (e0.bw_budget_table.set 0 (u32 (ep_ctx.maxpkt * P)))
          else e0.bw_budget_table).getD j 0 < 134217728 := by
        split_ifs
        · exact getD_set_lt _ _ _ _ hz (by rw [u32_of_lt (by omega)]; omega)
        · exact hz
      by_cases hI : ep_ctx.ep_type = ISOC_IN_EP ∨ ep_ctx.ep_type = ISOC_OUT_EP
      · rw [if_pos hI]
        have hInt : ¬ (ep_ctx.ep_type = INT_IN_EP ∨ ep_ctx.ep_type = INT_OUT_EP) := by
          rcases hI with h | h <;> rw [h] <;> decide
        simp only [if_neg hInt]
        obtain ⟨hk1, hk⟩ := isoc_pkts_bounds P (get_esit M ep_ctx) hP1 hP he
        generalize (if get_esit M ep_ctx = 1 then P else if P ≤ get_esit M ep_ctx then 1
          else u32 (roundup_pow_of_two P / get_esit M ep_ctx)) = pkts at hk1 hk ⊢
        obtain ⟨e1, e2, e3, e4, e5⟩ := isoc_values_lt ep_ctx.maxpkt P pkts hk1 hk hP hmP
        apply getD_set_lt
        · apply fill_table_lt _ _ _ _ _ hz
          rw [e1]; exact e2
        · rw [e5]; omega
      · rw [if_neg hI]
        by_cases hInt : ep_ctx.ep_type = INT_IN_EP ∨ ep_ctx.ep_type = INT_OUT_EP
        · simp only [if_pos hInt]
          exact getD_set_lt _ _ _ _ hz (by rw [u32_of_lt (by omega)]; omega)
        · simp only [if_neg hInt]
          exact hz
    · rw [if_neg hS]
      have hc : (if ep_ctx.maxpkt < FS_PAYLOAD_MAX then ep_ctx.maxpkt else FS_PAYLOAD_MAX)
          < 134217728 := by
        unfold FS_PAYLOAD_MAX; split_ifs <;> omega
      by_cases hF : is_fs_or_ls udev.speed = true
      · rw [if_pos hF]
        generalize (if ep_ctx.maxpkt < FS_PAYLOAD_MAX then ep_ctx.maxpkt else FS_PAYLOAD_MAX)
          = c at hc ⊢
        split_ifs
        · exact fill_table_lt _ _ _ _ _ hz hc
        · exact getD_set_lt _ _ _ _ hz hc
        · exact fill_table_lt _ _ _ _ _
            (getD_set_lt _ _ _ _ (getD_set_lt _ _ _ _ hz (by omega)) (by omega)) hc
      · rw [if_neg hF]
        exact hz

/-! ## Lemmas on the slot accounting -/

theorem slot_contrib_touched (M : Nat) (m : mu3h_sch_ep_info) (i j : Nat)
    (hoff : m.offset + m.num_budget_microframes ≤ m.esit) (hi : i < M / m.esit)
    (hj : j < m.num_budget_microframes) :
    slot_contrib M m (m.offset + i * m.esit + j) = m.bw_budget_table.getD j 0 := by
  unfold slot_contrib
  rw [Finset.sum_eq_single i, Finset.sum_eq_single j]
  · rw [if_pos rfl]
  · intro j2 _ hne
    rw [if_neg (by omega)]
  · intro hn
    exact absurd (Finset.mem_range.2 hj) hn
  · intro i2 _ hne
    apply Finset.sum_eq_zero
    intro j2 hj2
    have hj2 := Finset.mem_range.1 hj2
    rw [if_neg]
    intro heq
    rcases Nat.lt_or_gt_of_ne hne with h | h
    · have := mul_add_lt_mul m.esit h (show j2 < m.esit by omega)
      omega
    · have := mul_add_lt_mul m.esit h (show j < m.esit by omega)
      omega
  · intro hn
    exact absurd (Finset.mem_range.2 hi) hn

theorem slot_contrib_untouched (M : Nat) (m : mu3h_sch_ep_info) (s : Nat)
    (h : ∀ i, i < M / m.esit → ∀ j, j < m.num_budget_microframes →
      s ≠ m.offset + i * m.esit + j) :
    slot_contrib M m s = 0 := by
  unfold slot_contrib
  apply Finset.sum_eq_zero
  intro i hi
  apply Finset.sum_eq_zero
  intro j hj
  rw [if_neg]
  intro heq
  exact h i (Finset.mem_range.1 hi) j (Finset.mem_range.1 hj) heq.symm

theorem sum_map_eraseP {α : Type} (f : α → Nat) (p : α → Bool) (l : List α) (m : α)
    (h : l.find? p = some m) : ((l.eraseP p).map f).sum + f m = (l.map f).sum := by
  induction l with
  | nil => simp at h
  | cons a l ih =>
    rw [List.find?_cons] at h
    rw [List.eraseP_cons]
    cases hp : p a with
    | true =>
      rw [hp] at h
      simp only [Option.some.injEq] at h
      subst h
      simp only [cond_true, List.map_cons, List.sum_cons]
      omega
    | false =>
      rw [hp] at h
      simp only at h
      have := ih h
      simp only [cond_false, List.map_cons, List.sum_cons]
      omega

theorem slot_sum_append (M : Nat) (l : List mu3h_sch_ep_info) (e : mu3h_sch_ep_info) (s : Nat) :
    slot_sum M (l ++ [e]) s = slot_sum M l s + slot_contrib M e s := by
  simp [slot_sum, List.map_append, List.sum_append]

theorem dom_inv_add (M : Nat) (udev : usb_device) (d : mu3h_sch_bw_info)
    (e : mu3h_sch_ep_info) (hinv : dom_inv M d)
    (htab : 1 ≤ e.esit → ∀ j, e.bw_budget_table.getD j 0 < 134217728)
    (hret : (check_sch_bw M udev d e).1 = 0) :
    dom_inv M
      { bus_bw := (check_sch_bw M udev d e).2.1.bus_bw,
        bw_ep_list := (check_sch_bw M udev d e).2.1.bw_ep_list ++ [(check_sch_bw M udev d e).2.2] } := by
  obtain ⟨hlen, hsum, hbound, hmem⟩ := hinv
  have hle := (check_sch_bw_ret M udev d e).1.1 hret
  obtain ⟨hc, hg⟩ := search_le_candidate M udev d e hle
  rw [check_sch_bw_ok M udev d e hle]
  simp only
  generalize (check_sch_bw_search M udev d e).2 = off at hc hg ⊢
  rw [← hg] at hle
  have hB := bw_boundary_le udev
  have htab2 := htab (by have := hc.1; omega)
  have hbw := update_bus_bw_bus_bw M d { e with offset := off } true
  simp only at hbw
  have hin : ∀ i j, i < M / e.esit → j < e.num_budget_microframes →
      off + i * e.esit + j < M := fun i j hi hj => slot_index_lt hc.2.1 hi hj
  have htouched : ∀ i j, i < M / e.esit → j < e.num_budget_microframes →
      (update_bus_bw M d { e with offset := off } true).bus_bw.getD (off + i * e.esit + j) 0
        = d.bus_bw.getD (off + i * e.esit + j) 0 + e.bw_budget_table.getD j 0 ∧
      (update_bus_bw M d { e with offset := off } true).bus_bw.getD (off + i * e.esit + j) 0
        ≤ 51000 := by
    intro i j hi hj
    rw [hbw, outer_getD_touched _ _ _ _ _ _ _ (by have := hc.2.1; omega) i j hi hj
      (by rw [hlen]; exact hin i j hi hj)]
    have h1 := get_max_bw_ge M d e off i j hi hj
    have h2 := hbound _ (hin i j hi hj)
    have h3 := htab2 j
    have h4 : bw_step true (d.bus_bw.getD (off + i * e.esit + j) 0) (e.bw_budget_table.getD j 0)
        = d.bus_bw.getD (off + i * e.esit + j) 0 + e.bw_budget_table.getD j 0 := by
      unfold bw_step
      rw [if_pos rfl, u32_of_lt (by omega)]
    rw [u32_of_lt (by omega)] at h1
    rw [h4]
    exact ⟨rfl, by omega⟩
  have huntouched : ∀ s, (∀ i, i < M / e.esit → ∀ j, j < e.num_budget_microframes →
      s ≠ off + i * e.esit + j) →
      (update_bus_bw M d { e with offset := off } true).bus_bw.getD s 0 = d.bus_bw.getD s 0 := by
    intro s hs
    rw [hbw, outer_getD_untouched _ _ _ _ _ _ _ _ hs]
  refine ⟨by rw [hbw, outer_length]; exact hlen, ?_, ?_, ?_⟩
  · intro s hs
    rw [update_bus_bw_bw_ep_list, slot_sum_append]
    by_cases ht : ∃ i, i < M / e.esit ∧ ∃ j, j < e.num_budget_microframes ∧
        s = off + i * e.esit + j
    · obtain ⟨i, hi, j, hj, rfl⟩ := ht
      rw [(htouched i j hi hj).1, hsum _ (hin i j hi hj)]
      have := slot_contrib_touched M { e with offset := off } i j hc.2.1 hi hj
      simp only at this
      rw [this]
    · have hun : ∀ i, i < M / e.esit → ∀ j, j < e.num_budget_microframes →
          s ≠ off + i * e.esit + j := fun i hi j hj hs2 => ht ⟨i, hi, j, hj, hs2⟩
      rw [huntouched s hun, hsum s hs, slot_contrib_untouched M { e with offset := off } s hun]
      rfl
  · intro s hs
    by_cases ht : ∃ i, i < M / e.esit ∧ ∃ j, j < e.num_budget_microframes ∧
        s = off + i * e.esit + j
    · obtain ⟨i, hi, j, hj, rfl⟩ := ht
      exact (htouched i j hi hj).2
    · rw [huntouched s (fun i hi j hj hs2 => ht ⟨i, hi, j, hj, hs2⟩)]
      exact hbound s hs
  · intro m hm
    rw [update_bus_bw_bw_ep_list] at hm
    rcases List.mem_append.1 hm with h | h
    · exact hmem m h
    · rw [List.mem_singleton] at h
      subst h
      exact hc.2.1

theorem dom_inv_drop (M : Nat) (d : mu3h_sch_bw_info) (m : mu3h_sch_ep_info)
    (p : mu3h_sch_ep_info → Bool) (hinv : dom_inv M d)
    (hfind : d.bw_ep_list.find? p = some m) :
    dom_inv M
      { update_bus_bw M d m false with bw_ep_list := d.bw_ep_list.eraseP p } := by
  obtain ⟨hlen, hsum, hbound, hmem⟩ := hinv
  have hm : m ∈ d.bw_ep_list := List.mem_of_find?_eq_some hfind
  have hoff := hmem m hm
  have hbw := update_bus_bw_bus_bw M d m false
  have hsplit : ∀ s, slot_sum M (d.bw_ep_list.eraseP p) s + slot_contrib M m s
      = slot_sum M d.bw_ep_list s := fun s =>
    sum_map_eraseP (fun m => slot_contrib M m s) p d.bw_ep_list m hfind
  have hin : ∀ i j, i < M / m.esit → j < m.num_budget_microframes →
      m.offset + i * m.esit + j < M := fun i j hi hj => slot_index_lt hoff hi hj
  have htouched : ∀ i j, i < M / m.esit → j < m.num_budget_microframes →
      (update_bus_bw M d m false).bus_bw.getD (m.offset + i * m.esit + j) 0
        = slot_sum M (d.bw_ep_list.eraseP p) (m.offset + i * m.esit + j) ∧
      (update_bus_bw M d m false).bus_bw.getD (m.offset + i * m.esit + j) 0 ≤ 51000 := by
    intro i j hi hj
    rw [hbw, outer_getD_touched _ _ _ _ _ _ _ (by omega) i j hi hj
      (by rw [hlen]; exact hin i j hi hj)]
    have h1 := hsum _ (hin i j hi hj)
    have h2 := hbound _ (hin i j hi hj)
    have h3 := hsplit (m.offset + i * m.esit + j)
    rw [slot_contrib_touched M m i j hoff hi hj] at h3
    have h4 : bw_step false (d.bus_bw.getD (m.offset + i * m.esit + j) 0)
        (m.bw_budget_table.getD j 0)
        = d.bus_bw.getD (m.offset + i * m.esit + j) 0 - m.bw_budget_table.getD j 0 := by
      unfold bw_step
      simp only [Bool.false_eq_true, if_false]
      rw [u32_sub_of_le (by omega) (by omega)]
    rw [h4]
    exact ⟨by omega, by omega⟩
  have huntouched : ∀ s, (∀ i, i < M / m.esit → ∀ j, j < m.num_budget_microframes →
      s ≠ m.offset + i * m.esit + j) →
      (update_bus_bw M d m false).bus_bw.getD s 0 = d.bus_bw.getD s 0 := by
    intro s hs
    rw [hbw, outer_getD_untouched _ _ _ _ _ _ _ _ hs]
  refine ⟨by rw [hbw, outer_length]; exact hlen, ?_, ?_, ?_⟩
  · intro s hs
    by_cases ht : ∃ i, i < M / m.esit ∧ ∃ j, j < m.num_budget_microframes ∧
        s = m.offset + i * m.esit + j
    · obtain ⟨i, hi, j, hj, rfl⟩ := ht
      exact (htouched i j hi hj).1
    · have hun : ∀ i, i < M / m.esit → ∀ j, j < m.num_budget_microframes →
          s ≠ m.offset + i * m.esit + j := fun i hi j hj hs2 => ht ⟨i, hi, j, hj, hs2⟩
      have h3 := hsplit s
      rw [slot_contrib_untouched M m s hun] at h3
      show (update_bus_bw M d m false).bus_bw.getD s 0
        = slot_sum M (d.bw_ep_list.eraseP p) s
      rw [huntouched s hun, hsum s hs]
      omega
  · intro s hs
    by_cases ht : ∃ i, i < M / m.esit ∧ ∃ j, j < m.num_budget_microframes ∧
        s = m.offset + i * m.esit + j
    · obtain ⟨i, hi, j, hj, rfl⟩ := ht
      exact (htouched i j hi hj).2
    · show (update_bus_bw M d m false).bus_bw.getD s 0 ≤ 51000
      rw [huntouched s (fun i hi j hj hs2 => ht ⟨i, hi, j, hj, hs2⟩)]
      exact hbound s hs
  · intro m2 hm2
    exact hmem m2 (List.mem_of_mem_eraseP hm2)

theorem dom_inv_init (M : Nat) : dom_inv M { bus_bw := List.replicate M 0, bw_ep_list := [] } := by
  have h0 : ∀ s, (List.replicate M 0).getD s 0 = 0 := by
    intro s
    simp only [List.getD_eq_getElem?_getD, List.getElem?_replicate]
    split_ifs <;> rfl
  refine ⟨List.length_replicate _ _, ?_, ?_, ?_⟩
  · intro s _
    simp only [h0, slot_sum, List.map_nil, List.sum_nil]
  · intro s _
    simp only [h0]; omega
  · intro m hm
    simp at hm

theorem add_ep_quirk_inv (M N3 : Nat) (sch_array : List mu3h_sch_bw_info) ( kzalloc_ok : Bool)
    (udev : usb_device) (ep : usb_host_endpoint) (ep_ctx : xhci_ep_ctx) (ret : Int)
    (arr1 : List mu3h_sch_bw_info) (ctx1 : xhci_ep_ctx) (hwf : ctx_wf ep_ctx)
    (hinv : ∀ d ∈ sch_array, dom_inv M d)
    (hadd : xhci_mtk_add_ep_quirk M N3 sch_array kzalloc_ok udev ep ep_ctx
      = some (ret, arr1, ctx1)) :
    ∀ d ∈ arr1, dom_inv M d := by
  unfold xhci_mtk_add_ep_quirk at hadd
  by_cases hneed : need_bw_sch ep udev.speed udev.tt_slot = true
  · simp only [hneed, Bool.not_true, Bool.false_eq_true, if_false] at hadd
    cases hcreate : create_sch_ep M kzalloc_ok udev ep ep_ctx with
    | none =>
      rw [hcreate] at hadd
      simp only [Option.some.injEq, Prod.mk.injEq] at hadd
      rw [← hadd.2.1]; exact hinv
    | some e0 =>
      rw [hcreate] at hadd
      cases hdom : sch_array_at sch_array (get_bw_index N3 udev ep) with
      | none =>
        rw [hdom] at hadd
        simp at hadd
      | some sch_bw =>
        rw [hdom] at hadd
        simp only at hadd
        by_cases hret : (check_sch_bw M udev sch_bw (setup_sch_info M udev ep_ctx e0)).1 = 0
        · rw [if_neg (by simpa using hret)] at hadd
          simp only [Option.some.injEq, Prod.mk.injEq] at hadd
          rw [← hadd.2.1]
          intro d hd
          rcases List.mem_or_eq_of_mem_set hd with h | h
          · exact hinv d h
          · rw [h]
            obtain ⟨_, _, hget⟩ := sch_array_at_some hdom
            have hmem : sch_bw ∈ sch_array := List.getElem?_mem hget
            exact dom_inv_add M udev sch_bw _ (hinv _ hmem)
              (fun he => setup_sch_info_table_lt M udev ep_ctx e0 hwf
                (create_sch_ep_some hcreate).2 he) hret
        · rw [if_pos hret] at hadd
          simp only [Option.some.injEq, Prod.mk.injEq] at hadd
          rw [← hadd.2.1]; exact hinv
  · have hneed2 : need_bw_sch ep udev.speed udev.tt_slot = false := by simpa using hneed
    simp only [hneed2, Bool.not_false, if_true] at hadd
    have harr : arr1 = sch_array := by
      split_ifs at hadd <;> simp only [Option.some.injEq, Prod.mk.injEq] at hadd <;>
        exact hadd.2.1.symm
    rw [harr]; exact hinv

theorem drop_ep_quirk_inv (M N3 : Nat) (sch_array : List mu3h_sch_bw_info)
    (udev : usb_device) (ep : usb_host_endpoint) (ep_ctx : xhci_ep_ctx)
    (arr1 : List mu3h_sch_bw_info) (ctx1 : xhci_ep_ctx)
    (hinv : ∀ d ∈ sch_array, dom_inv M d)
    (hdrop : xhci_mtk_drop_ep_quirk M N3 sch_array udev ep ep_ctx = some (arr1, ctx1)) :
    ∀ d ∈ arr1, dom_inv M d := by
  by_cases hneed : need_bw_sch ep udev.speed udev.tt_slot = true
  · cases hdom : sch_array_at sch_array (get_bw_index N3 udev ep) with
    | none =>
      unfold xhci_mtk_drop_ep_quirk at hdrop
      simp [hneed, hdom] at hdrop
    | some sch_bw =>
      rw [drop_ep_quirk_eq M N3 sch_array udev ep ep_ctx sch_bw hneed hdom] at hdrop
      simp only [Option.some.injEq, Prod.mk.injEq] at hdrop
      rw [← hdrop.1]
      obtain ⟨_, _, hget⟩ := sch_array_at_some hdom
      have hmem : sch_bw ∈ sch_array := List.getElem?_mem hget
      intro d hd
      rcases List.mem_or_eq_of_mem_set hd with h | h
      · exact hinv d h
      · rw [h]
        cases hfind : sch_bw.bw_ep_list.find? (fun sch_ep => decide (sch_ep.ep = ep.id)) with
        | none => exact hinv _ hmem
        | some m => exact dom_inv_drop M sch_bw m _ (hinv _ hmem) hfind
  · have hneed2 : need_bw_sch ep udev.speed udev.tt_slot = false := by simpa using hneed
    unfold xhci_mtk_drop_ep_quirk at hdrop
    simp only [hneed2, Bool.not_false, if_true, Option.some.injEq, Prod.mk.injEq] at hdrop
    rw [← hdrop.1]; exact hinv

theorem reachable_inv (M N3 : Nat) (init arr : List mu3h_sch_bw_info)
    (hinit : ∀ d ∈ init, dom_inv M d) (h : Reachable M N3 init arr) :
    ∀ d ∈ arr, dom_inv M d := by
  induction h with
  | start => exact hinit
  | add sch_array kzalloc_ok udev ep ep_ctx ret arr2 ctx2 _ hwf hadd ih =>
    exact add_ep_quirk_inv M N3 sch_array kzalloc_ok udev ep ep_ctx ret arr2 ctx2 hwf ih hadd
  | drop sch_array udev ep ep_ctx arr2 ctx2 _ hdrop ih =>
    exact drop_ep_quirk_inv M N3 sch_array udev ep ep_ctx arr2 ctx2 ih hdrop

/-! ## The properties of the specification -/

/-- C1: capacity is never exceeded by an admission.  For every bandwidth domain
(an array of `XHCI_MTK_MAX_ESIT` slots) whose slots are all at most the boundary
of the speed class, and every entry (in particular every entry built by
`setup_sch_info`), if `check_sch_bw` returns `0` then after its commit every slot
of `bus_bw` is still at most the boundary; every touched slot
`offset + i * esit + j` lies inside the array and is at most the boundary. -/
theorem check_sch_bw_keeps_boundary (M : Nat) (udev : usb_device) (sch_bw : mu3h_sch_bw_info)
    (sch_ep : mu3h_sch_ep_info) (hlen : sch_bw.bus_bw.length = M)
    (hB : ∀ s, s < M → sch_bw.bus_bw.getD s 0 ≤ bw_boundary udev)
    (hret : (check_sch_bw M udev sch_bw sch_ep).1 = 0) :
    (check_sch_bw M udev sch_bw sch_ep).2.1.bus_bw.length = M ∧
    (∀ s, s < M →
      (check_sch_bw M udev sch_bw sch_ep).2.1.bus_bw.getD s 0 ≤ bw_boundary udev) ∧
    (∀ i j, i < M / sch_ep.esit → j < sch_ep.num_budget_microframes →
      (check_sch_bw M udev sch_bw sch_ep).2.2.offset + i * sch_ep.esit + j < M ∧
      (check_sch_bw M udev sch_bw sch_ep).2.1.bus_bw.getD
        ((check_sch_bw M udev sch_bw sch_ep).2.2.offset + i * sch_ep.esit + j) 0
          ≤ bw_boundary udev) := by
  have hle := (check_sch_bw_ret M udev sch_bw sch_ep).1.1 hret
  obtain ⟨hc, hg⟩ := search_le_candidate M udev sch_bw sch_ep hle
  rw [check_sch_bw_ok M udev sch_bw sch_ep hle]
  simp only
  generalize (check_sch_bw_search M udev sch_bw sch_ep).2 = off at hc hg ⊢
  rw [← hg] at hle
  have hbw := update_bus_bw_bus_bw M sch_bw { sch_ep with offset := off } true
  simp only at hbw
  have hin : ∀ i j, i < M / sch_ep.esit → j < sch_ep.num_budget_microframes →
      off + i * sch_ep.esit + j < M := fun i j hi hj => slot_index_lt hc.2.1 hi hj
  have htouched : ∀ i j, i < M / sch_ep.esit → j < sch_ep.num_budget_microframes →
      (update_bus_bw M sch_bw { sch_ep with offset := off } true).bus_bw.getD
        (off + i * sch_ep.esit + j) 0 ≤ bw_boundary udev := by
    intro i j hi hj
    rw [hbw, outer_getD_touched _ _ _ _ _ _ _ (by have := hc.2.1; omega) i j hi hj
      (by rw [hlen]; exact hin i j hi hj)]
    exact le_trans (get_max_bw_ge M sch_bw sch_ep off i j hi hj) hle
  refine ⟨by rw [hbw, outer_length]; exact hlen, ?_, fun i j hi hj =>
    ⟨hin i j hi hj, htouched i j hi hj⟩⟩
  intro s hs
  by_cases ht : ∃ i, i < M / sch_ep.esit ∧ ∃ j, j < sch_ep.num_budget_microframes ∧
      s = off + i * sch_ep.esit + j
  · obtain ⟨i, hi, j, hj, rfl⟩ := ht
    exact htouched i j hi hj
  · rw [hbw, outer_getD_untouched]
    · exact hB s hs
    · intro i hi j hj hs2
      exact ht ⟨i, hi, j, hj, hs2⟩

/-- Witness of C1: a High-speed interrupt endpoint of 64 bytes is admitted
into an empty domain of 64 slots, and every slot stays within 6144. -/
theorem check_sch_bw_keeps_boundary_witness :
    (ex_flat_bw 0).bus_bw.length = 64 ∧
    (check_sch_bw 64 ex_hs_udev (ex_flat_bw 0) ex_hs_entry).1 = 0 ∧
    (∀ s, s < 64 → (check_sch_bw 64 ex_hs_udev (ex_flat_bw 0) ex_hs_entry).2.1.bus_bw.getD s 0
      ≤ bw_boundary ex_hs_udev) :=
  ⟨by decide, by decide,
    (check_sch_bw_keeps_boundary 64 ex_hs_udev (ex_flat_bw 0) ex_hs_entry (by decide)
      (by decide) (by decide)).2.1⟩

/-- C2: rejection is atomic.  Whenever `check_sch_bw` returns `-ERANGE`, the
domain it returns (the slots of `bus_bw` and the list of members) is the one it
was given; and a call of `xhci_mtk_add_ep_quirk` that runs this check returns
`-ENOSPC` and leaves the whole array of domains and the endpoint context as
they were. -/
theorem check_sch_bw_reject_atomic (M N3 : Nat) (udev : usb_device)
    (sch_bw : mu3h_sch_bw_info) (sch_ep : mu3h_sch_ep_info)
    (hret : (check_sch_bw M udev sch_bw sch_ep).1 = -ERANGE) :
    (check_sch_bw M udev sch_bw sch_ep).2.1 = sch_bw ∧
    ∀ (sch_array : List mu3h_sch_bw_info) ( kzalloc_ok : Bool) (ep : usb_host_endpoint)
      (ep_ctx : xhci_ep_ctx) (sch_ep0 : mu3h_sch_ep_info),
      need_bw_sch ep udev.speed udev.tt_slot = true →
      create_sch_ep M kzalloc_ok udev ep ep_ctx = some sch_ep0 →
      setup_sch_info M udev ep_ctx sch_ep0 = sch_ep →
      sch_array_at sch_array (get_bw_index N3 udev ep) = some sch_bw →
      xhci_mtk_add_ep_quirk M N3 sch_array kzalloc_ok udev ep ep_ctx
        = some (-ENOSPC, sch_array, ep_ctx) := by
  have hfail := (check_sch_bw_ret M udev sch_bw sch_ep).2.1 hret
  refine ⟨by rw [check_sch_bw_fail M udev sch_bw sch_ep hfail], ?_⟩
  intro sch_array kzalloc_ok ep ep_ctx sch_ep0 hneed hcreate hsetup hdom
  unfold xhci_mtk_add_ep_quirk
  simp only [hneed, hcreate, hsetup, hdom, hret]
  simp [ERANGE]

/-- Witness of C2: a domain with every slot at the boundary 6144 rejects a
High-speed endpoint of cost 64 and is unchanged. -/
theorem check_sch_bw_reject_atomic_witness :
    (check_sch_bw 64 ex_hs_udev (ex_flat_bw 6144) ex_hs_entry).1 = -ERANGE ∧
    (check_sch_bw 64 ex_hs_udev (ex_flat_bw 6144) ex_hs_entry).2.1 = ex_flat_bw 6144 :=
  ⟨by decide,
    (check_sch_bw_reject_atomic 64 1 ex_hs_udev (ex_flat_bw 6144) ex_hs_entry (by decide)).1⟩

/-- Counterexample to C3 as stated.  From the initial array, adding the
High-speed endpoint 1 gives the domain `ex_once_bw`.  Adding the same endpoint
again succeeds (entry at offset 1), and dropping it right after removes the
first entry of the list, the one at offset 0: the domain is `ex_after_bw`, whose
slots and member list both differ from those before the second add. -/
theorem add_drop_counterexample :
    (xhci_mtk_add_ep_quirk 64 1 [ex_flat_bw 0, ex_flat_bw 0, ex_flat_bw 0] true ex_hs_udev
      ex_hs_ep ex_hs_ctx4).map (fun r => (r.1, r.2.1))
        = some (0, [ex_flat_bw 0, ex_flat_bw 0, ex_once_bw]) ∧
    (xhci_mtk_add_ep_quirk 64 1 [ex_flat_bw 0, ex_flat_bw 0, ex_once_bw] true ex_hs_udev
      ex_hs_ep ex_hs_ctx4).map (fun r => (r.1, r.2.1))
        = some (0, [ex_flat_bw 0, ex_flat_bw 0, ex_twice_bw]) ∧
    ((xhci_mtk_add_ep_quirk 64 1 [ex_flat_bw 0, ex_flat_bw 0, ex_once_bw] true ex_hs_udev
      ex_hs_ep ex_hs_ctx4).bind
        (fun r => xhci_mtk_drop_ep_quirk 64 1 r.2.1 ex_hs_udev ex_hs_ep r.2.2)).map
          (fun r => r.1) = some [ex_flat_bw 0, ex_flat_bw 0, ex_after_bw] ∧
    ex_after_bw.bus_bw ≠ ex_once_bw.bus_bw ∧
    ex_after_bw.bw_ep_list ≠ ex_once_bw.bw_ep_list := by
  decide

/-- C3, amended: commit and decommit are exact inverses.  For every domain (an
array of `XHCI_MTK_MAX_ESIT` slots holding 32-bit values) and every entry with
`offset + num_budget_microframes <= esit`, `update_bus_bw` with `used = true`
followed by `update_bus_bw` with `used = false` on the same entry gives back the
domain, every slot of `bus_bw` included (32-bit unsigned arithmetic); hence a
successful `xhci_mtk_add_ep_quirk` of an endpoint that is not already a member of
its domain, immediately followed by `xhci_mtk_drop_ep_quirk` of this endpoint,
restores the whole array of domains, slots and member lists. -/
theorem update_bus_bw_commit_decommit (M : Nat) (sch_bw : mu3h_sch_bw_info)
    (hlen : sch_bw.bus_bw.length = M)
    (hu32 : ∀ s, s < M → sch_bw.bus_bw.getD s 0 < 4294967296) :
    (∀ sch_ep : mu3h_sch_ep_info,
      sch_ep.offset + sch_ep.num_budget_microframes ≤ sch_ep.esit →
      update_bus_bw M (update_bus_bw M sch_bw sch_ep true) sch_ep false = sch_bw) ∧
    (∀ (N3 : Nat) (sch_array : List mu3h_sch_bw_info) ( kzalloc_ok : Bool) (udev : usb_device)
      (ep : usb_host_endpoint) (ep_ctx : xhci_ep_ctx) (arr1 : List mu3h_sch_bw_info)
      (ctx1 : xhci_ep_ctx),
      sch_array_at sch_array (get_bw_index N3 udev ep) = some sch_bw →
      (∀ m ∈ sch_bw.bw_ep_list, m.ep ≠ ep.id) →
      xhci_mtk_add_ep_quirk M N3 sch_array kzalloc_ok udev ep ep_ctx = some (0, arr1, ctx1) →
      (xhci_mtk_drop_ep_quirk M N3 arr1 udev ep ctx1).map (fun r => r.1) = some sch_array) := by
  have hu : ∀ s, s < sch_bw.bus_bw.length → sch_bw.bus_bw.getD s 0 < 4294967296 := by
    rw [hlen]; exact hu32
  refine ⟨fun sch_ep hoff => update_bus_bw_inverse M sch_bw sch_ep hu (by omega), ?_⟩
  intro N3 sch_array kzalloc_ok udev ep ep_ctx arr1 ctx1 hdom hfresh hadd
  by_cases hneed : need_bw_sch ep udev.speed udev.tt_slot = true
  · obtain ⟨e0, hcreate, hret, harr⟩ :=
      add_ep_quirk_success M N3 sch_array kzalloc_ok udev ep ep_ctx arr1 ctx1 sch_bw hneed hdom hadd
    have hle := (check_sch_bw_ret M udev sch_bw (setup_sch_info M udev ep_ctx e0)).1.1 hret
    obtain ⟨hc, _⟩ := search_le_candidate M udev sch_bw (setup_sch_info M udev ep_ctx e0) hle
    rw [check_sch_bw_ok M udev sch_bw _ hle] at harr
    simp only at harr
    obtain ⟨h0, hlt, hget⟩ := sch_array_at_some hdom
    have hep : (setup_sch_info M udev ep_ctx e0).ep = ep.id := by
      rw [setup_sch_info_ep]; exact (create_sch_ep_some hcreate).1
    generalize (check_sch_bw_search M udev sch_bw (setup_sch_info M udev ep_ctx e0)).2 = off
      at hc harr
    generalize setup_sch_info M udev ep_ctx e0 = e at hc harr hep
    have hnone : sch_bw.bw_ep_list.find? (fun sch_ep => decide (sch_ep.ep = ep.id)) = none := by
      rw [List.find?_eq_none]
      intro m hm
      simpa using hfresh m hm
    have hnot : ∀ m ∈ sch_bw.bw_ep_list, ¬ (decide (m.ep = ep.id) = true) := by
      intro m hm
      simpa using hfresh m hm
    have hinv := update_bus_bw_inverse M sch_bw { e with offset := off } hu
      (by have := hc.2.1; show e.num_budget_microframes ≤ e.esit; omega)
    subst harr
    rw [drop_ep_quirk_eq M N3 _ udev ep ctx1 _ hneed (sch_array_at_set _ h0 hlt)]
    simp only [Option.map, update_bus_bw_bw_ep_list, List.find?_append, hnone, Option.none_or,
      List.find?_cons, hep, decide_True, List.eraseP_append_right _ hnot, List.eraseP_cons,
      cond_true, List.append_nil, List.set_set]
    rw [Option.some.injEq]
    apply set_self_of_getElem?
    rw [hget]
    congr 1
    rw [hep] at hinv
    exact (bw_info_ext _ _ (congrArg mu3h_sch_bw_info.bus_bw hinv) rfl).symm
  · have hneed2 : need_bw_sch ep udev.speed udev.tt_slot = false := by simpa using hneed
    unfold xhci_mtk_add_ep_quirk at hadd
    simp only [hneed2, Bool.not_false, if_true] at hadd
    have harr : arr1 = sch_array := by
      split_ifs at hadd <;> simp only [Option.some.injEq, Prod.mk.injEq, true_and] at hadd <;>
        exact hadd.1.symm
    subst harr
    unfold xhci_mtk_drop_ep_quirk
    simp [hneed2]

/-- Witness of C3: in a free domain of 64 slots, committing and decommitting
the High-speed entry with `esit = 4` gives back the domain, and adding then
dropping its endpoint gives back the initial array. -/
theorem update_bus_bw_commit_decommit_witness :
    ex_hs_entry4.offset + ex_hs_entry4.num_budget_microframes ≤ ex_hs_entry4.esit ∧
    update_bus_bw 64 (update_bus_bw 64 (ex_flat_bw 0) ex_hs_entry4 true) ex_hs_entry4 false
      = ex_flat_bw 0 ∧
    (xhci_mtk_drop_ep_quirk 64 1 [ex_flat_bw 0, ex_flat_bw 0, ex_once_bw] ex_hs_udev ex_hs_ep
      { ex_hs_ctx4 with reserved0 := 1, reserved1 := 0 }).map (fun r => r.1)
        = some [ex_flat_bw 0, ex_flat_bw 0, ex_flat_bw 0] :=
  ⟨by decide,
    (update_bus_bw_commit_decommit 64 (ex_flat_bw 0) (by decide) (by decide)).1 ex_hs_entry4
      (by decide),
    (update_bus_bw_commit_decommit 64 (ex_flat_bw 0) (by decide) (by decide)).2 1
      [ex_flat_bw 0, ex_flat_bw 0, ex_flat_bw 0] true ex_hs_udev ex_hs_ep ex_hs_ctx4
      [ex_flat_bw 0, ex_flat_bw 0, ex_once_bw]
      { ex_hs_ctx4 with reserved0 := 1, reserved1 := 0 } (by decide) (by decide) (by decide)⟩

/-- C4, the code at failing inputs.  For a Super-speed isochronous endpoint
with max packet size 1024, `esit = 1` and a payload of 1024 bytes per interval
(`esit_pkts = 1`), `setup_sch_info` builds the budget table `[0]`: its sum is 0
and not `1024 * 1`.  With `esit = 2` and a payload of 4096 (`esit_pkts = 4`) the
table is `[2048, 0]`, of sum 2048 and not `1024 * 4`.  With `esit = 2` and a
payload of 3072 (`esit_pkts = 3`, the scenario of the specification) the table is
`[2048, 1024]`, whose sum is `1024 * 3`. -/
theorem setup_sch_info_budget_sum_fails :
    (setup_sch_info 64 ex_ss_udev (ex_ss_ctx 1024 0) (ex_zeroed 1 1)).esit = 1 ∧
    DIV_ROUND_UP 1024 1024 = 1 ∧
    (setup_sch_info 64 ex_ss_udev (ex_ss_ctx 1024 0) (ex_zeroed 1 1)).num_budget_microframes = 1 ∧
    (setup_sch_info 64 ex_ss_udev (ex_ss_ctx 1024 0) (ex_zeroed 1 1)).bw_budget_table = [0] ∧
    ((setup_sch_info 64 ex_ss_udev (ex_ss_ctx 1024 0) (ex_zeroed 1 1)).bw_budget_table.take
      (setup_sch_info 64 ex_ss_udev (ex_ss_ctx 1024 0) (ex_zeroed 1 1)).num_budget_microframes).sum
        ≠ 1024 * DIV_ROUND_UP 1024 1024 ∧
    (setup_sch_info 64 ex_ss_udev (ex_ss_ctx 4096 1) (ex_zeroed 1 2)).esit = 2 ∧
    DIV_ROUND_UP 4096 1024 = 4 ∧
    (setup_sch_info 64 ex_ss_udev (ex_ss_ctx 4096 1) (ex_zeroed 1 2)).num_budget_microframes = 2 ∧
    (setup_sch_info 64 ex_ss_udev (ex_ss_ctx 4096 1) (ex_zeroed 1 2)).bw_budget_table
      = [2048, 0] ∧
    ((setup_sch_info 64 ex_ss_udev (ex_ss_ctx 4096 1) (ex_zeroed 1 2)).bw_budget_table.take
      (setup_sch_info 64 ex_ss_udev (ex_ss_ctx 4096 1) (ex_zeroed 1 2)).num_budget_microframes).sum
        ≠ 1024 * DIV_ROUND_UP 4096 1024 ∧
    (setup_sch_info 64 ex_ss_udev (ex_ss_ctx 3072 1) (ex_zeroed 1 2)).bw_budget_table
      = [2048, 1024] := by
  decide

/-- C5: the boundary test is exact.  `check_sch_bw` returns `0` if and only if
some candidate offset (an offset of `[0, esit)` with
`offset + num_budget_microframes <= esit`, not in Y6 for Low/Full-speed) has a
worst-case bandwidth `get_max_bw` within the boundary (51000 for Super-speed,
6144 otherwise), and `-ERANGE` if and only if none has; for `esit >= 1` the
condition `offset < esit` can be left out; so `check_sch_bw` returns `0` when the
least worst-case bandwidth over the candidates equals the boundary and `-ERANGE`
when it is the boundary plus one. -/
theorem check_sch_bw_boundary_exact (M : Nat) (udev : usb_device) (sch_bw : mu3h_sch_bw_info)
    (sch_ep : mu3h_sch_ep_info) :
    (bw_boundary udev = if udev.speed = USB_SPEED_SUPER then 51000 else 6144) ∧
    ((check_sch_bw M udev sch_bw sch_ep).1 = 0 ↔
      ∃ o, candidate udev sch_ep o ∧ get_max_bw M sch_bw sch_ep o ≤ bw_boundary udev) ∧
    ((check_sch_bw M udev sch_bw sch_ep).1 = -ERANGE ↔
      ¬ ∃ o, candidate udev sch_ep o ∧ get_max_bw M sch_bw sch_ep o ≤ bw_boundary udev) ∧
    (1 ≤ sch_ep.esit →
      ((check_sch_bw M udev sch_bw sch_ep).1 = 0 ↔
        ∃ o, o + sch_ep.num_budget_microframes ≤ sch_ep.esit ∧
          ¬ (is_fs_or_ls udev.speed = true ∧ o % 8 = 6) ∧
          get_max_bw M sch_bw sch_ep o ≤ bw_boundary udev)) ∧
    (∀ o, candidate udev sch_ep o →
      (∀ o2, candidate udev sch_ep o2 →
        get_max_bw M sch_bw sch_ep o ≤ get_max_bw M sch_bw sch_ep o2) →
      (get_max_bw M sch_bw sch_ep o = bw_boundary udev →
        (check_sch_bw M udev sch_bw sch_ep).1 = 0) ∧
      (get_max_bw M sch_bw sch_ep o = bw_boundary udev + 1 →
        (check_sch_bw M udev sch_bw sch_ep).1 = -ERANGE)) := by
  have hiff : (check_sch_bw_search M udev sch_bw sch_ep).1 ≤ bw_boundary udev ↔
      ∃ o, candidate udev sch_ep o ∧ get_max_bw M sch_bw sch_ep o ≤ bw_boundary udev := by
    constructor
    · intro h
      obtain ⟨hc, hg⟩ := search_le_candidate M udev sch_bw sch_ep h
      exact ⟨_, hc, by rw [hg]; exact h⟩
    · rintro ⟨o, ho, hle⟩
      exact le_trans ((check_sch_bw_search_spec M udev sch_bw sch_ep).2.1 o ho) hle
  obtain ⟨h0, h1⟩ := check_sch_bw_ret M udev sch_bw sch_ep
  refine ⟨rfl, h0.trans hiff, h1.trans (not_congr hiff), ?_, ?_⟩
  · intro hes
    rw [h0.trans hiff]
    constructor
    · rintro ⟨o, ho, hle⟩
      exact ⟨o, ho.2.1, ho.2.2, hle⟩
    · rintro ⟨o, ho, hy, hle⟩
      by_cases hlt : o < sch_ep.esit
      · exact ⟨o, ⟨hlt, ho, hy⟩, hle⟩
      · have hz : sch_ep.num_budget_microframes = 0 := by omega
        refine ⟨0, ⟨by omega, by omega, fun h => by have := h.2; omega⟩, ?_⟩
        rw [get_max_bw_num_zero M sch_bw sch_ep _ hz]
        exact Nat.zero_le _
  intro o ho hmin
  constructor
  · intro he
    exact (h0.trans hiff).2 ⟨o, ho, by omega⟩
  · intro he
    refine (h1.trans (not_congr hiff)).2 ?_
    rintro ⟨o2, ho2, hle⟩
    have := hmin o2 ho2
    omega

/-- Witness of C5: with every slot at 6080 a High-speed endpoint of cost 64
reaches exactly the boundary 6144 and is admitted; with every slot at 6081 it
is one over and rejected. -/
theorem check_sch_bw_boundary_exact_witness :
    get_max_bw 64 (ex_flat_bw 6080) ex_hs_entry 0 = bw_boundary ex_hs_udev ∧
    (check_sch_bw 64 ex_hs_udev (ex_flat_bw 6080) ex_hs_entry).1 = 0 ∧
    get_max_bw 64 (ex_flat_bw 6081) ex_hs_entry 0 = bw_boundary ex_hs_udev + 1 ∧
    (check_sch_bw 64 ex_hs_udev (ex_flat_bw 6081) ex_hs_entry).1 = -ERANGE :=
  ⟨by decide,
    ((check_sch_bw_boundary_exact 64 ex_hs_udev (ex_flat_bw 6080) ex_hs_entry).2.2.2.2 0
      (by decide) (fun o2 ho2 => by
        have h1 : ex_hs_entry.esit = 1 := by decide
        have h2 := ho2.1
        rw [h1] at h2
        have h : o2 = 0 := by omega
        rw [h])).1 (by decide),
    by decide,
    by decide⟩

/-- C6: the chosen offset is legal and optimal.  Whenever a candidate offset
exists, the offset `check_sch_bw` stores in the entry is in `[0, esit)`, satisfies
`offset + num_budget_microframes <= esit`, is not in Y6 for a Low/Full-speed
device, and its worst-case bandwidth `get_max_bw` is at most that of every
offset `o` with `o + num_budget_microframes <= esit` (not in Y6 for
Low/Full-speed), the early exit at a worst case of `0` included. -/
theorem check_sch_bw_offset_optimal (M : Nat) (udev : usb_device) (sch_bw : mu3h_sch_bw_info)
    (sch_ep : mu3h_sch_ep_info) (hc : ∃ o, candidate udev sch_ep o) :
    (check_sch_bw M udev sch_bw sch_ep).2.2.offset < sch_ep.esit ∧
    (check_sch_bw M udev sch_bw sch_ep).2.2.offset + sch_ep.num_budget_microframes
      ≤ sch_ep.esit ∧
    candidate udev sch_ep (check_sch_bw M udev sch_bw sch_ep).2.2.offset ∧
    ∀ o, o + sch_ep.num_budget_microframes ≤ sch_ep.esit →
      ¬ (is_fs_or_ls udev.speed = true ∧ o % 8 = 6) →
      get_max_bw M sch_bw sch_ep (check_sch_bw M udev sch_bw sch_ep).2.2.offset
        ≤ get_max_bw M sch_bw sch_ep o := by
  rw [check_sch_bw_offset]
  simp only
  obtain ⟨o0, ho0⟩ := hc
  obtain ⟨h1, h2, _⟩ := check_sch_bw_search_spec M udev sch_bw sch_ep
  rcases h1 with ⟨_, hno⟩ | ⟨hcand, hg⟩
  · exact absurd ho0 (hno o0)
  · refine ⟨hcand.1, hcand.2.1, hcand, ?_⟩
    intro o ho hy
    by_cases hlt : o < sch_ep.esit
    · rw [hg]
      exact h2 o ⟨hlt, ho, hy⟩
    · have hz : sch_ep.num_budget_microframes = 0 := by omega
      rw [get_max_bw_num_zero M sch_bw sch_ep _ hz, get_max_bw_num_zero M sch_bw sch_ep _ hz]

/-- Witness of C6: in a domain with the loads 300, 100, 200, 100 repeated, an
entry with `esit = 4` and one slot of cost 64 gets an offset whose worst case
is 164, the least of 364, 164, 264, 164. -/
theorem check_sch_bw_offset_optimal_witness :
    candidate ex_hs_udev ex_hs_entry4 0 ∧
    (check_sch_bw 64 ex_hs_udev ex_wave_bw ex_hs_entry4).2.2.offset < ex_hs_entry4.esit ∧
    get_max_bw 64 ex_wave_bw ex_hs_entry4
      (check_sch_bw 64 ex_hs_udev ex_wave_bw ex_hs_entry4).2.2.offset
        ≤ get_max_bw 64 ex_wave_bw ex_hs_entry4 2 :=
  ⟨by decide,
    (check_sch_bw_offset_optimal 64 ex_hs_udev ex_wave_bw ex_hs_entry4 ⟨0, by decide⟩).1,
    (check_sch_bw_offset_optimal 64 ex_hs_udev ex_wave_bw ex_hs_entry4 ⟨0, by decide⟩).2.2.2 2
      (by decide) (by decide)⟩

/-- C7: for a Low-speed or Full-speed device the offset that `check_sch_bw`
assigns to the entry is never in microframe Y6 (`offset % 8 = 6`), whatever the
domain, `esit` and `num_budget_microframes`. -/
theorem check_sch_bw_never_y6 (M : Nat) (udev : usb_device) (sch_bw : mu3h_sch_bw_info)
    (sch_ep : mu3h_sch_ep_info) (hls : is_fs_or_ls udev.speed = true) :
    (check_sch_bw M udev sch_bw sch_ep).2.2.offset % 8 ≠ 6 := by
  rw [check_sch_bw_offset]
  simp only
  rcases (check_sch_bw_search_spec M udev sch_bw sch_ep).1 with ⟨h, _⟩ | ⟨hcand, _⟩
  · rw [h]; decide
  · intro h6
    exact hcand.2.2 ⟨hls, h6⟩

/-- Witness of C7: a Full-speed interrupt IN endpoint with `esit = 16` in a
domain where offset 6 would have the least worst case (8 against 100) is placed
elsewhere. -/
theorem check_sch_bw_never_y6_witness :
    is_fs_or_ls ex_fs_udev.speed = true ∧
    get_max_bw 64 ex_y6_bw ex_fs_entry 6 = 8 ∧
    get_max_bw 64 ex_y6_bw ex_fs_entry
      (check_sch_bw 64 ex_fs_udev ex_y6_bw ex_fs_entry).2.2.offset = 100 ∧
    (check_sch_bw 64 ex_fs_udev ex_y6_bw ex_fs_entry).2.2.offset % 8 ≠ 6 :=
  ⟨by decide, by decide, by decide,
    check_sch_bw_never_y6 64 ex_fs_udev ex_y6_bw ex_fs_entry (by decide)⟩

/-- Counterexample to C8 as stated.  Adding the zero-bandwidth High-speed
endpoint 1 to the initial array gives the domain `ex_zero_bw`, whose member has
offset 0.  For a second such endpoint the offsets 0 and 1 are both candidates
with the same, least, worst-case bandwidth 0; offset 0 is used by a member and
offset 1 by none, yet `check_sch_bw` chooses offset 0: the search stops at the
first offset whose worst case is 0. -/
theorem check_sch_bw_tie_break_counterexample :
    (xhci_mtk_sch_init 64 1 1 true).2 = some [ex_flat_bw 0, ex_flat_bw 0, ex_flat_bw 0] ∧
    (xhci_mtk_add_ep_quirk 64 1 [ex_flat_bw 0, ex_flat_bw 0, ex_flat_bw 0] true
      ex_hs_udev (ex_isoc_ep 1) ex_zero_ctx).map (fun r => (r.1, r.2.1))
        = some (0, [ex_flat_bw 0, ex_flat_bw 0, ex_zero_bw]) ∧
    candidate ex_hs_udev (ex_zero_entry 2) 0 ∧ candidate ex_hs_udev (ex_zero_entry 2) 1 ∧
    get_max_bw 64 ex_zero_bw (ex_zero_entry 2) 0 = 0 ∧
    get_max_bw 64 ex_zero_bw (ex_zero_entry 2) 1 = 0 ∧
    sch_offset_used ex_zero_bw 0 = true ∧ sch_offset_used ex_zero_bw 1 = false ∧
    (check_sch_bw 64 ex_hs_udev ex_zero_bw (ex_zero_entry 2)).1 = 0 ∧
    (check_sch_bw 64 ex_hs_udev ex_zero_bw (ex_zero_entry 2)).2.2.offset = 0 ∧
    sch_offset_used ex_zero_bw
      (check_sch_bw 64 ex_hs_udev ex_zero_bw (ex_zero_entry 2)).2.2.offset = true :=
  ⟨by decide, by decide, by decide, by decide, by decide, by decide, by decide, by decide,
    by decide, by decide, by decide⟩

/-- C8, amended: the tie-break prefers unused offsets whenever the least
worst-case bandwidth is not 0.  If a candidate offset `o` has the least
worst-case bandwidth `get_max_bw` of all candidates, this bandwidth is not 0, and
no member of the domain has offset `o`, then the offset `check_sch_bw` chooses
has the same worst-case bandwidth and is the offset of no member. -/
theorem check_sch_bw_tie_break (M : Nat) (udev : usb_device) (sch_bw : mu3h_sch_bw_info)
    (sch_ep : mu3h_sch_ep_info) (o : Nat) (ho : candidate udev sch_ep o)
    (hmin : ∀ o2, candidate udev sch_ep o2 →
      get_max_bw M sch_bw sch_ep o ≤ get_max_bw M sch_bw sch_ep o2)
    (hnz : get_max_bw M sch_bw sch_ep o ≠ 0)
    (hfree : sch_offset_used sch_bw o = false) :
    get_max_bw M sch_bw sch_ep (check_sch_bw M udev sch_bw sch_ep).2.2.offset
      = get_max_bw M sch_bw sch_ep o ∧
    sch_offset_used sch_bw (check_sch_bw M udev sch_bw sch_ep).2.2.offset = false := by
  rw [check_sch_bw_offset]
  simp only
  obtain ⟨h1, h2, h3⟩ := check_sch_bw_search_spec M udev sch_bw sch_ep
  rcases h1 with ⟨_, hno⟩ | ⟨hcand, hg⟩
  · exact absurd ho (hno o)
  · have hle1 := h2 o ho
    have hle2 := hmin _ hcand
    have heq : get_max_bw M sch_bw sch_ep o = (check_sch_bw_search M udev sch_bw sch_ep).1 := by
      omega
    refine ⟨by omega, h3 (by omega) o ho heq hfree⟩

/-- Witness of C8: in the domain with loads 300, 100, 200, 100 and a member at
offset 1, the offsets 1 and 3 tie at the least worst case 164; offset 3 is free
and is the one chosen. -/
theorem check_sch_bw_tie_break_witness :
    candidate ex_hs_udev ex_hs_entry4 3 ∧
    get_max_bw 64 ex_wave_bw ex_hs_entry4 1 = get_max_bw 64 ex_wave_bw ex_hs_entry4 3 ∧
    sch_offset_used ex_wave_bw 1 = true ∧
    sch_offset_used ex_wave_bw 3 = false ∧
    (check_sch_bw 64 ex_hs_udev ex_wave_bw ex_hs_entry4).2.2.offset = 3 ∧
    sch_offset_used ex_wave_bw
      (check_sch_bw 64 ex_hs_udev ex_wave_bw ex_hs_entry4).2.2.offset = false :=
  ⟨by decide, by decide, by decide, by decide, by decide,
    (check_sch_bw_tie_break 64 ex_hs_udev ex_wave_bw ex_hs_entry4 3 (by decide)
      (fun o2 ho2 => by
        have h1 : ex_hs_entry4.esit = 4 := by decide
        have h2 := ho2.1
        rw [h1] at h2
        have h3 : o2 = 0 ∨ o2 = 1 ∨ o2 = 2 ∨ o2 = 3 := by omega
        rcases h3 with h | h | h | h <;> subst h <;> decide)
      (by decide) (by decide)).2⟩

/-- C9: the slot-accounting invariant.  In every array of domains reachable
from the one `xhci_mtk_sch_init` allocates (all slots 0, no members) by any
sequence of calls of `xhci_mtk_add_ep_quirk` (on endpoint contexts whose decoded
fields have their widths) and `xhci_mtk_drop_ep_quirk`, every domain has
`XHCI_MTK_MAX_ESIT` slots and, for every slot index `s` below it, `bus_bw[s]` is
the sum over all current members `m` and all pairs `(i, j)` with
`i < XHCI_MTK_MAX_ESIT / m.esit`, `j < m.num_budget_microframes` and
`m.offset + i * m.esit + j = s` of `m.bw_budget_table[j]`. -/
theorem slot_accounting_invariant (M N3 N2 : Nat) (init arr : List mu3h_sch_bw_info)
    (hinit : (xhci_mtk_sch_init M N3 N2 true).2 = some init)
    (hreach : Reachable M N3 init arr) :
    ∀ d ∈ arr, d.bus_bw.length = M ∧
      ∀ s, s < M → d.bus_bw.getD s 0 = slot_sum M d.bw_ep_list s := by
  have h0 : ∀ d ∈ init, dom_inv M d := by
    simp only [xhci_mtk_sch_init, if_true, Option.some.injEq] at hinit
    intro d hd
    rw [← hinit] at hd
    rw [(List.mem_replicate.1 hd).2]
    exact dom_inv_init M
  intro d hd
  obtain ⟨h1, h2, _, _⟩ := reachable_inv M N3 init arr h0 hreach d hd
  exact ⟨h1, h2⟩

/-- Witness of C9: after the High-speed endpoint with `esit = 4` and cost 64 is
added to the initial array, slot 4 of its domain holds 64, the contribution of
this one member. -/
theorem slot_accounting_invariant_witness :
    (xhci_mtk_sch_init 64 1 1 true).2 = some [ex_flat_bw 0, ex_flat_bw 0, ex_flat_bw 0] ∧
    Reachable 64 1 [ex_flat_bw 0, ex_flat_bw 0, ex_flat_bw 0]
      [ex_flat_bw 0, ex_flat_bw 0, ex_once_bw] ∧
    ex_once_bw.bus_bw.getD 4 0 = slot_sum 64 ex_once_bw.bw_ep_list 4 ∧
    slot_sum 64 ex_once_bw.bw_ep_list 4 = 64 := by
  have hreach : Reachable 64 1 [ex_flat_bw 0, ex_flat_bw 0, ex_flat_bw 0]
      [ex_flat_bw 0, ex_flat_bw 0, ex_once_bw] :=
    Reachable.add [ex_flat_bw 0, ex_flat_bw 0, ex_flat_bw 0] true ex_hs_udev ex_hs_ep ex_hs_ctx4
      0 [ex_flat_bw 0, ex_flat_bw 0, ex_once_bw]
      { ex_hs_ctx4 with reserved0 := 1, reserved1 := 0 } Reachable.start (by decide) (by decide)
  exact ⟨by decide, hreach,
    ((slot_accounting_invariant 64 1 1 _ _ (by decide) hreach) ex_once_bw (by decide)).2 4
      (by decide),
    by decide⟩

/-- C10: the layout of the domains.  With `N3` Super-speed root ports `1..N3`
and `N2` slower-speed root ports `N3+1..N3+N2`, `get_bw_index` maps a Super-speed
endpoint on port `p` to `2 * (p - 1)` if it is OUT and to `2 * (p - 1) + 1` if it
is IN, and an endpoint of a slower device on port `p` to `p + N3 - 1`; Super-speed
indices are in `[0, 2 * N3)`, the others in `[2 * N3, 2 * N3 + N2)`; the index
lies inside the array that `xhci_mtk_sch_init` allocates, which it returns with
`0` and which has `2 * N3 + N2` domains, each zeroed and with an empty list
(when `kcalloc` fails it returns `-ENOMEM` and no array); and equal indices come
from the same port, the same class of speed and, for Super-speed, the same
direction. -/
theorem get_bw_index_layout (M N3 N2 : Nat) (udev : usb_device) (ep : usb_host_endpoint)
    (hport : port_valid N3 N2 udev) :
    (udev.speed = USB_SPEED_SUPER →
      get_bw_index N3 udev ep
        = (if ep.dir_out then 2 * ((udev.real_port : Int) - 1)
            else 2 * ((udev.real_port : Int) - 1) + 1) ∧
      0 ≤ get_bw_index N3 udev ep ∧ get_bw_index N3 udev ep < 2 * (N3 : Int)) ∧
    (udev.speed ≠ USB_SPEED_SUPER →
      get_bw_index N3 udev ep = (udev.real_port : Int) + (N3 : Int) - 1 ∧
      2 * (N3 : Int) ≤ get_bw_index N3 udev ep ∧
      get_bw_index N3 udev ep < 2 * (N3 : Int) + (N2 : Int)) ∧
    (∃ sch_array, xhci_mtk_sch_init M N3 N2 true = (0, some sch_array) ∧
      sch_array.length = 2 * N3 + N2 ∧
      0 ≤ get_bw_index N3 udev ep ∧
      (get_bw_index N3 udev ep).toNat < sch_array.length ∧
      sch_array_at sch_array (get_bw_index N3 udev ep)
        = some { bus_bw := List.replicate M 0, bw_ep_list := [] }) ∧
    xhci_mtk_sch_init M N3 N2 false = (-ENOMEM, none) ∧
    (∀ (udev2 : usb_device) (ep2 : usb_host_endpoint), port_valid N3 N2 udev2 →
      get_bw_index N3 udev ep = get_bw_index N3 udev2 ep2 →
      udev.real_port = udev2.real_port ∧
      (udev.speed = USB_SPEED_SUPER ↔ udev2.speed = USB_SPEED_SUPER) ∧
      (udev.speed = USB_SPEED_SUPER → ep.dir_out = ep2.dir_out)) := by
  have hidx : 0 ≤ get_bw_index N3 udev ep ∧
      get_bw_index N3 udev ep < 2 * (N3 : Int) + (N2 : Int) := by
    unfold port_valid at hport
    unfold get_bw_index
    split_ifs at hport ⊢ <;> omega
  refine ⟨?_, ?_, ?_, rfl, ?_⟩
  · intro hs
    unfold port_valid at hport
    rw [if_pos hs] at hport
    unfold get_bw_index
    rw [if_pos hs]
    split_ifs <;> omega
  · intro hs
    unfold port_valid at hport
    rw [if_neg hs] at hport
    unfold get_bw_index
    rw [if_neg hs]
    omega
  · have hlt : (get_bw_index N3 udev ep).toNat < N3 * 2 + N2 := by omega
    refine ⟨List.replicate (N3 * 2 + N2) { bus_bw := List.replicate M 0, bw_ep_list := [] },
      rfl, by simp only [List.length_replicate]; omega, hidx.1,
      by simp only [List.length_replicate]; omega, ?_⟩
    unfold sch_array_at
    rw [if_neg (by omega), List.getElem?_replicate, if_pos hlt]
  · intro udev2 ep2 hport2 heq
    unfold port_valid at hport hport2
    unfold get_bw_index at heq
    by_cases h1 : udev.speed = USB_SPEED_SUPER <;> by_cases h2 : udev2.speed = USB_SPEED_SUPER
    · simp only [h1, h2, if_true] at hport hport2 heq ⊢
      cases hd1 : ep.dir_out <;> cases hd2 : ep2.dir_out <;> simp [hd1, hd2] at heq ⊢ <;> omega
    · simp only [h1, h2, if_true, if_false] at hport hport2 heq ⊢
      cases hd1 : ep.dir_out <;> simp [hd1] at heq <;> omega
    · simp only [h1, h2, if_true, if_false] at hport hport2 heq ⊢
      cases hd2 : ep2.dir_out <;> simp [hd2] at heq <;> omega
    · simp only [h1, h2, if_false] at hport hport2 heq ⊢
      simp
      omega

/-- Witness of C10: with one Super-speed port and one High-speed port,
`xhci_mtk_sch_init` allocates 3 zeroed domains and the High-speed device on port
2 uses domain 2 of them. -/
theorem get_bw_index_layout_witness :
    port_valid 1 1 ex_hs_udev ∧
    get_bw_index 1 ex_hs_udev ex_hs_ep = 2 ∧
    xhci_mtk_sch_init 64 1 1 true = (0, some [ex_flat_bw 0, ex_flat_bw 0, ex_flat_bw 0]) ∧
    sch_array_at [ex_flat_bw 0, ex_flat_bw 0, ex_flat_bw 0] (get_bw_index 1 ex_hs_udev ex_hs_ep)
      = some (ex_flat_bw 0) ∧
    2 * (1 : Int) ≤ get_bw_index 1 ex_hs_udev ex_hs_ep ∧
    get_bw_index 1 ex_hs_udev ex_hs_ep < 2 * (1 : Int) + (1 : Int) ∧
    (∃ sch_array, xhci_mtk_sch_init 64 1 1 true = (0, some sch_array) ∧
      sch_array.length = 2 * 1 + 1 ∧
      0 ≤ get_bw_index 1 ex_hs_udev ex_hs_ep ∧
      (get_bw_index 1 ex_hs_udev ex_hs_ep).toNat < sch_array.length ∧
      sch_array_at sch_array (get_bw_index 1 ex_hs_udev ex_hs_ep)
        = some { bus_bw := List.replicate 64 0, bw_ep_list := [] }) :=
  ⟨by decide, by decide, by decide, by decide,
    ((get_bw_index_layout 64 1 1 ex_hs_udev ex_hs_ep (by decide)).2.1 (by decide)).2.1,
    ((get_bw_index_layout 64 1 1 ex_hs_udev ex_hs_ep (by decide)).2.1 (by decide)).2.2,
    (get_bw_index_layout 64 1 1 ex_hs_udev ex_hs_ep (by decide)).2.2.1⟩

/-! ## Lemmas on `create_sch_ep`, `get_esit` and powers of two -/

theorem create_sch_ep_eq {M : Nat} { kzalloc_ok : Bool} {udev : usb_device}
    {ep : usb_host_endpoint} {ep_ctx : xhci_ep_ctx} {e0 : mu3h_sch_ep_info}
    (h : create_sch_ep M kzalloc_ok udev ep ep_ctx = some e0) :
    e0 = { esit := 0, num_budget_microframes := 0, bw_cost_per_microframe := 0, ep := ep.id,
           offset := 0, repeat_ := 0, pkts := 0, cs_count := 0, burst_mode := 0,
           bw_budget_table := List.replicate
            (if is_fs_or_ls udev.speed then TT_MICROFRAMES_MAX
              else if udev.speed = USB_SPEED_SUPER ∧ ep.xfer_type = XFER_ISOC then
                get_esit M ep_ctx
              else 1) 0 } := by
  unfold create_sch_ep at h
  cases kzalloc_ok with
  | false => simp at h
  | true =>
    rw [if_pos rfl, Option.some.injEq] at h
    exact h.symm

theorem get_esit_eq_min (M : Nat) (ep_ctx : xhci_ep_ctx) (he : ep_ctx.interval ≤ 31) :
    get_esit M ep_ctx = min (2 ^ ep_ctx.interval) M := by
  unfold get_esit
  have h1 : 2 ^ ep_ctx.interval < 2 ^ 32 := Nat.pow_lt_pow_right (by omega) (by omega)
  have h2 : u32 (1 <<< ep_ctx.interval) = 2 ^ ep_ctx.interval := by
    rw [Nat.one_shiftLeft]
    exact u32_of_lt (by omega)
  simp only [h2]
  split_ifs <;> omega

theorem get_esit_pow2 (k : Nat) (ep_ctx : xhci_ep_ctx) (he : ep_ctx.interval ≤ 31) :
    get_esit (2 ^ k) ep_ctx = 2 ^ (min ep_ctx.interval k) := by
  rw [get_esit_eq_min _ _ he]
  rcases Nat.le_total ep_ctx.interval k with h | h
  · rw [Nat.min_eq_left h, Nat.min_eq_left (Nat.pow_le_pow_right (by omega) h)]
  · rw [Nat.min_eq_right h, Nat.min_eq_right (Nat.pow_le_pow_right (by omega) h)]

/-- C13: eligibility.  `need_bw_sch` returns true if and only if the transfer
type is Interrupt or Isochronous and it is not the case that the speed is Low or
Full while `has_tt` is 0; it is false for every Control and Bulk endpoint. -/
theorem need_bw_sch_iff (ep : usb_host_endpoint) (speed : usb_device_speed) (has_tt : Nat) :
    (need_bw_sch ep speed has_tt = true ↔
      (ep.xfer_type = XFER_INT ∨ ep.xfer_type = XFER_ISOC) ∧
        ¬ ((speed = USB_SPEED_LOW ∨ speed = USB_SPEED_FULL) ∧ has_tt = 0)) ∧
    (ep.xfer_type = XFER_CONTROL ∨ ep.xfer_type = XFER_BULK →
      need_bw_sch ep speed has_tt = false) := by
  unfold need_bw_sch is_fs_or_ls
  cases hx : ep.xfer_type <;> cases speed <;> by_cases ht : has_tt = 0 <;> simp [ht]

/-- C14: for every High-speed endpoint with max packet size `m` (16 bits) and
max burst `b` (8 bits), `setup_sch_info` on the entry `create_sch_ep` returns
yields `pkts = b + 1`, `cs_count = 0`, `burst_mode = 0`, `repeat = 0`,
`num_budget_microframes = 1` and
`bw_cost_per_microframe = bw_budget_table[0] = m * (b + 1)`. -/
theorem setup_sch_info_high_speed (M : Nat) (udev : usb_device) (ep : usb_host_endpoint)
    (ep_ctx : xhci_ep_ctx) (e0 : mu3h_sch_ep_info) (hs : udev.speed = USB_SPEED_HIGH)
    (hm : ep_ctx.maxpkt < 65536) (hb : ep_ctx.max_burst < 256)
    ( kzalloc_ok : Bool) (hcreate : create_sch_ep M kzalloc_ok udev ep ep_ctx = some e0) :
    (setup_sch_info M udev ep_ctx e0).pkts = ep_ctx.max_burst + 1 ∧
    (setup_sch_info M udev ep_ctx e0).cs_count = 0 ∧
    (setup_sch_info M udev ep_ctx e0).burst_mode = 0 ∧
    (setup_sch_info M udev ep_ctx e0).repeat_ = 0 ∧
    (setup_sch_info M udev ep_ctx e0).num_budget_microframes = 1 ∧
    (setup_sch_info M udev ep_ctx e0).bw_cost_per_microframe
      = ep_ctx.maxpkt * (ep_ctx.max_burst + 1) ∧
    (setup_sch_info M udev ep_ctx e0).bw_budget_table = [ep_ctx.maxpkt * (ep_ctx.max_burst + 1)] := by
  have hprod : ep_ctx.maxpkt * (ep_ctx.max_burst + 1) ≤ 65535 * 256 :=
    Nat.mul_le_mul (by omega) (by omega)
  have h1 : u32 (ep_ctx.max_burst + 1) = ep_ctx.max_burst + 1 := u32_of_lt (by omega)
  have h2 : u32 (ep_ctx.maxpkt * (ep_ctx.max_burst + 1)) = ep_ctx.maxpkt * (ep_ctx.max_burst + 1) :=
    u32_of_lt (by omega)
  have htab : e0.bw_budget_table = [0] := by
    rw [create_sch_ep_eq hcreate]
    simp [hs, is_fs_or_ls, List.replicate]
  unfold setup_sch_info
  simp only [hs, if_true, h1, h2, htab, List.set_cons_zero, and_self]

/-- Witness of C14: a High-speed interrupt endpoint with max packet size 64 and
max burst 0 gets `pkts = 1` and a single slot costing 64. -/
theorem setup_sch_info_high_speed_witness :
    create_sch_ep 64 true ex_hs_udev ex_hs_ep ex_hs_ctx = some (ex_zeroed 1 1) ∧
    (setup_sch_info 64 ex_hs_udev ex_hs_ctx (ex_zeroed 1 1)).pkts = 1 ∧
    (setup_sch_info 64 ex_hs_udev ex_hs_ctx (ex_zeroed 1 1)).num_budget_microframes = 1 ∧
    (setup_sch_info 64 ex_hs_udev ex_hs_ctx (ex_zeroed 1 1)).bw_budget_table = [64] :=
  ⟨by decide,
    (setup_sch_info_high_speed 64 ex_hs_udev ex_hs_ep ex_hs_ctx (ex_zeroed 1 1) (by decide)
      (by decide) (by decide) true (by decide)).1,
    (setup_sch_info_high_speed 64 ex_hs_udev ex_hs_ep ex_hs_ctx (ex_zeroed 1 1) (by decide)
      (by decide) (by decide) true (by decide)).2.2.2.2.1,
    (setup_sch_info_high_speed 64 ex_hs_udev ex_hs_ep ex_hs_ctx (ex_zeroed 1 1) (by decide)
      (by decide) (by decide) true (by decide)).2.2.2.2.2.2⟩

/-- Counterexample to C15 as stated.  A Full-speed interrupt endpoint of a device
that is not behind a transaction translator is not eligible; adding it sets
`reserved[0]` to `EP_BPKTS(1) = 1`, and dropping it returns at once: `reserved[0]`
is still 1 afterwards. -/
theorem drop_ep_quirk_clear_counterexample :
    need_bw_sch ex_hs_ep ex_fs_root_udev.speed ex_fs_root_udev.tt_slot = false ∧
    xhci_mtk_add_ep_quirk 64 1 [ex_flat_bw 0, ex_flat_bw 0, ex_flat_bw 0] true ex_fs_root_udev
      ex_hs_ep ex_fs_ctx
        = some (0, [ex_flat_bw 0, ex_flat_bw 0, ex_flat_bw 0],
            { ex_fs_ctx with reserved0 := 1 }) ∧
    xhci_mtk_drop_ep_quirk 64 1 [ex_flat_bw 0, ex_flat_bw 0, ex_flat_bw 0] ex_fs_root_udev
      ex_hs_ep { ex_fs_ctx with reserved0 := 1 }
        = some ([ex_flat_bw 0, ex_flat_bw 0, ex_flat_bw 0], { ex_fs_ctx with reserved0 := 1 }) ∧
    ({ ex_fs_ctx with reserved0 := 1 } : xhci_ep_ctx).reserved0 ≠ 0 := by
  decide

/-- C15, amended: dropping an endpoint that is not eligible for scheduling
(`need_bw_sch` false) changes nothing: `xhci_mtk_drop_ep_quirk` returns the array
of domains and the endpoint context, `reserved[0]` and `reserved[1]` included, as
they were.  The two words are cleared to 0 when the endpoint is eligible. -/
theorem drop_ep_quirk_reserved (M N3 : Nat) (sch_array : List mu3h_sch_bw_info)
    (udev : usb_device) (ep : usb_host_endpoint) (ep_ctx : xhci_ep_ctx) :
    (need_bw_sch ep udev.speed udev.tt_slot = false →
      xhci_mtk_drop_ep_quirk M N3 sch_array udev ep ep_ctx = some (sch_array, ep_ctx)) ∧
    (need_bw_sch ep udev.speed udev.tt_slot = true →
      ∀ r, xhci_mtk_drop_ep_quirk M N3 sch_array udev ep ep_ctx = some r →
        r.2.reserved0 = 0 ∧ r.2.reserved1 = 0) := by
  constructor
  · intro hneed
    unfold xhci_mtk_drop_ep_quirk
    simp [hneed]
  · intro hneed r hr
    cases hdom : sch_array_at sch_array (get_bw_index N3 udev ep) with
    | none =>
      unfold xhci_mtk_drop_ep_quirk at hr
      simp [hneed, hdom] at hr
    | some sch_bw =>
      rw [drop_ep_quirk_eq M N3 sch_array udev ep ep_ctx sch_bw hneed hdom] at hr
      simp only [Option.some.injEq] at hr
      rw [← hr]
      exact ⟨rfl, rfl⟩

/-- Witness of C15: the drop of the Full-speed interrupt endpoint of a device on
a root port keeps `reserved[0] = 1`; the drop of a High-speed interrupt endpoint
clears it. -/
theorem drop_ep_quirk_reserved_witness :
    need_bw_sch ex_hs_ep ex_fs_root_udev.speed ex_fs_root_udev.tt_slot = false ∧
    xhci_mtk_drop_ep_quirk 64 1 [ex_flat_bw 0, ex_flat_bw 0, ex_flat_bw 0] ex_fs_root_udev
      ex_hs_ep { ex_fs_ctx with reserved0 := 1 }
        = some ([ex_flat_bw 0, ex_flat_bw 0, ex_flat_bw 0], { ex_fs_ctx with reserved0 := 1 }) ∧
    need_bw_sch ex_hs_ep ex_hs_udev.speed ex_hs_udev.tt_slot = true ∧
    (xhci_mtk_drop_ep_quirk 64 1 [ex_flat_bw 0, ex_flat_bw 0, ex_once_bw] ex_hs_udev
      ex_hs_ep { ex_hs_ctx4 with reserved0 := 1 }).map (fun r => r.2.reserved0) = some 0 :=
  ⟨by decide,
    (drop_ep_quirk_reserved 64 1 [ex_flat_bw 0, ex_flat_bw 0, ex_flat_bw 0] ex_fs_root_udev
      ex_hs_ep { ex_fs_ctx with reserved0 := 1 }).1 (by decide),
    by decide, by decide⟩

/-- C16: dropping a never-admitted endpoint is a no-op on the schedule.  For
every array of domains and every eligible endpoint that is not in the member
list of its domain, `xhci_mtk_drop_ep_quirk` returns the array as it was, every
slot of `bus_bw` and every member list included (only the two encoded words of
the context are cleared), and a second drop gives the same result as the
first. -/
theorem drop_ep_quirk_never_admitted (M N3 : Nat) (sch_array : List mu3h_sch_bw_info)
    (udev : usb_device) (ep : usb_host_endpoint) (ep_ctx : xhci_ep_ctx)
    (sch_bw : mu3h_sch_bw_info)
    (hneed : need_bw_sch ep udev.speed udev.tt_slot = true)
    (hdom : sch_array_at sch_array (get_bw_index N3 udev ep) = some sch_bw)
    (hfresh : ∀ m ∈ sch_bw.bw_ep_list, m.ep ≠ ep.id) :
    xhci_mtk_drop_ep_quirk M N3 sch_array udev ep ep_ctx
      = some (sch_array, { ep_ctx with reserved0 := 0, reserved1 := 0 }) ∧
    (xhci_mtk_drop_ep_quirk M N3 sch_array udev ep ep_ctx).bind
        (fun r => xhci_mtk_drop_ep_quirk M N3 r.1 udev ep r.2)
      = xhci_mtk_drop_ep_quirk M N3 sch_array udev ep ep_ctx := by
  have hnone : sch_bw.bw_ep_list.find? (fun sch_ep => decide (sch_ep.ep = ep.id)) = none := by
    rw [List.find?_eq_none]
    intro m hm
    simpa using hfresh m hm
  have hset : sch_array.set (get_bw_index N3 udev ep).toNat sch_bw = sch_array :=
    set_self_of_getElem? _ _ _ (sch_array_at_some hdom).2.2
  have h1 : ∀ ctx : xhci_ep_ctx, xhci_mtk_drop_ep_quirk M N3 sch_array udev ep ctx
      = some (sch_array, { ctx with reserved0 := 0, reserved1 := 0 }) := by
    intro ctx
    rw [drop_ep_quirk_eq M N3 sch_array udev ep ctx sch_bw hneed hdom, hnone]
    simp only [hset]
  refine ⟨h1 ep_ctx, ?_⟩
  rw [h1 ep_ctx]
  simp only [Option.bind, h1]

/-- Witness of C16: dropping the endpoint 5, which was never added, from the
array whose third domain holds the endpoint 1 gives back the array. -/
theorem drop_ep_quirk_never_admitted_witness :
    need_bw_sch { ex_hs_ep with id := 5 } ex_hs_udev.speed ex_hs_udev.tt_slot = true ∧
    xhci_mtk_drop_ep_quirk 64 1 [ex_flat_bw 0, ex_flat_bw 0, ex_once_bw] ex_hs_udev
      { ex_hs_ep with id := 5 } ex_hs_ctx4
        = some ([ex_flat_bw 0, ex_flat_bw 0, ex_once_bw],
            { ex_hs_ctx4 with reserved0 := 0, reserved1 := 0 }) :=
  ⟨by decide,
    (drop_ep_quirk_never_admitted 64 1 [ex_flat_bw 0, ex_flat_bw 0, ex_once_bw] ex_hs_udev
      { ex_hs_ep with id := 5 } ex_hs_ctx4 ex_once_bw (by decide) (by decide) (by decide)).1⟩

/-- C17: for every interval exponent `e` with `0 <= e <= 31`, `get_esit` returns
`min (2 ^ e) XHCI_MTK_MAX_ESIT`; hence, when `XHCI_MTK_MAX_ESIT` is a power of
two `2 ^ k`, the result is the power of two `2 ^ min e k`, and it divides
`XHCI_MTK_MAX_ESIT`. -/
theorem get_esit_spec (M : Nat) (ep_ctx : xhci_ep_ctx) (he : ep_ctx.interval ≤ 31) :
    get_esit M ep_ctx = min (2 ^ ep_ctx.interval) M ∧
    ∀ k, M = 2 ^ k →
      get_esit M ep_ctx = 2 ^ (min ep_ctx.interval k) ∧ get_esit M ep_ctx ∣ M := by
  refine ⟨get_esit_eq_min M ep_ctx he, ?_⟩
  intro k hk
  subst hk
  rw [get_esit_pow2 k ep_ctx he]
  exact ⟨rfl, Nat.pow_dvd_pow 2 (Nat.min_le_right _ _)⟩

/-- Witness of C17: with `XHCI_MTK_MAX_ESIT = 64`, the interval exponent 2 gives
`esit = 4` and the exponent 10 gives the clamped `esit = 64`. -/
theorem get_esit_spec_witness :
    ex_hs_ctx4.interval ≤ 31 ∧ get_esit 64 ex_hs_ctx4 = 4 ∧
    get_esit 64 { ex_hs_ctx4 with interval := 10 } = 64 ∧
    get_esit 64 ex_hs_ctx4 ∣ 64 :=
  ⟨by decide, by decide, by decide,
    ((get_esit_spec 64 ex_hs_ctx4 (by decide)).2 6 (by decide)).2⟩

/-! ## Lemmas on the budget table -/

theorem fill_table_length (t : List Nat) (start stop v : Nat) :
    (fill_table t start stop v).length = t.length := by
  unfold fill_table
  exact inner_length (fun _ _ => v) (fun _ => 0) start (stop - start) t

theorem fs_cs_count (m : Nat) (hm : m < 65536) : DIV_ROUND_UP m FS_PAYLOAD_MAX = (m + 187) / 188 := by
  unfold FS_PAYLOAD_MAX
  rw [DIV_ROUND_UP_eq m 188 (by omega) (by omega)]
  have h : m + 188 - 1 = m + 187 := by omega
  rw [h]

theorem isoc_remainder_le (maxpkt P pkts : Nat) (hpk1 : 1 ≤ pkts) (hP : P + pkts < 4294967296) :
    maxpkt * pkts * DIV_ROUND_UP P pkts - maxpkt * P ≤ maxpkt * pkts := by
  rw [DIV_ROUND_UP_eq P pkts hpk1 hP]
  have h2 : pkts * ((P + pkts - 1) / pkts) ≤ P + pkts - 1 := ceil_mul_le P pkts
  have h4 : maxpkt * (pkts * ((P + pkts - 1) / pkts)) ≤ maxpkt * (P + pkts) :=
    Nat.mul_le_mul_left _ (by omega)
  have h5 : maxpkt * (P + pkts) = maxpkt * P + maxpkt * pkts := Nat.mul_add _ _ _
  have h7 : maxpkt * pkts * ((P + pkts - 1) / pkts)
      = maxpkt * (pkts * ((P + pkts - 1) / pkts)) := by ring
  omega

theorem get_esit_pos (M : Nat) (ep_ctx : xhci_ep_ctx) (he : ep_ctx.interval ≤ 31) (hM : 1 ≤ M) :
    1 ≤ get_esit M ep_ctx := by
  rw [get_esit_eq_min M ep_ctx he]
  have : 1 ≤ 2 ^ ep_ctx.interval := Nat.one_le_two_pow
  omega

/-- C18: for every Super-speed isochronous endpoint (context fields with their
widths, interval exponent at most 31), the subtraction that computes the last
budget slot in `setup_sch_info` does not underflow:
`bw_cost_per_microframe * num_budget_microframes >= maxpkt * esit_pkts`, the
product fitting in 32 bits; and the last budget-table entry written, at index
`num_budget_microframes - 1`, is their difference, which is at most
`bw_cost_per_microframe`. -/
theorem setup_sch_info_last_slot (M : Nat) (udev : usb_device) (ep_ctx : xhci_ep_ctx)
    (e0 : mu3h_sch_ep_info) (hs : udev.speed = USB_SPEED_SUPER)
    (ht : ep_ctx.ep_type = ISOC_IN_EP ∨ ep_ctx.ep_type = ISOC_OUT_EP)
    (hwf : ctx_wf ep_ctx) (he : ep_ctx.interval ≤ 31) (hM : 1 ≤ M)
    (hlen : (setup_sch_info M udev ep_ctx e0).num_budget_microframes
      ≤ e0.bw_budget_table.length) :
    ep_ctx.maxpkt * ss_esit_pkts ep_ctx
      ≤ (setup_sch_info M udev ep_ctx e0).bw_cost_per_microframe *
          (setup_sch_info M udev ep_ctx e0).num_budget_microframes ∧
    (setup_sch_info M udev ep_ctx e0).bw_cost_per_microframe *
        (setup_sch_info M udev ep_ctx e0).num_budget_microframes < 4294967296 ∧
    1 ≤ (setup_sch_info M udev ep_ctx e0).num_budget_microframes ∧
    (setup_sch_info M udev ep_ctx e0).bw_budget_table.getD
        ((setup_sch_info M udev ep_ctx e0).num_budget_microframes - 1) 0
      = (setup_sch_info M udev ep_ctx e0).bw_cost_per_microframe *
          (setup_sch_info M udev ep_ctx e0).num_budget_microframes -
        ep_ctx.maxpkt * ss_esit_pkts ep_ctx ∧
    (setup_sch_info M udev ep_ctx e0).bw_budget_table.getD
        ((setup_sch_info M udev ep_ctx e0).num_budget_microframes - 1) 0
      ≤ (setup_sch_info M udev ep_ctx e0).bw_cost_per_microframe := by
  have hH : ¬ udev.speed = USB_SPEED_HIGH := by rw [hs]; decide
  have hInt : ¬ (ep_ctx.ep_type = INT_IN_EP ∨ ep_ctx.ep_type = INT_OUT_EP) := by
    rcases ht with h | h <;> rw [h] <;> decide
  have hes := get_esit_pos M ep_ctx he hM
  obtain ⟨hP1, hP, hmP⟩ := esit_pkts_bounds ep_ctx hwf
  unfold setup_sch_info ss_esit_pkts at *
  simp only [if_neg hH, if_pos hs, if_pos ht, if_neg hInt] at hlen ⊢
  generalize (if DIV_ROUND_UP ep_ctx.max_esit_payload ep_ctx.maxpkt = 0 then
      u32 (u32 (ep_ctx.mult + 1) * u32 (ep_ctx.max_burst + 1))
    else DIV_ROUND_UP ep_ctx.max_esit_payload ep_ctx.maxpkt) = P at hP1 hP hmP hlen ⊢
  obtain ⟨hk1, hk⟩ := isoc_pkts_bounds P (get_esit M ep_ctx) hP1 hP hes
  generalize (if get_esit M ep_ctx = 1 then P else if P ≤ get_esit M ep_ctx then 1
    else u32 (roundup_pow_of_two P / get_esit M ep_ctx)) = pkts at hk1 hk hlen ⊢
  obtain ⟨e1, e2, e3, e4, e5⟩ := isoc_values_lt ep_ctx.maxpkt P pkts hk1 hk hP hmP
  have hr := isoc_remainder_le ep_ctx.maxpkt P pkts hk1 (by omega)
  have hn1 : 1 ≤ DIV_ROUND_UP P pkts := by
    rw [DIV_ROUND_UP_eq P pkts hk1 (by omega)]
    exact Nat.div_pos (by omega) (by omega)
  have hnlt : DIV_ROUND_UP P pkts < 4294967296 := by
    rw [DIV_ROUND_UP_eq P pkts hk1 (by omega)]
    have := Nat.div_le_self (P + pkts - 1) pkts
    omega
  have hi : u32_sub (DIV_ROUND_UP P pkts) 1 = DIV_ROUND_UP P pkts - 1 :=
    u32_sub_of_le hn1 hnlt
  rw [e5, e1, hi] at *
  refine ⟨e3, by omega, hn1, ?_, ?_⟩
  · rw [getD_set, if_pos ⟨rfl, by rw [fill_table_length]; omega⟩]
  · rw [getD_set, if_pos ⟨rfl, by rw [fill_table_length]; omega⟩]
    exact hr

/-- Witness of C18: for the Super-speed isochronous endpoint with `esit = 2`, max
packet size 1024 and `esit_pkts = 3`, the last of the 2 slots holds
`2048 * 2 - 3072 = 1024`, at most the cost 2048 of a microframe. -/
theorem setup_sch_info_last_slot_witness :
    ctx_wf (ex_ss_ctx 3072 1) ∧
    (setup_sch_info 64 ex_ss_udev (ex_ss_ctx 3072 1) (ex_zeroed 1 2)).num_budget_microframes
      ≤ (ex_zeroed 1 2).bw_budget_table.length ∧
    (setup_sch_info 64 ex_ss_udev (ex_ss_ctx 3072 1) (ex_zeroed 1 2)).bw_budget_table.getD 1 0
      = 1024 ∧
    (setup_sch_info 64 ex_ss_udev (ex_ss_ctx 3072 1) (ex_zeroed 1 2)).bw_budget_table.getD
        ((setup_sch_info 64 ex_ss_udev (ex_ss_ctx 3072 1)
          (ex_zeroed 1 2)).num_budget_microframes - 1) 0
      ≤ (setup_sch_info 64 ex_ss_udev (ex_ss_ctx 3072 1)
          (ex_zeroed 1 2)).bw_cost_per_microframe :=
  ⟨by decide, by decide, by decide,
    (setup_sch_info_last_slot 64 ex_ss_udev (ex_ss_ctx 3072 1) (ex_zeroed 1 2) (by decide)
      (by decide) (by decide) (by decide) (by decide) (by decide)).2.2.2.2⟩

theorem roundup_loop_pow2 (fuel : Nat) :
    ∀ b n : Nat, ∃ a, roundup_loop fuel (2 ^ b) n = 2 ^ a := by
  induction fuel with
  | zero => intro b n; exact ⟨b, rfl⟩
  | succ fuel ih =>
    intro b n
    rw [roundup_loop]
    by_cases h : n ≤ 2 ^ b
    · rw [if_pos h]; exact ⟨b, rfl⟩
    · rw [if_neg h]
      have e : 2 * 2 ^ b = 2 ^ (b + 1) := by rw [pow_succ]; ring
      rw [e]
      exact ih (b + 1) n

theorem roundup_pow_of_two_pow2 (n : Nat) : ∃ a, roundup_pow_of_two n = 2 ^ a := by
  unfold roundup_pow_of_two
  have h := roundup_loop_pow2 n 0 n
  simpa using h

theorem ceil_le_of_le_mul (P pkts esit : Nat) (hk : 1 ≤ pkts) (h : P ≤ esit * pkts)
    (hw : P + pkts < 4294967296) : DIV_ROUND_UP P pkts ≤ esit := by
  rw [DIV_ROUND_UP_eq P pkts hk hw]
  have h1 : (P + pkts - 1) / pkts < esit + 1 := by
    rw [Nat.div_lt_iff_lt_mul hk]
    have e : (esit + 1) * pkts = esit * pkts + pkts := by ring
    omega
  omega

theorem ss_isoc_num_le (P c : Nat) (hP1 : 1 ≤ P) (hP : P < 33554432) :
    DIV_ROUND_UP P (if 2 ^ c = 1 then P else if P ≤ 2 ^ c then 1
      else u32 (roundup_pow_of_two P / 2 ^ c)) ≤ 2 ^ c := by
  have hpos : 1 ≤ 2 ^ c := Nat.one_le_two_pow
  by_cases h1 : 2 ^ c = 1
  · rw [if_pos h1]
    exact ceil_le_of_le_mul P P (2 ^ c) hP1 (by rw [h1]; omega) (by omega)
  · rw [if_neg h1]
    by_cases h2 : P ≤ 2 ^ c
    · rw [if_pos h2]
      exact ceil_le_of_le_mul P 1 (2 ^ c) (le_refl _) (by omega) (by omega)
    · rw [if_neg h2]
      obtain ⟨r1, r2⟩ := roundup_pow_of_two_spec P hP1
      obtain ⟨a, ha⟩ := roundup_pow_of_two_pow2 P
      rw [ha] at r1 r2 ⊢
      have hca : c < a := by
        have : 2 ^ c < 2 ^ a := by omega
        exact (Nat.pow_lt_pow_iff_right (by omega)).1 this
      have hdiv : 2 ^ a / 2 ^ c = 2 ^ (a - c) := Nat.pow_div (by omega) (by omega)
      have hmul : 2 ^ c * 2 ^ (a - c) = 2 ^ a := by
        rw [← pow_add]; congr 1; omega
      have hle : 2 ^ (a - c) ≤ 2 ^ a := Nat.pow_le_pow_right (by omega) (by omega)
      have hpk : 1 ≤ 2 ^ (a - c) := Nat.one_le_two_pow
      rw [hdiv, u32_of_lt (by omega)]
      exact ceil_le_of_le_mul P (2 ^ (a - c)) (2 ^ c) hpk (by rw [hmul]; exact r1) (by omega)

theorem setup_sch_info_num (M : Nat) (udev : usb_device) (ep_ctx : xhci_ep_ctx)
    (e0 : mu3h_sch_ep_info) :
    (setup_sch_info M udev ep_ctx e0).num_budget_microframes =
      if udev.speed = USB_SPEED_HIGH then 1
      else if udev.speed = USB_SPEED_SUPER then
        if ep_ctx.ep_type = ISOC_IN_EP ∨ ep_ctx.ep_type = ISOC_OUT_EP then
          DIV_ROUND_UP (ss_esit_pkts ep_ctx)
            (if get_esit M ep_ctx = 1 then ss_esit_pkts ep_ctx
              else if ss_esit_pkts ep_ctx ≤ get_esit M ep_ctx then 1
              else u32 (roundup_pow_of_two (ss_esit_pkts ep_ctx) / get_esit M ep_ctx))
        else if ep_ctx.ep_type = INT_IN_EP ∨ ep_ctx.ep_type = INT_OUT_EP then 1
        else e0.num_budget_microframes
      else if is_fs_or_ls udev.speed then u32 (DIV_ROUND_UP ep_ctx.maxpkt FS_PAYLOAD_MAX + 2)
      else e0.num_budget_microframes := by
  unfold setup_sch_info ss_esit_pkts
  simp only
  by_cases hH : udev.speed = USB_SPEED_HIGH
  · simp only [if_pos hH]
  · simp only [if_neg hH]
    by_cases hS : udev.speed = USB_SPEED_SUPER
    · simp only [if_pos hS]
      by_cases hI : ep_ctx.ep_type = ISOC_IN_EP ∨ ep_ctx.ep_type = ISOC_OUT_EP
      · have hInt : ¬ (ep_ctx.ep_type = INT_IN_EP ∨ ep_ctx.ep_type = INT_OUT_EP) := by
          rcases hI with h | h <;> rw [h] <;> decide
        simp only [if_pos hI, if_neg hInt]
      · simp only [if_neg hI]
        by_cases hInt : ep_ctx.ep_type = INT_IN_EP ∨ ep_ctx.ep_type = INT_OUT_EP
        · simp only [if_pos hInt]
        · simp only [if_neg hInt]
    · simp only [if_neg hS]
      by_cases hF : is_fs_or_ls udev.speed = true
      · simp only [if_pos hF]
        split_ifs <;> rfl
      · simp only [if_neg hF]

/-- Counterexample to C11 as stated.  For a Full-speed interrupt IN endpoint of 8
bytes with interval exponent 0, `setup_sch_info` gives `esit = 1` and
`num_budget_microframes = cs_count + 2 = 3`; `check_sch_bw` then finds no offset
and returns `-ERANGE`. -/
theorem setup_sch_info_num_counterexample :
    (setup_sch_info 64 ex_fs_udev { ex_fs_ctx with interval := 0 } (ex_zeroed 1 9)).esit = 1 ∧
    (setup_sch_info 64 ex_fs_udev { ex_fs_ctx with interval := 0 }
      (ex_zeroed 1 9)).num_budget_microframes = 3 ∧
    ¬ ((setup_sch_info 64 ex_fs_udev { ex_fs_ctx with interval := 0 }
        (ex_zeroed 1 9)).num_budget_microframes
      ≤ (setup_sch_info 64 ex_fs_udev { ex_fs_ctx with interval := 0 } (ex_zeroed 1 9)).esit) ∧
    (check_sch_bw 64 ex_fs_udev (ex_flat_bw 0)
      (setup_sch_info 64 ex_fs_udev { ex_fs_ctx with interval := 0 } (ex_zeroed 1 9))).1
        = -ERANGE := by
  decide

/-- C11, amended: with `XHCI_MTK_MAX_ESIT` a power of two `2 ^ k`, context fields
of their widths and an interval exponent of at most 31, the entry
`setup_sch_info` builds from the entry of `create_sch_ep` has
`num_budget_microframes <= esit` for every speed other than Low and Full; for a
Low/Full-speed endpoint with max packet size `m`, `num_budget_microframes` is
`ceil(m / 188) + 2`, so it is at most `esit` exactly when `ceil(m / 188) + 2 <= esit`,
which holds for an interval exponent of at least 3, `XHCI_MTK_MAX_ESIT >= 8` and
`m <= 1023`.  Every entry that `check_sch_bw` admits has
`num_budget_microframes <= esit`. -/
theorem setup_sch_info_num_le_esit (k : Nat) (udev : usb_device) (ep : usb_host_endpoint)
    (ep_ctx : xhci_ep_ctx) (e0 : mu3h_sch_ep_info) ( kzalloc_ok : Bool)
    (hwf : ctx_wf ep_ctx) (he : ep_ctx.interval ≤ 31)
    (hcreate : create_sch_ep (2 ^ k) kzalloc_ok udev ep ep_ctx = some e0) :
    (¬ (udev.speed = USB_SPEED_LOW ∨ udev.speed = USB_SPEED_FULL) →
      (setup_sch_info (2 ^ k) udev ep_ctx e0).num_budget_microframes
        ≤ (setup_sch_info (2 ^ k) udev ep_ctx e0).esit) ∧
    (udev.speed = USB_SPEED_LOW ∨ udev.speed = USB_SPEED_FULL →
      (setup_sch_info (2 ^ k) udev ep_ctx e0).num_budget_microframes
        = (ep_ctx.maxpkt + 187) / 188 + 2 ∧
      ((setup_sch_info (2 ^ k) udev ep_ctx e0).num_budget_microframes
          ≤ (setup_sch_info (2 ^ k) udev ep_ctx e0).esit ↔
        (ep_ctx.maxpkt + 187) / 188 + 2 ≤ (setup_sch_info (2 ^ k) udev ep_ctx e0).esit) ∧
      (3 ≤ ep_ctx.interval → 3 ≤ k → ep_ctx.maxpkt ≤ 1023 →
        (setup_sch_info (2 ^ k) udev ep_ctx e0).num_budget_microframes
          ≤ (setup_sch_info (2 ^ k) udev ep_ctx e0).esit)) ∧
    (∀ (sch_bw : mu3h_sch_bw_info) (sch_ep : mu3h_sch_ep_info),
      (check_sch_bw (2 ^ k) udev sch_bw sch_ep).1 = 0 →
      sch_ep.num_budget_microframes ≤ sch_ep.esit) := by
  have h0 : e0.num_budget_microframes = 0 := by rw [create_sch_ep_eq hcreate]
  have hes : get_esit (2 ^ k) ep_ctx = 2 ^ (min ep_ctx.interval k) := get_esit_pow2 k ep_ctx he
  have hpos : 1 ≤ 2 ^ (min ep_ctx.interval k) := Nat.one_le_two_pow
  have hP1 : 1 ≤ ss_esit_pkts ep_ctx := (esit_pkts_bounds ep_ctx hwf).1
  have hP : ss_esit_pkts ep_ctx < 33554432 := (esit_pkts_bounds ep_ctx hwf).2.1
  rw [setup_sch_info_esit, setup_sch_info_num, hes, h0]
  refine ⟨?_, ?_, ?_⟩
  · intro hnls
    have hF : ¬ is_fs_or_ls udev.speed = true := by
      unfold is_fs_or_ls
      intro h
      simp only [Bool.or_eq_true, decide_eq_true_eq] at h
      exact hnls (Or.symm h)
    rw [if_neg hF]
    by_cases hH : udev.speed = USB_SPEED_HIGH
    · rw [if_pos hH]; exact hpos
    · rw [if_neg hH]
      by_cases hS : udev.speed = USB_SPEED_SUPER
      · rw [if_pos hS]
        by_cases hI : ep_ctx.ep_type = ISOC_IN_EP ∨ ep_ctx.ep_type = ISOC_OUT_EP
        · rw [if_pos hI]
          exact ss_isoc_num_le (ss_esit_pkts ep_ctx) (min ep_ctx.interval k) hP1 hP
        · rw [if_neg hI]
          by_cases hInt : ep_ctx.ep_type = INT_IN_EP ∨ ep_ctx.ep_type = INT_OUT_EP
          · rw [if_pos hInt]; exact hpos
          · rw [if_neg hInt]; exact Nat.zero_le _
      · rw [if_neg hS]; exact Nat.zero_le _
  · intro hls
    have hfs : is_fs_or_ls udev.speed = true := by
      unfold is_fs_or_ls; rcases hls with h | h <;> simp [h]
    have hH : ¬ udev.speed = USB_SPEED_HIGH := by rcases hls with h | h <;> simp [h]
    have hS : ¬ udev.speed = USB_SPEED_SUPER := by rcases hls with h | h <;> simp [h]
    have hm : ep_ctx.maxpkt < 65536 := hwf.1
    have hq : (ep_ctx.maxpkt + 187) / 188 ≤ 65722 / 188 := Nat.div_le_div_right (by omega)
    rw [if_neg hH, if_neg hS, if_pos hfs, fs_cs_count _ hm, u32_of_lt (by omega)]
    refine ⟨rfl, Iff.rfl, ?_⟩
    intro h3 hk3 hm2
    have hq2 : (ep_ctx.maxpkt + 187) / 188 ≤ 6 := by omega
    have h8 : 2 ^ 3 ≤ 2 ^ (min ep_ctx.interval k) :=
      Nat.pow_le_pow_right (by omega) (by omega)
    omega
  · intro sch_bw sch_ep hret
    have hle := (check_sch_bw_ret (2 ^ k) udev sch_bw sch_ep).1.1 hret
    have hc := (search_le_candidate (2 ^ k) udev sch_bw sch_ep hle).1
    have := hc.2.1
    omega

/-- Witness of C11: with `XHCI_MTK_MAX_ESIT = 2 ^ 6`, the Super-speed isochronous
endpoint with `esit = 2` and `esit_pkts = 3` gets 2 budget microframes, at most
its `esit`. -/
theorem setup_sch_info_num_le_esit_witness :
    ctx_wf (ex_ss_ctx 3072 1) ∧ (ex_ss_ctx 3072 1).interval ≤ 31 ∧
    create_sch_ep (2 ^ 6) true ex_ss_udev (ex_isoc_ep 1) (ex_ss_ctx 3072 1)
      = some (ex_zeroed 1 2) ∧
    ¬ (ex_ss_udev.speed = USB_SPEED_LOW ∨ ex_ss_udev.speed = USB_SPEED_FULL) ∧
    (setup_sch_info (2 ^ 6) ex_ss_udev (ex_ss_ctx 3072 1) (ex_zeroed 1 2)).num_budget_microframes
      = 2 ∧
    (setup_sch_info (2 ^ 6) ex_ss_udev (ex_ss_ctx 3072 1) (ex_zeroed 1 2)).num_budget_microframes
      ≤ (setup_sch_info (2 ^ 6) ex_ss_udev (ex_ss_ctx 3072 1) (ex_zeroed 1 2)).esit :=
  ⟨by decide, by decide, by decide, by decide, by decide,
    (setup_sch_info_num_le_esit 6 ex_ss_udev (ex_isoc_ep 1) (ex_ss_ctx 3072 1) (ex_zeroed 1 2)
      true (by decide) (by decide) (by decide)).1 (by decide)⟩

theorem run_stores_fill (t : List Nat) (start stop v : Nat) :
    run_stores t (fill_table_stores start stop v) = fill_table t start stop v := by
  unfold run_stores fill_table_stores fill_table
  rw [List.foldl_map]

theorem run_stores_append (t : List Nat) (a b : List (Nat × Nat)) :
    run_stores t (a ++ b) = run_stores (run_stores t a) b := by
  unfold run_stores
  rw [List.foldl_append]

theorem run_stores_single (t : List Nat) (i v : Nat) : run_stores t [(i, v)] = t.set i v := rfl

theorem run_stores_nil (t : List Nat) : run_stores t [] = t := rfl

theorem run_stores_pair (t : List Nat) (i v j w : Nat) :
    run_stores t [(i, v), (j, w)] = (t.set i v).set j w := rfl

theorem fill_table_stores_mem {start stop v : Nat} {s : Nat × Nat}
    (h : s ∈ fill_table_stores start stop v) : start ≤ s.1 ∧ s.1 < stop := by
  unfold fill_table_stores at h
  rw [List.mem_map] at h
  obtain ⟨k, hk, rfl⟩ := h
  rw [List.mem_range] at hk
  constructor
  · exact Nat.le_add_right _ _
  · show start + k < stop
    omega

theorem setup_sch_info_table (M : Nat) (udev : usb_device) (ep_ctx : xhci_ep_ctx)
    (e0 : mu3h_sch_ep_info) :
    (setup_sch_info M udev ep_ctx e0).bw_budget_table =
      run_stores e0.bw_budget_table (setup_sch_info_stores M udev ep_ctx) := by
  unfold setup_sch_info setup_sch_info_stores
  simp only
  by_cases hH : udev.speed = USB_SPEED_HIGH
  · simp only [if_pos hH]
    rw [run_stores_single]
  · simp only [if_neg hH]
    by_cases hS : udev.speed = USB_SPEED_SUPER
    · simp only [if_pos hS]
      by_cases hI : ep_ctx.ep_type = ISOC_IN_EP ∨ ep_ctx.ep_type = ISOC_OUT_EP
      · have hInt : ¬ (ep_ctx.ep_type = INT_IN_EP ∨ ep_ctx.ep_type = INT_OUT_EP) := by
          rcases hI with h | h <;> rw [h] <;> decide
        simp only [if_pos hI, if_neg hInt]
        rw [List.nil_append, run_stores_append, run_stores_fill, run_stores_single]
      · simp only [if_neg hI]
        rw [List.append_nil]
        by_cases hInt : ep_ctx.ep_type = INT_IN_EP ∨ ep_ctx.ep_type = INT_OUT_EP
        · simp only [if_pos hInt]
          rw [run_stores_single]
        · simp only [if_neg hInt]
          rw [run_stores_nil]
    · simp only [if_neg hS]
      by_cases hF : is_fs_or_ls udev.speed = true
      · simp only [if_pos hF]
        by_cases h1 : ep_ctx.ep_type = ISOC_OUT_EP
        · simp only [if_pos h1]
          rw [run_stores_fill]
        · simp only [if_neg h1]
          by_cases h2 : ep_ctx.ep_type = INT_OUT_EP
          · simp only [if_pos h2]
            rw [run_stores_single]
          · simp only [if_neg h2]
            rw [run_stores_append, run_stores_fill, run_stores_pair]
      · simp only [if_neg hF]
        rw [run_stores_nil]

theorem ss_isoc_num_pos (P esit : Nat) (hP1 : 1 ≤ P) (hP : P < 33554432) (he : 1 ≤ esit) :
    1 ≤ DIV_ROUND_UP P (if esit = 1 then P else if P ≤ esit then 1
          else u32 (roundup_pow_of_two P / esit)) := by
  obtain ⟨h1, h2⟩ := isoc_pkts_bounds P esit hP1 hP he
  generalize (if esit = 1 then P else if P ≤ esit then 1
          else u32 (roundup_pow_of_two P / esit)) = pkts at h1 h2
  rw [DIV_ROUND_UP_eq P pkts h1 (by omega)]
  exact (Nat.one_le_div_iff h1).mpr (by omega)

theorem setup_sch_info_stores_ss_isoc (M : Nat) (udev : usb_device) (ep_ctx : xhci_ep_ctx)
    (hS : udev.speed = USB_SPEED_SUPER)
    (hI : ep_ctx.ep_type = ISOC_IN_EP ∨ ep_ctx.ep_type = ISOC_OUT_EP) :
    ∀ s ∈ setup_sch_info_stores M udev ep_ctx,
      s.1 ≤ u32_sub (DIV_ROUND_UP (ss_esit_pkts ep_ctx)
        (if get_esit M ep_ctx = 1 then ss_esit_pkts ep_ctx
          else if ss_esit_pkts ep_ctx ≤ get_esit M ep_ctx then 1
          else u32 (roundup_pow_of_two (ss_esit_pkts ep_ctx) / get_esit M ep_ctx))) 1 := by
  have hH : ¬ udev.speed = USB_SPEED_HIGH := by rw [hS]; decide
  have hInt : ¬ (ep_ctx.ep_type = INT_IN_EP ∨ ep_ctx.ep_type = INT_OUT_EP) := by
    rcases hI with h | h <;> rw [h] <;> decide
  unfold setup_sch_info_stores ss_esit_pkts
  simp only [if_neg hH, if_pos hS, if_pos hI, if_neg hInt]
  intro s hs
  rw [List.nil_append, List.mem_append, List.mem_singleton] at hs
  rcases hs with h | h
  · exact Nat.le_of_lt (fill_table_stores_mem h).2
  · rw [h]

theorem setup_sch_info_stores_ss_int (M : Nat) (udev : usb_device) (ep_ctx : xhci_ep_ctx)
    (hS : udev.speed = USB_SPEED_SUPER)
    (hInt : ep_ctx.ep_type = INT_IN_EP ∨ ep_ctx.ep_type = INT_OUT_EP) :
    ∀ s ∈ setup_sch_info_stores M udev ep_ctx, s.1 = 0 := by
  have hH : ¬ udev.speed = USB_SPEED_HIGH := by rw [hS]; decide
  have hI : ¬ (ep_ctx.ep_type = ISOC_IN_EP ∨ ep_ctx.ep_type = ISOC_OUT_EP) := by
    rcases hInt with h | h <;> rw [h] <;> decide
  unfold setup_sch_info_stores
  simp only [if_neg hH, if_pos hS, if_pos hInt, if_neg hI]
  intro s hs
  rw [List.append_nil, List.mem_singleton] at hs
  rw [hs]

theorem setup_sch_info_stores_hs (M : Nat) (udev : usb_device) (ep_ctx : xhci_ep_ctx)
    (hH : udev.speed = USB_SPEED_HIGH) :
    ∀ s ∈ setup_sch_info_stores M udev ep_ctx, s.1 = 0 := by
  unfold setup_sch_info_stores
  simp only [if_pos hH]
  intro s hs
  rw [List.mem_singleton] at hs
  rw [hs]

theorem setup_sch_info_stores_fs (M : Nat) (udev : usb_device) (ep_ctx : xhci_ep_ctx)
    (hls : udev.speed = USB_SPEED_LOW ∨ udev.speed = USB_SPEED_FULL) :
    ∀ s ∈ setup_sch_info_stores M udev ep_ctx,
      s.1 ≤ 1 ∨ s.1 < u32 (DIV_ROUND_UP ep_ctx.maxpkt FS_PAYLOAD_MAX + 2) := by
  have hfs : is_fs_or_ls udev.speed = true := by
    unfold is_fs_or_ls; rcases hls with h | h <;> simp [h]
  have hH : ¬ udev.speed = USB_SPEED_HIGH := by rcases hls with h | h <;> simp [h]
  have hS : ¬ udev.speed = USB_SPEED_SUPER := by rcases hls with h | h <;> simp [h]
  unfold setup_sch_info_stores
  simp only [if_neg hH, if_neg hS, if_pos hfs]
  intro s hs
  by_cases h1 : ep_ctx.ep_type = ISOC_OUT_EP
  · rw [if_pos h1] at hs
    exact Or.inr (fill_table_stores_mem hs).2
  · rw [if_neg h1] at hs
    by_cases h2 : ep_ctx.ep_type = INT_OUT_EP
    · rw [if_pos h2, List.mem_singleton] at hs
      rw [hs]; exact Or.inl (Nat.zero_le _)
    · rw [if_neg h2, List.mem_append] at hs
      rcases hs with h | h
      · simp only [List.mem_cons, List.mem_singleton, List.not_mem_nil, or_false] at h
        rcases h with h | h <;> rw [h] <;> exact Or.inl (by omega)
      · exact Or.inr (fill_table_stores_mem h).2

/-- C19: writes of the budget table stay inside the allocation.  With
`XHCI_MTK_MAX_ESIT` a power of two `2 ^ k`, for every Super-speed isochronous
endpoint with max packet size above 0 (context fields of their widths, interval
exponent at most 31), every Low/Full-speed endpoint with max packet size at most
1023, every High-speed endpoint and every Super-speed interrupt endpoint: the
table `create_sch_ep` allocated has `esit` words for Super-speed isochronous,
`TT_MICROFRAMES_MAX = 9` for Low/Full-speed and 1 otherwise, the table of the
entry `setup_sch_info` builds is the result of its stores on that table, and the
index of each store is smaller than the length of the table. -/
theorem setup_sch_info_stores_in_table (k : Nat) (udev : usb_device) (ep : usb_host_endpoint)
    (ep_ctx : xhci_ep_ctx) (e0 : mu3h_sch_ep_info) ( kzalloc_ok : Bool)
    (hcreate : create_sch_ep (2 ^ k) kzalloc_ok udev ep ep_ctx = some e0)
    (hcase :
      (udev.speed = USB_SPEED_SUPER ∧ ep.xfer_type = XFER_ISOC ∧
        (ep_ctx.ep_type = ISOC_IN_EP ∨ ep_ctx.ep_type = ISOC_OUT_EP) ∧
        0 < ep_ctx.maxpkt ∧ ctx_wf ep_ctx ∧ ep_ctx.interval ≤ 31) ∨
      ((udev.speed = USB_SPEED_LOW ∨ udev.speed = USB_SPEED_FULL) ∧ ep_ctx.maxpkt ≤ 1023) ∨
      udev.speed = USB_SPEED_HIGH ∨
      (udev.speed = USB_SPEED_SUPER ∧ ep.xfer_type = XFER_INT ∧
        (ep_ctx.ep_type = INT_IN_EP ∨ ep_ctx.ep_type = INT_OUT_EP))) :
    e0.bw_budget_table.length =
      (if udev.speed = USB_SPEED_SUPER ∧ ep.xfer_type = XFER_ISOC then get_esit (2 ^ k) ep_ctx
        else if udev.speed = USB_SPEED_LOW ∨ udev.speed = USB_SPEED_FULL then TT_MICROFRAMES_MAX
        else 1) ∧
    (setup_sch_info (2 ^ k) udev ep_ctx e0).bw_budget_table =
      run_stores e0.bw_budget_table (setup_sch_info_stores (2 ^ k) udev ep_ctx) ∧
    ∀ s ∈ setup_sch_info_stores (2 ^ k) udev ep_ctx, s.1 < e0.bw_budget_table.length := by
  have hlen : e0.bw_budget_table.length =
      (if is_fs_or_ls udev.speed then TT_MICROFRAMES_MAX
        else if udev.speed = USB_SPEED_SUPER ∧ ep.xfer_type = XFER_ISOC then
          get_esit (2 ^ k) ep_ctx
        else 1) := by
    rw [create_sch_ep_eq hcreate]
    exact List.length_replicate _ _
  refine ⟨?_, setup_sch_info_table _ _ _ _, ?_⟩
  · rw [hlen]
    rcases hcase with ⟨hS, hx, _⟩ | ⟨hls, _⟩ | hH | ⟨hS, hx, _⟩
    · have hF : ¬ is_fs_or_ls udev.speed = true := by rw [hS]; decide
      rw [if_neg hF, if_pos ⟨hS, hx⟩, if_pos ⟨hS, hx⟩]
    · have hfs : is_fs_or_ls udev.speed = true := by
        unfold is_fs_or_ls; rcases hls with h | h <;> simp [h]
      have hS : ¬ (udev.speed = USB_SPEED_SUPER ∧ ep.xfer_type = XFER_ISOC) := by
        rcases hls with h | h <;> simp [h]
      rw [if_pos hfs, if_neg hS, if_pos hls]
    · have hF : ¬ is_fs_or_ls udev.speed = true := by rw [hH]; decide
      have hS : ¬ (udev.speed = USB_SPEED_SUPER ∧ ep.xfer_type = XFER_ISOC) := by simp [hH]
      have hls : ¬ (udev.speed = USB_SPEED_LOW ∨ udev.speed = USB_SPEED_FULL) := by simp [hH]
      rw [if_neg hF, if_neg hS, if_neg hS, if_neg hls]
    · have hF : ¬ is_fs_or_ls udev.speed = true := by rw [hS]; decide
      have hS2 : ¬ (udev.speed = USB_SPEED_SUPER ∧ ep.xfer_type = XFER_ISOC) := by simp [hx]
      have hls : ¬ (udev.speed = USB_SPEED_LOW ∨ udev.speed = USB_SPEED_FULL) := by simp [hS]
      rw [if_neg hF, if_neg hS2, if_neg hS2, if_neg hls]
  · intro s hs
    rw [hlen]
    rcases hcase with ⟨hS, hx, hI, _, hwf, he⟩ | ⟨hls, hm⟩ | hH | ⟨hS, hx, hInt⟩
    · have hF : ¬ is_fs_or_ls udev.speed = true := by rw [hS]; decide
      have hes : get_esit (2 ^ k) ep_ctx = 2 ^ (min ep_ctx.interval k) :=
        get_esit_pow2 k ep_ctx he
      have hpos : 1 ≤ 2 ^ (min ep_ctx.interval k) := Nat.one_le_two_pow
      have h31 : 2 ^ (min ep_ctx.interval k) ≤ 2 ^ 31 :=
        Nat.pow_le_pow_right (by omega) (le_trans (Nat.min_le_left _ _) he)
      have hP1 : 1 ≤ ss_esit_pkts ep_ctx := (esit_pkts_bounds ep_ctx hwf).1
      have hP : ss_esit_pkts ep_ctx < 33554432 := (esit_pkts_bounds ep_ctx hwf).2.1
      have hb := setup_sch_info_stores_ss_isoc (2 ^ k) udev ep_ctx hS hI s hs
      rw [hes] at hb
      have hn1 := ss_isoc_num_pos (ss_esit_pkts ep_ctx) (2 ^ (min ep_ctx.interval k)) hP1 hP hpos
      have hn2 := ss_isoc_num_le (ss_esit_pkts ep_ctx) (min ep_ctx.interval k) hP1 hP
      rw [if_neg hF, if_pos ⟨hS, hx⟩, hes]
      generalize DIV_ROUND_UP (ss_esit_pkts ep_ctx)
        (if 2 ^ (min ep_ctx.interval k) = 1 then ss_esit_pkts ep_ctx
          else if ss_esit_pkts ep_ctx ≤ 2 ^ (min ep_ctx.interval k) then 1
          else u32 (roundup_pow_of_two (ss_esit_pkts ep_ctx) / 2 ^ (min ep_ctx.interval k)))
        = N at hb hn1 hn2
      rw [u32_sub_of_le hn1 (by omega)] at hb
      omega
    · have hfs : is_fs_or_ls udev.speed = true := by
        unfold is_fs_or_ls; rcases hls with h | h <;> simp [h]
      have hb := setup_sch_info_stores_fs (2 ^ k) udev ep_ctx hls s hs
      have hq : (ep_ctx.maxpkt + 187) / 188 ≤ 1210 / 188 := Nat.div_le_div_right (by omega)
      rw [fs_cs_count _ (by omega), u32_of_lt (by omega)] at hb
      rw [if_pos hfs]
      unfold TT_MICROFRAMES_MAX
      omega
    · have hF : ¬ is_fs_or_ls udev.speed = true := by rw [hH]; decide
      have hS : ¬ (udev.speed = USB_SPEED_SUPER ∧ ep.xfer_type = XFER_ISOC) := by simp [hH]
      rw [if_neg hF, if_neg hS, setup_sch_info_stores_hs (2 ^ k) udev ep_ctx hH s hs]
      exact Nat.zero_lt_one
    · have hF : ¬ is_fs_or_ls udev.speed = true := by rw [hS]; decide
      have hS2 : ¬ (udev.speed = USB_SPEED_SUPER ∧ ep.xfer_type = XFER_ISOC) := by simp [hx]
      rw [if_neg hF, if_neg hS2, setup_sch_info_stores_ss_int (2 ^ k) udev ep_ctx hS hInt s hs]
      exact Nat.zero_lt_one

/-- Witness of C19: with `XHCI_MTK_MAX_ESIT = 2 ^ 6`, the Super-speed isochronous
endpoint with `esit = 2` and `esit_pkts = 3` gets a table of 2 words and
`setup_sch_info` stores at the indices 0 and 1. -/
theorem setup_sch_info_stores_in_table_witness :
    create_sch_ep (2 ^ 6) true ex_ss_udev (ex_isoc_ep 1) (ex_ss_ctx 3072 1)
      = some (ex_zeroed 1 2) ∧
    setup_sch_info_stores (2 ^ 6) ex_ss_udev (ex_ss_ctx 3072 1) = [(0, 2048), (1, 1024)] ∧
    ∀ s ∈ setup_sch_info_stores (2 ^ 6) ex_ss_udev (ex_ss_ctx 3072 1),
      s.1 < (ex_zeroed 1 2).bw_budget_table.length :=
  ⟨by decide, by decide,
    (setup_sch_info_stores_in_table 6 ex_ss_udev (ex_isoc_ep 1) (ex_ss_ctx 3072 1) (ex_zeroed 1 2)
      true (by decide) (Or.inl (by decide))).2.2⟩

theorem inner_trace_mem (base k : Nat) (acc : List Nat) (idx : Nat) :
    idx ∈ (List.range k).foldl (fun r j => r ++ [base + j]) acc ↔
      idx ∈ acc ∨ ∃ j, j < k ∧ idx = base + j := by
  induction k with
  | zero => simp
  | succ k ih =>
    rw [foldl_range_succ, List.mem_append, List.mem_singleton, ih]
    constructor
    · rintro ((h | ⟨j, hj, h⟩) | h)
      · exact Or.inl h
      · exact Or.inr ⟨j, by omega, h⟩
      · exact Or.inr ⟨k, by omega, h⟩
    · rintro (h | ⟨j, hj, h⟩)
      · exact Or.inl (Or.inl h)
      · by_cases hjk : j = k
        · subst hjk; exact Or.inr h
        · exact Or.inl (Or.inr ⟨j, by omega, h⟩)

theorem outer_trace_mem (off esit num n : Nat) (acc : List Nat) (idx : Nat) :
    idx ∈ (List.range n).foldl (fun r i =>
        (List.range num).foldl (fun r j => r ++ [off + i * esit + j]) r) acc ↔
      idx ∈ acc ∨ ∃ i j, i < n ∧ j < num ∧ idx = off + i * esit + j := by
  induction n with
  | zero => simp
  | succ n ih =>
    rw [foldl_range_succ, inner_trace_mem, ih]
    constructor
    · rintro ((h | ⟨i, j, hi, hj, h⟩) | ⟨j, hj, h⟩)
      · exact Or.inl h
      · exact Or.inr ⟨i, j, by omega, hj, h⟩
      · exact Or.inr ⟨n, j, by omega, hj, h⟩
    · rintro (h | ⟨i, j, hi, hj, h⟩)
      · exact Or.inl (Or.inl h)
      · by_cases hin : i = n
        · subst hin; exact Or.inr ⟨j, hj, h⟩
        · exact Or.inl (Or.inr ⟨i, j, by omega, hj, h⟩)

theorem get_max_bw_reads_mem (M : Nat) (sch_ep : mu3h_sch_ep_info) (offset idx : Nat) :
    idx ∈ get_max_bw_reads M sch_ep offset ↔
      ∃ i j, i < M / sch_ep.esit ∧ j < sch_ep.num_budget_microframes ∧
        idx = offset + i * sch_ep.esit + j := by
  unfold get_max_bw_reads
  simp only
  rw [outer_trace_mem]
  simp

theorem update_bus_bw_writes_mem (M : Nat) (sch_ep : mu3h_sch_ep_info) (idx : Nat) :
    idx ∈ update_bus_bw_writes M sch_ep ↔
      ∃ i j, i < M / sch_ep.esit ∧ j < sch_ep.num_budget_microframes ∧
        idx = sch_ep.offset + i * sch_ep.esit + j := by
  unfold update_bus_bw_writes
  simp only
  rw [outer_trace_mem]
  simp

theorem check_sch_bw_loop_traced_fst (M : Nat) (udev : usb_device) (sch_bw : mu3h_sch_bw_info)
    (sch_ep : mu3h_sch_ep_info) (fuel : Nat) :
    ∀ (offset : Nat) (st : Nat × Nat) (calls : List Nat),
      (check_sch_bw_loop_traced M udev sch_bw sch_ep fuel offset st calls).1 =
        check_sch_bw_loop M udev sch_bw sch_ep fuel offset st := by
  induction fuel with
  | zero => intro offset st calls; rfl
  | succ fuel ih =>
    intro offset st calls
    obtain ⟨min_bw, min_index⟩ := st
    rw [check_sch_bw_loop_traced, check_sch_bw_loop]
    by_cases h1 : offset + sch_ep.num_budget_microframes > sch_ep.esit
    · rw [if_pos h1, if_pos h1]
    · rw [if_neg h1, if_neg h1]
      by_cases h2 : (is_fs_or_ls udev.speed && decide (offset % 8 = 6)) = true
      · rw [if_pos h2, if_pos h2]; exact ih _ _ _
      · rw [if_neg h2, if_neg h2]
        simp only
        generalize (if min_bw > get_max_bw M sch_bw sch_ep offset then
            (get_max_bw M sch_bw sch_ep offset, offset)
          else if min_bw = get_max_bw M sch_bw sch_ep offset then
            if (sch_offset_used sch_bw min_index && !sch_offset_used sch_bw offset) = true then
              (min_bw, offset)
            else (min_bw, min_index)
          else (min_bw, min_index)) = st
        by_cases h3 : st.1 = 0
        · rw [if_pos h3, if_pos h3]
        · rw [if_neg h3, if_neg h3]; exact ih _ _ _

theorem check_sch_bw_loop_traced_calls (M : Nat) (udev : usb_device) (sch_bw : mu3h_sch_bw_info)
    (sch_ep : mu3h_sch_ep_info) (fuel : Nat) :
    ∀ (offset : Nat) (st : Nat × Nat) (calls : List Nat),
      (∀ o ∈ calls, o + sch_ep.num_budget_microframes ≤ sch_ep.esit) →
      ∀ o ∈ (check_sch_bw_loop_traced M udev sch_bw sch_ep fuel offset st calls).2,
        o + sch_ep.num_budget_microframes ≤ sch_ep.esit := by
  induction fuel with
  | zero => intro offset st calls h; exact h
  | succ fuel ih =>
    intro offset st calls h
    obtain ⟨min_bw, min_index⟩ := st
    rw [check_sch_bw_loop_traced]
    by_cases h1 : offset + sch_ep.num_budget_microframes > sch_ep.esit
    · rw [if_pos h1]; exact h
    · rw [if_neg h1]
      by_cases h2 : (is_fs_or_ls udev.speed && decide (offset % 8 = 6)) = true
      · rw [if_pos h2]; exact ih _ _ _ h
      · rw [if_neg h2]
        simp only
        have h4 : ∀ o ∈ calls ++ [offset], o + sch_ep.num_budget_microframes ≤ sch_ep.esit := by
          intro o ho
          rw [List.mem_append, List.mem_singleton] at ho
          rcases ho with ho | ho
          · exact h o ho
          · rw [ho]; omega
        generalize (if min_bw > get_max_bw M sch_bw sch_ep offset then
            (get_max_bw M sch_bw sch_ep offset, offset)
          else if min_bw = get_max_bw M sch_bw sch_ep offset then
            if (sch_offset_used sch_bw min_index && !sch_offset_used sch_bw offset) = true then
              (min_bw, offset)
            else (min_bw, min_index)
          else (min_bw, min_index)) = st
        by_cases h3 : st.1 = 0
        · rw [if_pos h3]; exact h4
        · rw [if_neg h3]; exact ih _ _ _ h4

theorem get_max_bw_reads_only (M : Nat) (a b : mu3h_sch_bw_info) (sch_ep : mu3h_sch_ep_info)
    (offset : Nat)
    (h : ∀ idx ∈ get_max_bw_reads M sch_ep offset, a.bus_bw.getD idx 0 = b.bus_bw.getD idx 0) :
    get_max_bw M a sch_ep offset = get_max_bw M b sch_ep offset := by
  unfold get_max_bw
  simp only
  apply List.foldl_ext
  intro acc i hi
  apply List.foldl_ext
  intro acc2 j hj
  rw [h (offset + i * sch_ep.esit + j) ((get_max_bw_reads_mem M sch_ep offset _).mpr
    ⟨i, j, List.mem_range.mp hi, List.mem_range.mp hj, rfl⟩)]

theorem update_bus_bw_writes_only (M : Nat) (sch_bw : mu3h_sch_bw_info)
    (sch_ep : mu3h_sch_ep_info) (used : Bool) (idx : Nat)
    (h : idx ∉ update_bus_bw_writes M sch_ep) :
    (update_bus_bw M sch_bw sch_ep used).bus_bw.getD idx 0 = sch_bw.bus_bw.getD idx 0 := by
  rw [update_bus_bw_bus_bw]
  exact outer_getD_untouched (bw_step used) (fun j => sch_ep.bw_budget_table.getD j 0)
    sch_ep.offset sch_ep.esit sch_ep.num_budget_microframes (M / sch_ep.esit) sch_bw.bus_bw idx
    (fun i hi j hj heq => h ((update_bus_bw_writes_mem M sch_ep idx).mpr ⟨i, j, hi, hj, heq⟩))

/-- C20: slot indexing stays inside the domain array.  For every entry and every
offset with `offset + num_budget_microframes <= esit`, each index
`offset + i * esit + j` with `i < XHCI_MTK_MAX_ESIT / esit` and
`j < num_budget_microframes` is below `XHCI_MTK_MAX_ESIT`, the length of `bus_bw`;
these are the indices `get_max_bw` reads at that offset (its result depends on no
other slot) and the indices `update_bus_bw` writes for an entry at that offset
(it changes no other slot).  `check_sch_bw` calls `get_max_bw` only with such
offsets, and when it returns 0, the only case in which it calls `update_bus_bw`,
the offset it stored in the entry is such an offset. -/
theorem slot_indexing_in_domain (M : Nat) (udev : usb_device) (sch_bw : mu3h_sch_bw_info)
    (sch_ep : mu3h_sch_ep_info) (offset : Nat)
    (hoff : offset + sch_ep.num_budget_microframes ≤ sch_ep.esit) :
    (∀ i j, i < M / sch_ep.esit → j < sch_ep.num_budget_microframes →
      offset + i * sch_ep.esit + j < M) ∧
    (∀ idx ∈ get_max_bw_reads M sch_ep offset, idx < M) ∧
    (∀ idx ∈ update_bus_bw_writes M { sch_ep with offset := offset }, idx < M) ∧
    (∀ a b : mu3h_sch_bw_info,
      (∀ idx ∈ get_max_bw_reads M sch_ep offset, a.bus_bw.getD idx 0 = b.bus_bw.getD idx 0) →
      get_max_bw M a sch_ep offset = get_max_bw M b sch_ep offset) ∧
    (∀ (used : Bool) (idx : Nat), idx ∉ update_bus_bw_writes M { sch_ep with offset := offset } →
      (update_bus_bw M sch_bw { sch_ep with offset := offset } used).bus_bw.getD idx 0
        = sch_bw.bus_bw.getD idx 0) ∧
    (∀ o ∈ check_sch_bw_calls M udev sch_bw sch_ep,
      o + sch_ep.num_budget_microframes ≤ sch_ep.esit ∧
      ∀ idx ∈ get_max_bw_reads M sch_ep o, idx < M) ∧
    ((check_sch_bw M udev sch_bw sch_ep).1 = 0 →
      (check_sch_bw M udev sch_bw sch_ep).2.2.offset + sch_ep.num_budget_microframes
        ≤ sch_ep.esit ∧
      (check_sch_bw M udev sch_bw sch_ep).2.1
        = update_bus_bw M sch_bw (check_sch_bw M udev sch_bw sch_ep).2.2 true ∧
      ∀ idx ∈ update_bus_bw_writes M (check_sch_bw M udev sch_bw sch_ep).2.2, idx < M) ∧
    ((check_sch_bw M udev sch_bw sch_ep).1 ≠ 0 →
      (check_sch_bw M udev sch_bw sch_ep).2.1 = sch_bw) := by
  have hreads : ∀ o, o + sch_ep.num_budget_microframes ≤ sch_ep.esit →
      ∀ idx ∈ get_max_bw_reads M sch_ep o, idx < M := by
    intro o ho idx hidx
    obtain ⟨i, j, hi, hj, rfl⟩ := (get_max_bw_reads_mem M sch_ep o idx).mp hidx
    exact slot_index_lt ho hi hj
  have hwrites : ∀ o, o + sch_ep.num_budget_microframes ≤ sch_ep.esit →
      ∀ idx ∈ update_bus_bw_writes M { sch_ep with offset := o }, idx < M := by
    intro o ho idx hidx
    obtain ⟨i, j, hi, hj, rfl⟩ :=
      (update_bus_bw_writes_mem M { sch_ep with offset := o } idx).mp hidx
    exact slot_index_lt ho hi hj
  refine ⟨fun i j hi hj => slot_index_lt hoff hi hj, hreads offset hoff, hwrites offset hoff,
    fun a b h => get_max_bw_reads_only M a b sch_ep offset h,
    fun used idx h => update_bus_bw_writes_only M sch_bw _ used idx h, ?_, ?_, ?_⟩
  · intro o ho
    have h := check_sch_bw_loop_traced_calls M udev sch_bw sch_ep sch_ep.esit 0 (4294967295, 0) []
      (fun o ho => absurd ho (List.not_mem_nil o)) o ho
    exact ⟨h, hreads o h⟩
  · intro hret
    have hle := (check_sch_bw_ret M udev sch_bw sch_ep).1.1 hret
    have hc := (search_le_candidate M udev sch_bw sch_ep hle).1.2.1
    have hentry := check_sch_bw_offset M udev sch_bw sch_ep
    refine ⟨?_, ?_, ?_⟩
    · rw [hentry]; exact hc
    · rw [check_sch_bw_ok M udev sch_bw sch_ep hle]
    · rw [hentry]; exact hwrites _ hc
  · intro hret
    have hnle : ¬ (check_sch_bw_search M udev sch_bw sch_ep).1 ≤ bw_boundary udev :=
      fun hle => hret ((check_sch_bw_ret M udev sch_bw sch_ep).1.2 hle)
    rw [check_sch_bw_fail M udev sch_bw sch_ep hnle]

/-- Witness of C20: for the Full-speed interrupt entry with `esit = 16` and 3
budget microframes at offset 13, `get_max_bw` reads the slots 13, 14, 15 of every
16, all below 64; the search of `check_sch_bw` calls it with the offsets 0 to 13
except 6. -/
theorem slot_indexing_in_domain_witness :
    13 + ex_fs_entry.num_budget_microframes ≤ ex_fs_entry.esit ∧
    get_max_bw_reads 64 ex_fs_entry 13 = [13, 14, 15, 29, 30, 31, 45, 46, 47, 61, 62, 63] ∧
    check_sch_bw_calls 64 ex_fs_udev ex_y6_bw ex_fs_entry
      = [0, 1, 2, 3, 4, 5, 7, 8, 9, 10, 11, 12, 13] ∧
    ∀ idx ∈ get_max_bw_reads 64 ex_fs_entry 13, idx < 64 :=
  ⟨by decide, by decide, by decide,
    (slot_indexing_in_domain 64 ex_fs_udev ex_y6_bw ex_fs_entry 13 (by decide)).2.1⟩

end XhciMtkSch
